import Mathlib

/-!
# lcc: lowering of the syntax tree to LLVM IR (src/CodeGen.cc) and the type model (src/Type.h)

A shallow embedding of the code generator of `src/CodeGen.cc`, of the classes
of `src/Type.h` and of the node `TypeName` of `src/Parse/Syntax.h`.

* The IR objects the generator builds through the LLVM API (types, values,
  instructions, basic blocks, functions, the module) are plain data.  Blocks
  and functions are kept in the context and named by their position, so that a
  block can exist without belonging to a function, as the else and merge block
  of an if statement do for a while.
* The lowering context is passed explicitly.  A run that dereferences a null
  pointer, reads `back()` of an empty block, fails an `assert` of the source or
  reaches `std::terminate()` returns an error.
* The builder calls place their instruction and nothing else: assertions
  inside LLVM (operand types of a comparison, the type of a branch condition)
  and the renaming of clashing names are not part of the model.  Of
  `llvm::verifyFunction` the model keeps the rules on block structure.  The
  assertion of the header template `llvm::cast`, which is compiled with this
  file, is kept: it fails like an `assert` of the source.
* `Codegen` of expressions and of statements other than blocks and if
  statements are virtual calls whose definitions in this file are stubs; the
  nodes carry what such a call returns or inserts, the stubs being the case of
  a null value and of no instruction.
* The module keeps its global variables in a list, in the order of creation;
  a name belongs to the value created with it first.
* Of `src/Type.h` the members defined in the header are translated from it.
  Members that the header only declares are defined outside these sources;
  where one is needed its definition follows the spec and says so.  Sizes and
  ids are natural numbers, a `std::string_view` is a string.
-/

namespace lcc

/-- The ways in which a lowering call stops without returning. -/
inductive CodegenError where
  /-- A null pointer is dereferenced. -/
  | nullDereference
  /-- The member `back()` is called on a basic block without instructions. -/
  | backOfEmptyBlock
  /-- An `assert` of the source, or the one of `llvm::cast`, fails. -/
  | assertionFailed
  /-- The call `std::terminate()` is reached after a failed verification. -/
  | terminated
  deriving DecidableEq, Repr

deriving instance DecidableEq for Except

/-! ## The IR objects -/

/-- The IR types the generator asks the builder for. -/
inductive LLVMType where
  | voidTy
  | intTy (bits : Nat)
  | floatTy
  | doubleTy
  | pointerTy (pointee : LLVMType)
  deriving DecidableEq, Repr

/-- The source's `LLVMTypePtr`, a pointer to an IR type that may be null. -/
abbrev LLVMTypePtr := Option LLVMType

/-- The member `llvm::Type::isIntegerTy`. -/
def LLVMType.isIntegerTy : LLVMType → Bool
  | .intTy _ => true
  | _ => false

/-- The member `llvm::Type::isFloatingPointTy`. -/
def LLVMType.isFloatingPointTy : LLVMType → Bool
  | .floatTy => true
  | .doubleTy => true
  | _ => false

/-- The member `llvm::Type::isVoidTy`. -/
def LLVMType.isVoidTy : LLVMType → Bool
  | .voidTy => true
  | _ => false

/-- The two comparison predicates the generator uses. -/
inductive Predicate where
  | ICMP_NE
  | FCMP_UNE
  deriving DecidableEq, Repr

/-- An IR value.  An instruction result is named by the number the context gave
the instruction when it was created; an argument by its function and position.
`constantCmp` is the constant the builder's folder returns for a comparison of
two constants (no instruction is inserted for it). -/
inductive Value where
  | constantInt (ty : LLVMType) (v : Int)
  | constantFP (ty : LLVMType) (v : Int)
  | constantCmp (pred : Predicate) (lhs rhs : Value)
  | argument (func : Nat) (argNo : Nat) (ty : LLVMType)
  | instruction (id : Nat) (ty : LLVMType)
  deriving DecidableEq, Repr

/-- The member `llvm::Value::getType`. -/
def Value.getType : Value → LLVMType
  | .constantInt ty _ => ty
  | .constantFP ty _ => ty
  | .constantCmp _ _ _ => .intTy 1
  | .argument _ _ ty => ty
  | .instruction _ ty => ty

/-- Whether the value is an `llvm::Constant`. -/
def Value.isConstant : Value → Bool
  | .constantInt _ _ => true
  | .constantFP _ _ => true
  | .constantCmp _ _ _ => true
  | _ => false

/-- The source's `LLVMValueSignPair`: a value pointer, possibly null, and a sign flag. -/
abbrev LLVMValueSignPair := Option Value × Bool

/-- An IR instruction.  Basic blocks are named by their number in the context. -/
inductive Instruction where
  | alloca (id : Nat) (allocatedType : LLVMType) (name : String)
  | store (val : Value) (ptr : Value)
  | load (id : Nat) (ty : LLVMType) (ptr : Value)
  | add (id : Nat) (lhs rhs : Value)
  | cmp (id : Nat) (pred : Predicate) (lhs rhs : Value)
  | br (dest : Nat)
  | condBr (cond : Value) (ifTrue ifFalse : Nat)
  | ret (val : Value)
  | retVoid
  | unreachable
  deriving DecidableEq, Repr

/-- The member `llvm::Instruction::isTerminator`. -/
def Instruction.isTerminator : Instruction → Bool
  | .br _ => true
  | .condBr _ _ _ => true
  | .ret _ => true
  | .retVoid => true
  | .unreachable => true
  | _ => false

/-- An `llvm::BasicBlock`: the name it was created with and its instruction list. -/
structure BasicBlock where
  name : String
  insts : List Instruction
  deriving DecidableEq, Repr

/-- The linkage kinds of `llvm::GlobalValue` that matter here. -/
inductive LinkageTypes where
  | ExternalLinkage
  | InternalLinkage
  | PrivateLinkage
  deriving DecidableEq, Repr

/-- An `llvm::Argument`: its type and its name (empty when it has none). -/
structure Argument where
  ty : LLVMType
  name : String
  deriving DecidableEq, Repr

/-- An `llvm::Function`: the name asked for at creation, the signature, the
linkage and the list of its basic blocks (their numbers, in order). -/
structure IRFunction where
  name : String
  returnType : LLVMType
  args : List Argument
  isVarArg : Bool
  linkage : LinkageTypes
  basicBlocks : List Nat
  deriving DecidableEq, Repr

/-- An `llvm::GlobalVariable`: name, value type and initializer (absent until set). -/
structure GlobalVariable where
  name : String
  valueType : LLVMType
  initializer : Option Value
  deriving DecidableEq, Repr

/-- An `llvm::Module`: its name, its globals and the numbers of its functions. -/
structure Module where
  name : String
  globals : List GlobalVariable
  functions : List Nat
  deriving DecidableEq, Repr

/-- The source's `CodeGenContext`.  `mModule` and `mCurrentFunc` are the fields
of that name; `insertBlock` is the block `mIrBuilder` inserts into (always at
its end), absent while no insertion point is set; `functions` and `blocks` are
the function and block objects created so far in `mContext`, a function or
block being named by its position; `nextId` numbers the instructions. -/
structure CodeGenContext where
  mModule : Option Module
  mCurrentFunc : Option Nat
  insertBlock : Option Nat
  functions : List IRFunction
  blocks : List BasicBlock
  nextId : Nat
  deriving DecidableEq, Repr

/-! ## The builder and object-creation calls the generator makes -/

/-- The builder's `getInt32(v)`. -/
def getInt32 (v : Int) : Value := .constantInt (.intTy 32) v

/-- The builder's insertion of a new instruction: appended to the insertion
block; without an insertion block the instruction is not placed anywhere. -/
def CodeGenContext.Insert (ctx : CodeGenContext) (i : Instruction) : CodeGenContext :=
  match ctx.insertBlock with
  | none => ctx
  | some bb =>
    { ctx with blocks := ctx.blocks.modify (fun b => { b with insts := b.insts ++ [i] }) bb }

/-- The builder's `SetInsertPoint(bb)`: later instructions go to the end of `bb`. -/
def CodeGenContext.SetInsertPoint (ctx : CodeGenContext) (bb : Nat) : CodeGenContext :=
  { ctx with insertBlock := some bb }

/-- The member `getBasicBlockList().push_back(bb)` of function number `f`. -/
def CodeGenContext.appendBlock (ctx : CodeGenContext) (f : Nat) (bb : Nat) : CodeGenContext :=
  { ctx with functions :=
      ctx.functions.modify (fun fn => { fn with basicBlocks := fn.basicBlocks ++ [bb] }) f }

/-- The call `llvm::BasicBlock::Create(context, name, parent)`: a new empty block,
appended to the block list of `parent` when a parent is given. -/
def BasicBlockCreate (ctx : CodeGenContext) (name : String) (parent : Option Nat) :
    Nat × CodeGenContext :=
  let bb := ctx.blocks.length
  let ctx := { ctx with blocks := ctx.blocks ++ [{ name := name, insts := [] }] }
  match parent with
  | none => (bb, ctx)
  | some f => (bb, ctx.appendBlock f bb)

/-- The call `function->getBasicBlockList().push_back(bb)`; a null `function`
is dereferenced. -/
def pushBackBlock (ctx : CodeGenContext) (function : Option Nat) (bb : Nat) :
    Except CodegenError CodeGenContext :=
  match function with
  | none => .error .nullDereference
  | some f => .ok (ctx.appendBlock f bb)

/-- The builder's comparison calls `CreateICmpNE` and `CreateFCmpUNE`: two
constants are folded to a constant, otherwise a comparison instruction is
inserted and its result returned. -/
def CreateCmp (ctx : CodeGenContext) (pred : Predicate) (lhs rhs : Value) :
    Value × CodeGenContext :=
  if lhs.isConstant && rhs.isConstant then
    (.constantCmp pred lhs rhs, ctx)
  else
    (.instruction ctx.nextId (.intTy 1),
      { ctx.Insert (.cmp ctx.nextId pred lhs rhs) with nextId := ctx.nextId + 1 })

/-- The builder's `CreateCondBr`. -/
def CreateCondBr (ctx : CodeGenContext) (cond : Value) (ifTrue ifFalse : Nat) :
    CodeGenContext :=
  ctx.Insert (.condBr cond ifTrue ifFalse)

/-- The builder's `CreateBr`. -/
def CreateBr (ctx : CodeGenContext) (dest : Nat) : CodeGenContext :=
  ctx.Insert (.br dest)

/-- The builder's `CreateRetVoid`. -/
def CreateRetVoid (ctx : CodeGenContext) : CodeGenContext :=
  ctx.Insert .retVoid

/-- The builder's `CreateAlloca(type, nullptr, name)`: the slot's address is the result. -/
def CreateAlloca (ctx : CodeGenContext) (ty : LLVMType) (name : String) :
    Value × CodeGenContext :=
  (.instruction ctx.nextId (.pointerTy ty),
    { ctx.Insert (.alloca ctx.nextId ty name) with nextId := ctx.nextId + 1 })

/-- The builder's `CreateStore(val, ptr)`. -/
def CreateStore (ctx : CodeGenContext) (val ptr : Value) : CodeGenContext :=
  ctx.Insert (.store val ptr)

/-- The member `back()` of a basic block followed by `isTerminator()`; on a
block without instructions `back()` has no element to return. -/
def backIsTerminator (ctx : CodeGenContext) (bb : Nat) : Except CodegenError Bool :=
  match ctx.blocks[bb]? with
  | none => .error .nullDereference
  | some b =>
    match b.insts.getLast? with
    | none => .error .backOfEmptyBlock
    | some i => .ok i.isTerminator

/-- The verifier's rule for one block: it holds at least one instruction, its
last instruction is a terminator and no earlier one is. -/
def BasicBlock.wellFormed (b : BasicBlock) : Bool :=
  match b.insts.getLast? with
  | none => false
  | some i => i.isTerminator && b.insts.dropLast.all (fun j => !j.isTerminator)

/-- The call `llvm::verifyFunction(*func)`, true when the function is broken.
The verifier is LLVM's; of its rules the model keeps the ones this lowering can
break: every block of the function is well formed (see `BasicBlock.wellFormed`)
and no parameter has type void. -/
def verifyFunction (ctx : CodeGenContext) (func : Nat) : Bool :=
  match ctx.functions[func]? with
  | none => true
  | some fn =>
    !(fn.args.all (fun a => !a.ty.isVoidTy) &&
      fn.basicBlocks.all (fun bb =>
        match ctx.blocks[bb]? with
        | none => false
        | some b => b.wellFormed))

/-! ## The syntax tree (namespace `lcc::parser`) -/

/-- The lexer's token kinds that `PrimaryType::TypeGen` looks at; `other`
stands for every remaining kind. -/
inductive TokenType where
  | kw_const
  | kw_signed
  | kw_unsigned
  | kw_void
  | kw_char
  | kw_short
  | kw_int
  | kw_long
  | kw_float
  | kw_double
  | other (code : Nat)
  deriving DecidableEq, Repr

/-- The type nodes: `PrimaryType` with its token list `mTypes` and its flags
`mSign`, `mVoid`; `PointerType` with its pointee `mType`. -/
inductive TypeNode where
  | PrimaryType (mTypes : List TokenType) (mSign : Bool) (mVoid : Bool)
  | PointerType (mType : TypeNode)
  deriving DecidableEq, Repr

/-- The method `PrimaryType::TypeGen` (lines 20 to 62): the IR type returned,
null in the default case of the switch, together with the value of `mSign`
after the call.  The look-ahead `mTypes[cur+1]` of line 48 does not change the
result, both branches return the 64-bit integer type. -/
def PrimaryType.TypeGen (mTypes : List TokenType) (mSign : Bool) :
    Except CodegenError (LLVMTypePtr × Bool) :=
  let size := mTypes.length
  if ¬ (size > 0) then .error .assertionFailed else
  let cur := if mTypes[0]? = some .kw_const then 1 else 0
  if ¬ (cur < size) then .error .assertionFailed else
  let sc : Bool × Nat :=
    if mTypes[cur]? = some .kw_signed then (true, cur + 1)
    else if mTypes[cur]? = some .kw_unsigned then (false, cur + 1)
    else (mSign, cur)
  let mSign := sc.1
  let cur := sc.2
  if cur = size then .ok (some (.intTy 32), mSign) else
  match mTypes[cur]? with
  | some .kw_void => .ok (some .voidTy, mSign)
  | some .kw_char => .ok (some (.intTy 8), mSign)
  | some .kw_short => .ok (some (.intTy 16), mSign)
  | some .kw_int => .ok (some (.intTy 32), mSign)
  | some .kw_long =>
    if cur < size && mTypes[cur + 1]? = some .kw_long then .ok (some (.intTy 64), mSign)
    else .ok (some (.intTy 64), mSign)
  | some .kw_float => .ok (some .floatTy, mSign)
  | some .kw_double => .ok (some .doubleTy, mSign)
  | _ => .ok (none, mSign)

/-- The virtual method `TypeGen` of a type node.  For a pointer (lines 69 to 71)
`llvm::PointerType::getUnqual` dereferences the pointee type it is given. -/
def TypeNode.TypeGen : TypeNode → Except CodegenError LLVMTypePtr
  | .PrimaryType mTypes mSign _ =>
    match PrimaryType.TypeGen mTypes mSign with
    | .error e => .error e
    | .ok r => .ok r.1
  | .PointerType mType =>
    match TypeNode.TypeGen mType with
    | .error e => .error e
    | .ok none => .error .nullDereference
    | .ok (some t) => .ok (some (.pointerTy t))

/-- An expression node.  `Codegen` is a virtual call; every definition of it in
this file (lines 208 to 261) returns the null pair and emits nothing.  The node
carries the pair its `Codegen` returns, `(none, false)` for those definitions. -/
structure Expr where
  result : LLVMValueSignPair
  deriving DecidableEq, Repr

/-- The virtual method `Expr::Codegen`: nothing is emitted, the pair is returned. -/
def Expr.Codegen (e : Expr) (_ctx : CodeGenContext) : LLVMValueSignPair :=
  e.result

/-- The statement nodes.  `BlockStmt` and `IfStmt` have the fields of the
source.  `other` is a statement of one of the remaining classes (`WhileStmt`,
`DoWhileStmt`, `ForStmt`, `ForDeclarationStmt`, `ExprStmt`, `ReturnStmt`,
`BreakStmt`, `ContinueStmt`, `Declaration`), whose `Codegen` creates no block:
`emits` are the instructions its `Codegen` inserts at the insertion point.  The
definitions of this file (lines 180 to 207) return at once, which is
`emits = []`. -/
inductive Stmt where
  | BlockStmt (mStmts : List Stmt)
  | IfStmt (mExpr : Expr) (mThenStmt : Stmt) (mOptElseStmt : Option Stmt)
  | other (emits : List Instruction)

/-- The blocks an if statement creates and the function it captured (line 158). -/
structure IfBlocks where
  function : Option Nat
  thenBB : Nat
  elseBB : Option Nat
  mergeBB : Nat
  deriving DecidableEq, Repr

/-- Lines 153 to 157 of `IfStmt::Codegen`: the value the branch is taken on. -/
def IfStmt.condition (value : Value) (ctx : CodeGenContext) : Value × CodeGenContext :=
  if value.getType.isIntegerTy then
    CreateCmp ctx .ICMP_NE value (getInt32 0)
  else if value.getType.isFloatingPointTy then
    CreateCmp ctx .FCMP_UNE value (.constantFP .floatTy 0)
  else
    (value, ctx)

/-- Lines 151 to 163 of `IfStmt::Codegen`: the condition is lowered and compared,
the then block is created in the current function, the else block (only with an
else arm) and the merge block are created outside any function, the conditional
branch is emitted and the insertion point moves to the then block. -/
def IfStmt.enter (mExpr : Expr) (hasElse : Bool) (ctx : CodeGenContext) :
    Except CodegenError (IfBlocks × CodeGenContext) :=
  match (mExpr.Codegen ctx).1 with
  | none => .error .nullDereference
  | some value =>
    let vc := IfStmt.condition value ctx
    let function := vc.2.mCurrentFunc
    let t := BasicBlockCreate vc.2 "" function
    let e : Option Nat × CodeGenContext :=
      if hasElse then ((BasicBlockCreate t.2 "" none).map some id) else (none, t.2)
    let m := BasicBlockCreate e.2 "" none
    let ctx := CreateCondBr m.2 vc.1 t.1 (e.1.getD m.1)
    .ok ({ function := function, thenBB := t.1, elseBB := e.1, mergeBB := m.1 },
      ctx.SetInsertPoint t.1)

/-- Lines 165 to 167 (and 172 to 174) of `IfStmt::Codegen`: the last instruction
of the arm's block `armBB` is inspected and, when it is no terminator, a branch
to the merge block is emitted at the insertion point. -/
def IfStmt.fallThrough (ctx : CodeGenContext) (armBB mergeBB : Nat) :
    Except CodegenError CodeGenContext :=
  match backIsTerminator ctx armBB with
  | .error e => .error e
  | .ok true => .ok ctx
  | .ok false => .ok (CreateBr ctx mergeBB)

/-- Lines 176 and 177 of `IfStmt::Codegen`: the merge block joins the function
and becomes the insertion point. -/
def IfStmt.leave (ctx : CodeGenContext) (bbs : IfBlocks) : Except CodegenError CodeGenContext :=
  match pushBackBlock ctx bbs.function bbs.mergeBB with
  | .error e => .error e
  | .ok ctx => .ok (ctx.SetInsertPoint bbs.mergeBB)

mutual
/-- The virtual method `Codegen` of a statement: `IfStmt::Codegen` (lines 150 to
179), `BlockStmt::Codegen` (lines 145 to 149) and the remaining classes.  The
pair every one of them returns is the null pair and is left out. -/
def Stmt.Codegen : Stmt → CodeGenContext → Except CodegenError CodeGenContext
  | .other emits, ctx => .ok (emits.foldl CodeGenContext.Insert ctx)
  | .BlockStmt mStmts, ctx => BlockStmt.Codegen mStmts ctx
  | .IfStmt mExpr mThenStmt mOptElseStmt, ctx =>
    match IfStmt.enter mExpr mOptElseStmt.isSome ctx with
    | .error e => .error e
    | .ok (bbs, ctx) =>
      match Stmt.Codegen mThenStmt ctx with
      | .error e => .error e
      | .ok ctx =>
        match IfStmt.fallThrough ctx bbs.thenBB bbs.mergeBB with
        | .error e => .error e
        | .ok ctx =>
          match bbs.elseBB with
          | none => IfStmt.leave ctx bbs
          | some elseBB =>
            match pushBackBlock ctx bbs.function elseBB with
            | .error e => .error e
            | .ok ctx =>
              match OptStmt.Codegen mOptElseStmt (ctx.SetInsertPoint elseBB) with
              | .error e => .error e
              | .ok ctx =>
                match IfStmt.fallThrough ctx elseBB bbs.mergeBB with
                | .error e => .error e
                | .ok ctx => IfStmt.leave ctx bbs
/-- The loop of `BlockStmt::Codegen` over `mStmts`. -/
def BlockStmt.Codegen : List Stmt → CodeGenContext → Except CodegenError CodeGenContext
  | [], ctx => .ok ctx
  | stmt :: rest, ctx =>
    match Stmt.Codegen stmt ctx with
    | .error e => .error e
    | .ok ctx => BlockStmt.Codegen rest ctx
/-- The call `mOptElseStmt->Codegen(context)` through the optional else arm; a
null arm is dereferenced. -/
def OptStmt.Codegen : Option Stmt → CodeGenContext → Except CodegenError CodeGenContext
  | none, _ => .error .nullDereference
  | some elseStmt, ctx => Stmt.Codegen elseStmt ctx
end

/-- The node `lcc::parser::Function`: name, return type, parameters (type and
name) and the optional body, a block statement given by its statement list. -/
structure Function where
  mName : String
  mRetType : TypeNode
  mParam : List (TypeNode × String)
  mOptBlockStmt : Option (List Stmt)

/-- The loop of lines 105 to 108 over the parameter types. -/
def Function.paramTypes : List (TypeNode × String) → Except CodegenError (List LLVMTypePtr)
  | [] => .ok []
  | p :: ps =>
    match p.1.TypeGen with
    | .error e => .error e
    | .ok t =>
      match Function.paramTypes ps with
      | .error e => .error e
      | .ok ts => .ok (t :: ts)

/-- The types behind a list of type pointers, none when one of them is null. -/
def allNonNull : List LLVMTypePtr → Option (List LLVMType)
  | [] => some []
  | none :: _ => none
  | some t :: ts =>
    match allNonNull ts with
    | none => none
    | some rest => some (t :: rest)

/-- The call `llvm::FunctionType::get(retType, paramType, false)` as far as null
pointers go: a null type among its operands is dereferenced. -/
def functionTypeGet (retType : LLVMTypePtr) (paramType : List LLVMTypePtr) :
    Except CodegenError (LLVMType × List LLVMType) :=
  match retType, allNonNull paramType with
  | some r, some ps => .ok (r, ps)
  | _, _ => .error .nullDereference

/-- The call `llvm::Function::Create(funType, linkage, name, module)`: a new
function without blocks and with unnamed arguments, added to the module when
there is one. -/
def FunctionCreate (ctx : CodeGenContext) (funType : LLVMType × List LLVMType)
    (linkage : LinkageTypes) (name : String) : Nat × CodeGenContext :=
  let func := ctx.functions.length
  let fn : IRFunction :=
    { name := name, returnType := funType.1,
      args := funType.2.map (fun t => { ty := t, name := "" }),
      isVarArg := false, linkage := linkage, basicBlocks := [] }
  (func, { ctx with
    functions := ctx.functions ++ [fn],
    mModule := ctx.mModule.map (fun m => { m with functions := m.functions ++ [func] }) })

/-- The loop of lines 111 to 117: an argument gets the declared name at its
position unless that name is empty. -/
def setArgNames : List Argument → List String → List Argument
  | iter :: args, n :: paramName =>
    (if n.isEmpty then iter else { iter with name := n }) :: setArgNames args paramName
  | args, _ => args

/-- The loop of lines 125 to 128, from argument number `argNo` on: one stack
slot per argument, and the argument stored into it. -/
def spillArgs (func : Nat) : Nat → List Argument → CodeGenContext → CodeGenContext
  | _, [], ctx => ctx
  | argNo, iter :: args, ctx =>
    let a := CreateAlloca ctx iter.ty iter.name
    spillArgs func (argNo + 1) args (CreateStore a.2 (.argument func argNo iter.ty) a.1)

/-- Lines 131 to 138 of `Function::Codegen`: the last block of the function is
inspected; when it is empty or does not end with a terminator, a void function
gets a `ret void` at the insertion point and any other function fails the
`assert(0)`. -/
def Function.finish (ctx : CodeGenContext) (func : Nat) (retType : LLVMType) :
    Except CodegenError CodeGenContext :=
  match ctx.functions[func]? with
  | none => .error .nullDereference
  | some fn =>
    match fn.basicBlocks.getLast? with
    | none => .error .backOfEmptyBlock
    | some back =>
      match ctx.blocks[back]? with
      | none => .error .nullDereference
      | some block =>
        if block.insts.isEmpty || !(block.insts.getLast?.map Instruction.isTerminator).getD false then
          if retType.isVoidTy then .ok (CreateRetVoid ctx) else .error .assertionFailed
        else .ok ctx

/-- Lines 102 to 117 of `Function::Codegen`: the types are lowered, the function
is created in the module with external linkage and its arguments are named.
The result is the function (its number), its return type and the context. -/
def Function.declare (fn : Function) (ctx : CodeGenContext) :
    Except CodegenError ((Nat × LLVMType) × CodeGenContext) :=
  match fn.mRetType.TypeGen with
  | .error e => .error e
  | .ok retType =>
    match Function.paramTypes fn.mParam with
    | .error e => .error e
    | .ok paramType =>
      match functionTypeGet retType paramType with
      | .error e => .error e
      | .ok funType =>
        let fc := FunctionCreate ctx funType .ExternalLinkage fn.mName
        let paramName := fn.mParam.map (fun p => p.2)
        let named := fc.2.functions.modify
          (fun f => { f with args := setArgNames f.args paramName }) fc.1
        .ok ((fc.1, funType.1), { fc.2 with functions := named })

/-- Lines 122 to 128 of `Function::Codegen`: the function becomes the current
one, the block `entry` is created in it and becomes the insertion point, and
every argument is spilled to a stack slot. -/
def Function.openBody (ctx : CodeGenContext) (func : Nat) : CodeGenContext :=
  let ctx := { ctx with mCurrentFunc := some func }
  let entry := BasicBlockCreate ctx "entry" (some func)
  spillArgs func 0 ((ctx.functions[func]?.map (fun f => f.args)).getD [])
    (entry.2.SetInsertPoint entry.1)

/-- The method `Function::Codegen` (lines 101 to 144).  The value returned is the
function created, given here by its number. -/
def Function.Codegen (fn : Function) (ctx : CodeGenContext) :
    Except CodegenError (Nat × CodeGenContext) :=
  match Function.declare fn ctx with
  | .error e => .error e
  | .ok (fr, ctx) =>
    match fn.mOptBlockStmt with
    | none => .ok (fr.1, ctx)
    | some mStmts =>
      match BlockStmt.Codegen mStmts (Function.openBody ctx fr.1) with
      | .error e => .error e
      | .ok ctx =>
        match Function.finish ctx fr.1 fr.2 with
        | .error e => .error e
        | .ok ctx =>
          if verifyFunction ctx fr.1 then .error .terminated else .ok (fr.1, ctx)

/-! ## Global declarations and the program (lines 72 to 100) -/

/-- The method `IsSigned` of a type node (lines 14 to 16 and 63 to 65). -/
def TypeNode.IsSigned : TypeNode → Bool
  | .PrimaryType _ mSign _ => mSign
  | .PointerType _ => false

/-- The type node after a call of `TypeGen` on it: `PrimaryType::TypeGen` stores
the sign it read in the member `mSign` (lines 29 and 32); a call that fails
leaves nothing to look at. -/
def TypeNode.afterTypeGen : TypeNode → TypeNode
  | .PrimaryType mTypes mSign mVoid =>
    match PrimaryType.TypeGen mTypes mSign with
    | .ok r => .PrimaryType mTypes r.2 mVoid
    | .error _ => .PrimaryType mTypes mSign mVoid
  | .PointerType mType => .PointerType mType.afterTypeGen

/-- The node `lcc::parser::GlobalDecl` as `GlobalDecl::Codegen` uses it: the
declared type `mType`, the name `mName` and the optional initializer
`mOptValue`, a constant expression. -/
structure GlobalDecl where
  mType : TypeNode
  mName : String
  mOptValue : Option Expr
  deriving DecidableEq, Repr

/-- A named value of a module: a global variable, given by its position in the
module's list of globals, or a function, given by its number. -/
inductive GlobalValue where
  | variable (index : Nat)
  | function (func : Nat)
  deriving DecidableEq, Repr

/-- The position of the first global variable of the given name in a list. -/
def findGlobal (name : String) : List GlobalVariable → Option Nat
  | [] => none
  | g :: gs => if g.name = name then some 0 else (findGlobal name gs).map (fun i => i + 1)

/-- The first function of the given name among the functions numbered in a list. -/
def findFunction (functions : List IRFunction) (name : String) : List Nat → Option Nat
  | [] => none
  | f :: fs =>
    if functions[f]?.map (fun fn => fn.name) = some name then some f
    else findFunction functions name fs

/-- The member `Module::getNamedValue(name)`, the entry of the module's symbol
table.  A name belongs to the value that was created with it first, LLVM gives
a later one another name.  A variable of the list `globals` that carries the
name owns it (see `getOrInsertGlobal`); otherwise the first function of the
module created with the name does. -/
def getNamedValue (ctx : CodeGenContext) (m : Module) (name : String) : Option GlobalValue :=
  match findGlobal name m.globals with
  | some i => some (.variable i)
  | none =>
    match findFunction ctx.functions name m.functions with
    | some f => some (.function f)
    | none => none

/-- The member `Module::getOrInsertGlobal(name, type)` (line 96), whose result the
code drops: when the name belongs to a global variable nothing is created
(whatever the type of that variable is), otherwise a new variable without
initializer joins the module.  When the name belongs to a function, the new
variable cannot have it and LLVM names it `name.N` with a fresh number `N`,
here 1.  A null `type` is dereferenced. -/
def getOrInsertGlobal (ctx : CodeGenContext) (m : Module) (name : String) (type : LLVMTypePtr) :
    Except CodegenError Module :=
  match type with
  | none => .error .nullDereference
  | some ty =>
    match getNamedValue ctx m name with
    | some (.variable _) => .ok m
    | some (.function _) =>
      .ok { m with globals := m.globals ++ [{ name := name ++ ".1", valueType := ty, initializer := none }] }
    | none =>
      .ok { m with globals := m.globals ++ [{ name := name, valueType := ty, initializer := none }] }

/-- The member `Module::getGlobalVariable(name)` (line 97): the variable that
owns the name, null when the name is free or belongs to a function. -/
def getGlobalVariable (ctx : CodeGenContext) (m : Module) (name : String) : Option Nat :=
  match getNamedValue ctx m name with
  | some (.variable i) => some i
  | _ => none

/-- The member `GlobalVariable::setInitializer(init)` of the variable at
position `globalVar`: a null `init` leaves the variable without initializer. -/
def setInitializer (m : Module) (globalVar : Nat) (init : Option Value) : Module :=
  { m with globals := m.globals.modify (fun g => { g with initializer := init }) globalVar }

/-- Lines 87 to 94 of `GlobalDecl::Codegen`: the zero the code builds for a
declaration without initializer, null for a type that is neither an integer
nor a floating-point type. -/
def GlobalDecl.zeroValue (type : LLVMType) : Option Value :=
  if type.isIntegerTy then some (.constantInt type 0)
  else if type.isFloatingPointTy then some (.constantFP type 0)
  else none

/-- The call `llvm::cast<llvm::Constant>(constant)` of line 98.  The template
`cast` is defined in a header of LLVM and compiled with this file, so its
assertion stands with those of lines 22, 27 and 136: it fails for a null
pointer and for a value that is not a constant. -/
def castConstant (constant : Option Value) : Except CodegenError Value :=
  match constant with
  | none => .error .assertionFailed
  | some v => if v.isConstant then .ok v else .error .assertionFailed

/-- Lines 86 to 97 of `GlobalDecl::Codegen`: the pair `{constant, sign}` of line
95, the module after `getOrInsertGlobal` and the pointer `globalVar` of line 97.
The expression's `Codegen` changes nothing in the context (see `Expr.Codegen`). -/
def GlobalDecl.getGlobal (d : GlobalDecl) (ctx : CodeGenContext) :
    Except CodegenError (LLVMValueSignPair × Module × Option Nat) :=
  match d.mType.TypeGen with
  | .error e => .error e
  | .ok type =>
    let value : Except CodegenError (Option Value) :=
      match d.mOptValue, type with
      | some _, _ => .ok none
      | none, none => .error .nullDereference
      | none, some ty => .ok (GlobalDecl.zeroValue ty)
    match value with
    | .error e => .error e
    | .ok value =>
      let cs : LLVMValueSignPair :=
        match d.mOptValue with
        | some mOptValue => mOptValue.Codegen ctx
        | none => (value, d.mType.afterTypeGen.IsSigned)
      match ctx.mModule with
      | none => .error .nullDereference
      | some m =>
        match getOrInsertGlobal ctx m d.mName type with
        | .error e => .error e
        | .ok m => .ok (cs, m, getGlobalVariable ctx m d.mName)

/-- The method `GlobalDecl::Codegen` (lines 85 to 100): lines 86 to 97, then line
98, where the argument `llvm::cast<llvm::Constant>(constant)` is evaluated
before `setInitializer` is entered through `globalVar`. -/
def GlobalDecl.Codegen (d : GlobalDecl) (ctx : CodeGenContext) :
    Except CodegenError (LLVMValueSignPair × CodeGenContext) :=
  match GlobalDecl.getGlobal d ctx with
  | .error e => .error e
  | .ok (cs, m, globalVar) =>
    match castConstant cs.1 with
    | .error e => .error e
    | .ok init =>
      match globalVar with
      | none => .error .nullDereference
      | some globalVar =>
        .ok (cs, { ctx with mModule := some (setInitializer m globalVar (some init)) })

/-- An external declaration, an element of `Program::mExternalDecl`: a global
declaration or a function. -/
inductive ExternalDecl where
  | GlobalDecl (d : GlobalDecl)
  | Function (fn : Function)

/-- The virtual call `ext->Codegen(context)` of line 75; the pair returned is dropped there. -/
def ExternalDecl.Codegen : ExternalDecl → CodeGenContext → Except CodegenError CodeGenContext
  | .GlobalDecl d, ctx =>
    match GlobalDecl.Codegen d ctx with
    | .error e => .error e
    | .ok r => .ok r.2
  | .Function fn, ctx =>
    match Function.Codegen fn ctx with
    | .error e => .error e
    | .ok r => .ok r.2

/-- The node `lcc::parser::Program`: the list of its external declarations. -/
structure Program where
  mExternalDecl : List ExternalDecl

/-- The loop of lines 74 to 76 of `Program::Codegen`. -/
def Program.loop : List ExternalDecl → CodeGenContext → Except CodegenError CodeGenContext
  | [], ctx => .ok ctx
  | ext :: rest, ctx =>
    match ext.Codegen ctx with
    | .error e => .error e
    | .ok ctx => Program.loop rest ctx

/-- The call `llvm::verifyModule(*module)`, true when the module is broken.  Of
LLVM's rules the model keeps the ones this lowering can break: every function
of the module passes `verifyFunction`, and the initializer of a global
variable, when it has one, has the type of the variable. -/
def verifyModule (ctx : CodeGenContext) (m : Module) : Bool :=
  !(m.functions.all (fun f => !verifyFunction ctx f) &&
    m.globals.all (fun g =>
      match g.initializer with
      | none => true
      | some init => init.getType = g.valueType))

/-- The module line 73 creates: named `main`, without globals and functions. -/
def Program.freshModule : Module := { name := "main", globals := [], functions := [] }

/-- The method `Program::Codegen` (lines 72 to 84); printing the module is left out. -/
def Program.Codegen (p : Program) (ctx : CodeGenContext) :
    Except CodegenError (LLVMValueSignPair × CodeGenContext) :=
  let ctx := { ctx with mModule := some Program.freshModule }
  match Program.loop p.mExternalDecl ctx with
  | .error e => .error e
  | .ok ctx =>
    match ctx.mModule with
    | none => .error .nullDereference
    | some m => if verifyModule ctx m then .error .terminated else .ok ((none, false), ctx)

/-! ## The type model (src/Type.h, namespace `lcc::Sema`) -/

/-- The enumeration `PrimitiveType::Kind` (lines 32 to 48). -/
inductive Sema.PrimitiveType.Kind where
  | Char
  | UnsignedChar
  | Bool
  | Short
  | UnsignedShort
  | Int
  | UnsignedInt
  | Long
  | UnsignedLong
  | LongLong
  | UnsignedLongLong
  | Float
  | Double
  | LongDouble
  | Void
  deriving DecidableEq, Repr

/-- The class `PrimitiveType` (lines 25 to 120): its data members. -/
structure Sema.PrimitiveType where
  m_bitCount : Nat
  m_alignOf : Nat
  m_isFloatingPoint : Bool
  m_isSigned : Bool
  m_kind : Sema.PrimitiveType.Kind
  deriving DecidableEq, Repr

/-- The class `StructType` (lines 262 to 294): its data members. -/
structure Sema.StructType where
  m_name : String
  m_id : Nat
  deriving DecidableEq, Repr

/-- The class `UnionType` (lines 296 to 328): its data members. -/
structure Sema.UnionType where
  m_name : String
  m_id : Nat
  deriving DecidableEq, Repr

/-- The class `EnumType` (lines 330 to 363): its data members. -/
structure Sema.EnumType where
  m_name : String
  m_id : Nat
  deriving DecidableEq, Repr

mutual
/-- The class `Type` (lines 393 to 483): the payload `m_type`, the alias name
`m_name` and the two qualifier flags. -/
inductive Sema.Type where
  | mk (m_type : Sema.Variant) (m_name : String) (m_isConst : Bool) (m_isVolatile : Bool)
/-- The alias `Type::variant` (lines 394 to 396), a `std::variant` over the
empty alternative and the nine type classes. -/
inductive Sema.Variant where
  | monostate
  | PrimitiveType (p : Sema.PrimitiveType)
  | ArrayType (a : Sema.ArrayType)
  | AbstractArrayType (a : Sema.AbstractArrayType)
  | ValArrayType (a : Sema.ValArrayType)
  | FunctionType (f : Sema.FunctionType)
  | StructType (s : Sema.StructType)
  | UnionType (u : Sema.UnionType)
  | EnumType (e : Sema.EnumType)
  | PointerType (p : Sema.PointerType)
/-- The class `ArrayType` (lines 122 to 157): its data members. -/
inductive Sema.ArrayType where
  | mk (m_type : Sema.Type) (m_size : Nat) (m_restricted : Bool) (m_static : Bool)
/-- The class `AbstractArrayType` (lines 159 to 186): its data members. -/
inductive Sema.AbstractArrayType where
  | mk (m_type : Sema.Type) (m_restricted : Bool)
/-- The class `ValArrayType` (lines 188 to 220): its data members. -/
inductive Sema.ValArrayType where
  | mk (m_type : Sema.Type) (m_restricted : Bool) (m_static : Bool)
/-- The class `FunctionType` (lines 222 to 260): its data members. -/
inductive Sema.FunctionType where
  | mk (m_returnType : Sema.Type) (m_arguments : List (Sema.Type × String))
      (m_lastIsVararg : Bool)
/-- The class `PointerType` (lines 365 to 391): its data members. -/
inductive Sema.PointerType where
  | mk (m_elementType : Sema.Type) (m_restricted : Bool)
end

/-- The member `StructType::getName`. -/
def Sema.StructType.getName (s : Sema.StructType) : String := s.m_name

/-- The member `StructType::getId`. -/
def Sema.StructType.getId (s : Sema.StructType) : Nat := s.m_id

/-- The member `StructType::operator==` (lines 287 to 289). -/
def Sema.StructType.eq (s rhs : Sema.StructType) : Bool := s.m_id == rhs.m_id

/-- The member `StructType::operator!=` (lines 291 to 293): `!(rhs == *this)`. -/
def Sema.StructType.ne (s rhs : Sema.StructType) : Bool := !(rhs.eq s)

/-- The member `UnionType::getName`. -/
def Sema.UnionType.getName (u : Sema.UnionType) : String := u.m_name

/-- The member `UnionType::getId`. -/
def Sema.UnionType.getId (u : Sema.UnionType) : Nat := u.m_id

/-- The member `UnionType::operator==` (lines 321 to 323). -/
def Sema.UnionType.eq (u rhs : Sema.UnionType) : Bool := u.m_id == rhs.m_id

/-- The member `UnionType::operator!=` (lines 325 to 327): `!(rhs == *this)`. -/
def Sema.UnionType.ne (u rhs : Sema.UnionType) : Bool := !(rhs.eq u)

/-- The member `EnumType::getName`. -/
def Sema.EnumType.getName (e : Sema.EnumType) : String := e.m_name

/-- The member `EnumType::getId`. -/
def Sema.EnumType.getId (e : Sema.EnumType) : Nat := e.m_id

/-- The member `EnumType::operator==` (lines 356 to 358). -/
def Sema.EnumType.eq (e rhs : Sema.EnumType) : Bool := e.m_id == rhs.m_id

/-- The member `EnumType::operator!=` (lines 360 to 362): `!(rhs == *this)`. -/
def Sema.EnumType.ne (e rhs : Sema.EnumType) : Bool := !(rhs.eq e)

/-- The ways in which a query of the type model stops without a result. -/
inductive Sema.Failure where
  /-- The macro `LCC_UNREACHABLE` stopped the program. -/
  | unreachable
  /-- The end of a function with a result type is reached without a `return`. -/
  | noReturnValue
  deriving DecidableEq, Repr

/-- What the statement `LCC_UNREACHABLE;` does.  The macro is defined in
`Utilities.h`, outside these sources: it either stops the program or lets
control pass on. -/
abbrev Sema.Unreachable := Except Sema.Failure Unit

/-- The member `AbstractArrayType::getType`. -/
def Sema.AbstractArrayType.getType : Sema.AbstractArrayType → Sema.Type
  | .mk m_type _ => m_type

/-- The member `AbstractArrayType::getSizeOf` (lines 177 to 179): its body is the
statement `LCC_UNREACHABLE;` and no `return`. -/
def Sema.AbstractArrayType.getSizeOf (_a : Sema.AbstractArrayType)
    (LCC_UNREACHABLE : Sema.Unreachable) : Except Sema.Failure Nat :=
  match LCC_UNREACHABLE with
  | .error e => .error e
  | .ok () => .error .noReturnValue

/-- The member `ValArrayType::getType`. -/
def Sema.ValArrayType.getType : Sema.ValArrayType → Sema.Type
  | .mk m_type _ _ => m_type

/-- The member `ValArrayType::getSizeOf` (lines 211 to 213): its body is the
statement `LCC_UNREACHABLE;` and no `return`. -/
def Sema.ValArrayType.getSizeOf (_a : Sema.ValArrayType)
    (LCC_UNREACHABLE : Sema.Unreachable) : Except Sema.Failure Nat :=
  match LCC_UNREACHABLE with
  | .error e => .error e
  | .ok () => .error .noReturnValue

/-- The member `FunctionType::getSizeOf` (lines 249 to 251): its body is the
statement `LCC_UNREACHABLE;` and no `return`. -/
def Sema.FunctionType.getSizeOf (_f : Sema.FunctionType)
    (LCC_UNREACHABLE : Sema.Unreachable) : Except Sema.Failure Nat :=
  match LCC_UNREACHABLE with
  | .error e => .error e
  | .ok () => .error .noReturnValue

/-- The member `FunctionType::getAlignOf` (lines 253 to 255): its body is the
statement `LCC_UNREACHABLE;` and no `return`. -/
def Sema.FunctionType.getAlignOf (_f : Sema.FunctionType)
    (LCC_UNREACHABLE : Sema.Unreachable) : Except Sema.Failure Nat :=
  match LCC_UNREACHABLE with
  | .error e => .error e
  | .ok () => .error .noReturnValue

/-- The member `ArrayType::getType`. -/
def Sema.ArrayType.getType : Sema.ArrayType → Sema.Type
  | .mk m_type _ _ _ => m_type

/-- The constructor of `Type` (lines 404 to 406); `m_name` is not named in the
initializer list and starts as the empty `std::string_view`.  The defaults of
the three parameters are `false`, `false` and `std::monostate{}`. -/
def Sema.Type.new (isConst : Bool) (isVolatile : Bool) (type : Sema.Variant) : Sema.Type :=
  .mk type "" isConst isVolatile

/-- The member `Type::getVariant`. -/
def Sema.Type.getVariant : Sema.Type → Sema.Variant
  | .mk m_type _ _ _ => m_type

/-- The member `Type::isConst`. -/
def Sema.Type.isConst : Sema.Type → Bool
  | .mk _ _ m_isConst _ => m_isConst

/-- The member `Type::isVolatile`. -/
def Sema.Type.isVolatile : Sema.Type → Bool
  | .mk _ _ _ m_isVolatile => m_isVolatile

/-- The member `Type::getName`. -/
def Sema.Type.getName : Sema.Type → String
  | .mk _ m_name _ _ => m_name

/-- The member `Type::setName` (lines 424 to 426), as the object after the call. -/
def Sema.Type.setName : Sema.Type → String → Sema.Type
  | .mk m_type _ m_isConst m_isVolatile, name => .mk m_type name m_isConst m_isVolatile

/-- The member `Type::isTypedef` (lines 428 to 430). -/
def Sema.Type.isTypedef (t : Sema.Type) : Bool := !t.getName.isEmpty

/-- The member `Type::isUndefined` (lines 436 to 438). -/
def Sema.Type.isUndefined (t : Sema.Type) : Bool :=
  match t.getVariant with
  | .monostate => true
  | _ => false

mutual
/-- Modelled from the spec: the member `Type::operator==`, declared at line 432
and defined outside these sources.  "Two `Type`s are equal iff their
unqualified payloads are equal; qualifiers and typedef names are erased for
comparison". -/
def Sema.Type.eq : Sema.Type → Sema.Type → Bool
  | .mk m_type _ _ _, .mk rhs _ _ _ => Sema.Variant.eq m_type rhs
termination_by structural x => x
/-- Modelled from the spec: the comparison of two payloads, the `operator==` of
`std::variant`: both hold the same alternative and the `operator==` of that
alternative holds.  The operators of the record and enumeration types are the
ones of lines 287, 321 and 356; those of the remaining classes are declared in
`Type.h` and defined outside these sources, they are taken to compare every
data member, a nested type by `Type::operator==`. -/
def Sema.Variant.eq : Sema.Variant → Sema.Variant → Bool
  | .monostate, .monostate => true
  | .PrimitiveType p, .PrimitiveType rhs => decide (p = rhs)
  | .ArrayType a, .ArrayType rhs => Sema.ArrayType.eq a rhs
  | .AbstractArrayType a, .AbstractArrayType rhs => Sema.AbstractArrayType.eq a rhs
  | .ValArrayType a, .ValArrayType rhs => Sema.ValArrayType.eq a rhs
  | .FunctionType f, .FunctionType rhs => Sema.FunctionType.eq f rhs
  | .StructType s, .StructType rhs => s.eq rhs
  | .UnionType u, .UnionType rhs => u.eq rhs
  | .EnumType e, .EnumType rhs => e.eq rhs
  | .PointerType p, .PointerType rhs => Sema.PointerType.eq p rhs
  | _, _ => false
termination_by structural x => x
/-- Modelled from the spec: `ArrayType::operator==` (declared at line 154). -/
def Sema.ArrayType.eq : Sema.ArrayType → Sema.ArrayType → Bool
  | .mk t n r s, .mk t2 n2 r2 s2 => Sema.Type.eq t t2 && n == n2 && r == r2 && s == s2
termination_by structural x => x
/-- Modelled from the spec: `AbstractArrayType::operator==` (declared at line 183). -/
def Sema.AbstractArrayType.eq : Sema.AbstractArrayType → Sema.AbstractArrayType → Bool
  | .mk t r, .mk t2 r2 => Sema.Type.eq t t2 && r == r2
termination_by structural x => x
/-- Modelled from the spec: `ValArrayType::operator==` (declared at line 217). -/
def Sema.ValArrayType.eq : Sema.ValArrayType → Sema.ValArrayType → Bool
  | .mk t r s, .mk t2 r2 s2 => Sema.Type.eq t t2 && r == r2 && s == s2
termination_by structural x => x
/-- Modelled from the spec: `FunctionType::operator==` (declared at line 257). -/
def Sema.FunctionType.eq : Sema.FunctionType → Sema.FunctionType → Bool
  | .mk t args v, .mk t2 args2 v2 => Sema.Type.eq t t2 && Sema.FunctionType.argsEq args args2 && v == v2
termination_by structural x => x
/-- Modelled from the spec: the comparison of two argument lists, element by element. -/
def Sema.FunctionType.argsEq :
    List (Sema.Type × String) → List (Sema.Type × String) → Bool
  | [], [] => true
  | (t, n) :: rest, (t2, n2) :: rest2 =>
    Sema.Type.eq t t2 && n == n2 && Sema.FunctionType.argsEq rest rest2
  | _, _ => false
termination_by structural x => x
/-- Modelled from the spec: `PointerType::operator==` (declared at line 388). -/
def Sema.PointerType.eq : Sema.PointerType → Sema.PointerType → Bool
  | .mk t r, .mk t2 r2 => Sema.Type.eq t t2 && r == r2
termination_by structural x => x
end

/-- Modelled from the spec: the factory `PointerType::create`, declared at line
372 and defined outside these sources: the pointer type with the given
qualifiers, `restrict` flag and element type, without alias name. -/
def Sema.PointerType.create (isConst isVolatile isRestricted : Bool)
    (elementType : Sema.Type) : Sema.Type :=
  Sema.Type.new isConst isVolatile (.PointerType (.mk elementType isRestricted))

/-- Modelled from the spec: the member `Type::adjustParameterType`, declared at
line 480 and defined outside these sources.  "array types decay to
pointer-to-element; function types decay to pointer-to-function; all other
types pass through unchanged".  The array types are the three array classes;
the pointer is taken to be plain: no qualifier and no `restrict`. -/
def Sema.Type.adjustParameterType (t : Sema.Type) : Sema.Type :=
  match t.getVariant with
  | .ArrayType a => Sema.PointerType.create false false false a.getType
  | .AbstractArrayType a => Sema.PointerType.create false false false a.getType
  | .ValArrayType a => Sema.PointerType.create false false false a.getType
  | .FunctionType _ => Sema.PointerType.create false false false t
  | _ => t

/-- The type `int`, without qualifiers: a signed integer of 32 bits, aligned to
4 bytes. -/
def Sample.int : Sema.Type :=
  Sema.Type.new false false (.PrimitiveType
    { m_bitCount := 32, m_alignOf := 4, m_isFloatingPoint := false, m_isSigned := true,
      m_kind := .Int })

/-- The type `int[5]`. -/
def Sample.intArray5 : Sema.Type :=
  Sema.Type.new false false (.ArrayType (.mk Sample.int 5 false false))

/-- The type `int *`. -/
def Sample.intPointer : Sema.Type := Sema.PointerType.create false false false Sample.int

/-! ## How a lowering call may change the context -/

/-- The context `b` extends `a`: module and current function are the same, every
function keeps its signature and only gains blocks at the end of its list,
every block keeps its name and only gains instructions at its end, a block of
`a` other than the insertion block of `a` is unchanged, and the insertion
block is the one of `a` or a block created since. -/
structure CodeGenContext.Extends (a b : CodeGenContext) : Prop where
  mModule_eq : b.mModule = a.mModule
  mCurrentFunc_eq : b.mCurrentFunc = a.mCurrentFunc
  functions_length : b.functions.length = a.functions.length
  functions_grow : ∀ (f : Nat) (fn : IRFunction), a.functions[f]? = some fn →
    ∃ ext, b.functions[f]? = some { fn with basicBlocks := fn.basicBlocks ++ ext } ∧
      ∀ x ∈ ext, a.blocks.length ≤ x
  blocks_length : a.blocks.length ≤ b.blocks.length
  blocks_grow : ∀ (id : Nat) (blk : BasicBlock), a.blocks[id]? = some blk →
    ∃ more, b.blocks[id]? = some { blk with insts := blk.insts ++ more }
  frame : ∀ id, id < a.blocks.length → a.insertBlock ≠ some id → b.blocks[id]? = a.blocks[id]?
  cursor : b.insertBlock = a.insertBlock ∨ ∃ m, b.insertBlock = some m ∧ a.blocks.length ≤ m

/-- The comparison instruction lines 153 to 157 insert for the condition value:
none for a constant (the comparison is folded) and none for a value that is
neither of integer nor of floating-point type. -/
def IfStmt.conditionInsts (value : Value) (id : Nat) : List Instruction :=
  if value.isConstant then []
  else if value.getType.isIntegerTy then [.cmp id .ICMP_NE value (getInt32 0)]
  else if value.getType.isFloatingPointTy then [.cmp id .FCMP_UNE value (.constantFP .floatTy 0)]
  else []

/-- The insertion block, when set, is one of the blocks created so far. -/
def CodeGenContext.cursorValid (ctx : CodeGenContext) : Prop :=
  ∀ b, ctx.insertBlock = some b → b < ctx.blocks.length

mutual
/-- The instructions a statement without if statements inserts, in order; none
for a statement that contains an if statement. -/
def Stmt.straightLine : Stmt → Option (List Instruction)
  | .other emits => some emits
  | .BlockStmt mStmts => BlockStmt.straightLine mStmts
  | .IfStmt _ _ _ => none
/-- The instructions a statement list without if statements inserts, in order. -/
def BlockStmt.straightLine : List Stmt → Option (List Instruction)
  | [] => some []
  | stmt :: rest =>
    match Stmt.straightLine stmt, BlockStmt.straightLine rest with
    | some a, some b => some (a ++ b)
    | _, _ => none
end

mutual
/-- No statement of a class other than `BlockStmt` and `IfStmt` inside this
statement inserts a terminator. -/
def Stmt.leavesPlain : Stmt → Bool
  | .other emits => emits.all (fun i => !i.isTerminator)
  | .BlockStmt mStmts => BlockStmt.leavesPlain mStmts
  | .IfStmt _ mThenStmt mOptElseStmt => Stmt.leavesPlain mThenStmt && OptStmt.leavesPlain mOptElseStmt
/-- The same for a statement list. -/
def BlockStmt.leavesPlain : List Stmt → Bool
  | [] => true
  | stmt :: rest => Stmt.leavesPlain stmt && BlockStmt.leavesPlain rest
/-- The same for an optional statement. -/
def OptStmt.leavesPlain : Option Stmt → Bool
  | none => true
  | some elseStmt => Stmt.leavesPlain elseStmt
end

/-- The insertion block is the last block of the current function: the block
`func->back()` is the one the builder inserts into. -/
def CodeGenContext.cursorAtBack (ctx : CodeGenContext) : Prop :=
  ∃ f fn bb, ctx.mCurrentFunc = some f ∧ ctx.functions[f]? = some fn ∧
    fn.basicBlocks.getLast? = some bb ∧ ctx.insertBlock = some bb

/-- What the claim on the entry block says it starts with: for every argument
in turn, numbered from `argNo` on, one stack slot of the argument's type,
immediately followed by the store of the incoming argument into that slot.
The slots take the instruction numbers from `id` on. -/
def entrySlots (func : Nat) : Nat → Nat → List Argument → List Instruction
  | _, _, [] => []
  | id, argNo, a :: args =>
    .alloca id a.ty a.name ::
      .store (.argument func argNo a.ty) (.instruction id (.pointerTy a.ty)) ::
      entrySlots func (id + 1) (argNo + 1) args

/-- The function object lines 102 to 117 create for the declaration `fn`, given
the lowered return type and parameter types. -/
def Function.created (fn : Function) (r : LLVMType) (ps : List LLVMType) : IRFunction :=
  { name := fn.mName, returnType := r,
    args := setArgNames (ps.map (fun t => { ty := t, name := "" })) (fn.mParam.map (fun p => p.2)),
    isVarArg := false, linkage := .ExternalLinkage, basicBlocks := [] }

/-- The context after lines 102 to 117. -/
def Function.declared (fn : Function) (r : LLVMType) (ps : List LLVMType)
    (ctx : CodeGenContext) : CodeGenContext :=
  { ctx with
    functions := ctx.functions ++ [Function.created fn r ps],
    mModule := ctx.mModule.map (fun m => { m with functions := m.functions ++ [ctx.functions.length] }) }

/-- No terminator of the block is followed by another instruction: every
instruction but the last is no terminator. -/
def BasicBlock.terminatorOnlyLast (b : BasicBlock) : Prop :=
  ∀ i ∈ b.insts.dropLast, i.isTerminator = false

/-- The block holds no terminator yet. -/
def BasicBlock.unterminated (b : BasicBlock) : Prop :=
  ∀ i ∈ b.insts, i.isTerminator = false

/-- The state in which a statement may be lowered without terminating a block
twice: in every block a terminator can only be the last instruction, the
insertion block holds no terminator yet, and the insertion block exists. -/
structure CodeGenContext.TerminatorsLast (ctx : CodeGenContext) : Prop where
  blocks_ok : ∀ (id : Nat) (blk : BasicBlock), ctx.blocks[id]? = some blk →
    blk.terminatorOnlyLast
  cursor_open : ∀ (b : Nat) (blk : BasicBlock), ctx.insertBlock = some b →
    ctx.blocks[b]? = some blk → blk.unterminated
  cursor_valid : ctx.cursorValid

/-! ## Sample inputs -/

/-- The context right after line 73 of `Program::Codegen`: a fresh module `main`,
no function, no block, no insertion point. -/
def Sample.context : CodeGenContext :=
  { mModule := some { name := "main", globals := [], functions := [] },
    mCurrentFunc := none, insertBlock := none, functions := [], blocks := [], nextId := 0 }

/-- The type node of `int`. -/
def Sample.intType : TypeNode := .PrimaryType [.kw_int] true false

/-- The type node of `void`. -/
def Sample.voidType : TypeNode := .PrimaryType [.kw_void] true false

/-- An expression whose lowering returns the first argument of function 0, an
`int`, as a signed value. -/
def Sample.argX : Expr := { result := (some (.argument 0 0 (.intTy 32)), true) }

/-- A statement whose lowering inserts `ret void`. -/
def Sample.returnVoid : Stmt := .other [.retVoid]

/-- A statement whose lowering inserts a store of the constant 1 into the first
stack slot. -/
def Sample.assign : Stmt :=
  .other [.store (getInt32 1) (.instruction 0 (.pointerTy (.intTy 32)))]

/-- The function `void f(int x) { if (x) { if (x) return; return; } }`. -/
def Sample.nested : Function :=
  { mName := "f", mRetType := Sample.voidType, mParam := [(Sample.intType, "x")],
    mOptBlockStmt := some
      [.IfStmt Sample.argX
        (.BlockStmt [.IfStmt Sample.argX Sample.returnVoid none, Sample.returnVoid]) none] }

/-- The context a lowering call returns, the given context when it fails. -/
def Sample.contextOf (r : Except CodegenError (Nat × CodeGenContext)) (ctx : CodeGenContext) :
    CodeGenContext :=
  match r with
  | .ok p => p.2
  | .error _ => ctx

/-- The function `int f() { }`. -/
def Sample.fallOff : Function :=
  { mName := "f", mRetType := Sample.intType, mParam := [], mOptBlockStmt := some [] }

/-- The context in which the body of `Sample.nested` is lowered: the state after
lines 102 to 128 of `Function::Codegen` on the fresh module. -/
def Sample.bodyStart : CodeGenContext :=
  match Function.declare Sample.nested Sample.context with
  | .ok (fr, c) => Function.openBody c fr.1
  | .error _ => Sample.context

/-- The statement `if (x) return; else x = 1;` -/
def Sample.ifElse : Stmt := .IfStmt Sample.argX Sample.returnVoid (some Sample.assign)

/-- The context a statement lowering returns, the given context when it fails. -/
def Sample.afterStmt (r : Except CodegenError CodeGenContext) (ctx : CodeGenContext) :
    CodeGenContext :=
  match r with
  | .ok c => c
  | .error _ => ctx

/-- The function `void g(int a, float b) { }`, the second parameter unnamed. -/
def Sample.twoParams : Function :=
  { mName := "g", mRetType := Sample.voidType,
    mParam := [(Sample.intType, "a"), (.PrimaryType [.kw_float] false false, "")],
    mOptBlockStmt := some [] }

/-- The function `void h(int x) { if (x) x = 1; else x = 1; }`. -/
def Sample.assigns : Function :=
  { mName := "h", mRetType := Sample.voidType, mParam := [(Sample.intType, "x")],
    mOptBlockStmt := some [.IfStmt Sample.argX Sample.assign (some Sample.assign)] }

/-- The statement `if (x) return;` -/
def Sample.ifReturn : Stmt := .IfStmt Sample.argX Sample.returnVoid none

/-- The statement `if (x) { if (x) return; }` -/
def Sample.ifNested : Stmt := .IfStmt Sample.argX (.BlockStmt [Sample.ifReturn]) none

/-- The function `void f(int x) { if (x) { if (x) return; } }`. -/
def Sample.nestedOpen : Function :=
  { mName := "f", mRetType := Sample.voidType, mParam := [(Sample.intType, "x")],
    mOptBlockStmt := some [Sample.ifNested] }

/-- The state right after the conditional branch of `Sample.ifNested` was emitted
at the start of the function body. -/
def Sample.afterEnter : CodeGenContext :=
  match IfStmt.enter Sample.argX false Sample.bodyStart with
  | .ok p => p.2
  | .error _ => Sample.bodyStart

/-- The state after the then arm of `Sample.ifNested` was lowered. -/
def Sample.afterArm : CodeGenContext :=
  Sample.afterStmt (Stmt.Codegen (.BlockStmt [Sample.ifReturn]) Sample.afterEnter)
    Sample.afterEnter

/-- The state in which `IfStmt::Codegen` returns for `Sample.ifNested`. -/
def Sample.afterNested : CodeGenContext :=
  Sample.afterStmt (Stmt.Codegen Sample.ifNested Sample.bodyStart) Sample.bodyStart

/-! ## The statement and expression classes whose `Codegen` returns at once -/

/-- The method `ReturnStmt::Codegen` (lines 196 to 198): `return {}`, the null
pair.  The expression of the statement is not lowered, nothing is inserted. -/
def ReturnStmt.Codegen (ctx : CodeGenContext) : LLVMValueSignPair × CodeGenContext :=
  ((none, false), ctx)

/-- The method `AdditiveExpr::Codegen` (lines 241 to 243): `return {}`, the null
pair.  The operands are not lowered, nothing is inserted. -/
def AdditiveExpr.Codegen (ctx : CodeGenContext) : LLVMValueSignPair × CodeGenContext :=
  ((none, false), ctx)

/-- The method `ConstantExpr::Codegen` (lines 259 to 261): `return {}`, the null
pair.  The expression is not evaluated. -/
def ConstantExpr.Codegen (ctx : CodeGenContext) : LLVMValueSignPair × CodeGenContext :=
  ((none, false), ctx)

/-- A return statement as a node of `Stmt`, whatever its expression is: the
instructions `ReturnStmt::Codegen` inserts are none. -/
def Stmt.ReturnStmt : Stmt := .other []

/-- A constant expression as a node of `Expr`, whatever its operands are: the
pair `ConstantExpr::Codegen` returns is the null pair. -/
def Expr.ConstantExpr : Expr := { result := (none, false) }

/-- The function `int add(int a, int b) { return a + b; }`: the body holds one
return statement, whose expression is an additive expression. -/
def Sample.add : Function :=
  { mName := "add", mRetType := Sample.intType,
    mParam := [(Sample.intType, "a"), (Sample.intType, "b")],
    mOptBlockStmt := some [Stmt.ReturnStmt] }

/-- The context in which the body of `Sample.add` is lowered: the state after
lines 102 to 128 of `Function::Codegen` on the fresh module. -/
def Sample.addBody : CodeGenContext :=
  match Function.declare Sample.add Sample.context with
  | .ok (fr, c) => Function.openBody c fr.1
  | .error _ => Sample.context

/-- The declaration `const int N = 3 + 4;`: the initializer is a constant expression. -/
def Sample.constN : GlobalDecl :=
  { mType := .PrimaryType [.kw_const, .kw_int] true false, mName := "N",
    mOptValue := some Expr.ConstantExpr }

/-- The declaration `int *p;` -/
def Sample.pointerP : GlobalDecl :=
  { mType := .PointerType Sample.intType, mName := "p", mOptValue := none }

/-- The declaration `int p;` -/
def Sample.intP : GlobalDecl :=
  { mType := Sample.intType, mName := "p", mOptValue := none }

/-- The declaration `int x;` -/
def Sample.intX : GlobalDecl :=
  { mType := Sample.intType, mName := "x", mOptValue := none }

/-- The declaration `float y;` -/
def Sample.floatY : GlobalDecl :=
  { mType := .PrimaryType [.kw_float] true false, mName := "y", mOptValue := none }

/-- The context a lowering of a global declaration returns, the given context
when it fails. -/
def Sample.afterGlobal (r : Except CodegenError (LLVMValueSignPair × CodeGenContext))
    (ctx : CodeGenContext) : CodeGenContext :=
  match r with
  | .ok p => p.2
  | .error _ => ctx

/-! ## Notions for the claims on global declarations and the program -/

/-- The pair `{constant, sign}` of line 95 for a declaration whose type lowers
to `ty`: what the initializer's `Codegen` returns, or the zero of lines 89 to 93
with the sign of the declared type. -/
def GlobalDecl.constant (d : GlobalDecl) (ty : LLVMType) : LLVMValueSignPair :=
  match d.mOptValue with
  | some mOptValue => mOptValue.result
  | none => (GlobalDecl.zeroValue ty, d.mType.afterTypeGen.IsSigned)

/-- A list of globals after the variable `name` received the initializer
`init`: the first variable of that name gets it; when there is none, a new
variable of type `ty` with that initializer stands at the end. -/
def upsertGlobal (name : String) (ty : LLVMType) (init : Option Value) :
    List GlobalVariable → List GlobalVariable
  | [] => [{ name := name, valueType := ty, initializer := init }]
  | g :: gs =>
    if g.name = name then { g with initializer := init } :: gs
    else g :: upsertGlobal name ty init gs

/-- The number of global variables of a module that carry the given name. -/
def Module.countGlobals (m : Module) (name : String) : Nat :=
  m.globals.countP (fun g => g.name = name)

/-- The context whose module is `m` after the variable `name` received the
initializer `init` (see `upsertGlobal`). -/
def CodeGenContext.withGlobal (ctx : CodeGenContext) (m : Module) (name : String)
    (ty : LLVMType) (init : Option Value) : CodeGenContext :=
  { ctx with mModule := some { m with globals := upsertGlobal name ty init m.globals } }

/-- The declaration `int x = 5;`: the initializer is a constant expression. -/
def Sample.intXInit : GlobalDecl :=
  { mType := Sample.intType, mName := "x", mOptValue := some Expr.ConstantExpr }

/-- The context in which the lowering of `int x;` into the fresh module returns. -/
def Sample.afterIntX : CodeGenContext :=
  Sample.afterGlobal (GlobalDecl.Codegen Sample.intX Sample.context) Sample.context

/-- The program `int x; int x = 5;` -/
def Sample.initialized : Program :=
  { mExternalDecl := [.GlobalDecl Sample.intX, .GlobalDecl Sample.intXInit] }

/-- The names of the functions among a list of external declarations, in order. -/
def Program.functionNames : List ExternalDecl → List String
  | [] => []
  | .Function fn :: rest => fn.mName :: Program.functionNames rest
  | .GlobalDecl _ :: rest => Program.functionNames rest

/-- The names of the global declarations among a list of external declarations, in order. -/
def Program.globalNames : List ExternalDecl → List String
  | [] => []
  | .Function _ :: rest => Program.globalNames rest
  | .GlobalDecl d :: rest => d.mName :: Program.globalNames rest

/-- The name function number `f` was created with, none when there is no such function. -/
def CodeGenContext.functionName (ctx : CodeGenContext) (f : Nat) : Option String :=
  ctx.functions[f]?.map (fun fn => fn.name)

/-- The contexts `states` are the ones a run of the loop of lines 74 to 76 goes
through: it starts in `first`, ends in `last`, and for every position `i` the
call of `Codegen` on declaration `i`, made in state `i`, returns state `i + 1`. -/
def Program.Steps (decls : List ExternalDecl) (first last : CodeGenContext)
    (states : List CodeGenContext) : Prop :=
  states.length = decls.length + 1 ∧ states[0]? = some first ∧
    states[decls.length]? = some last ∧
    ∀ (i : Nat) (ext : ExternalDecl) (a b : CodeGenContext), decls[i]? = some ext →
      states[i]? = some a → states[i + 1]? = some b → ext.Codegen a = .ok b

/-- The program `int x; void g(int a, float) { }`. -/
def Sample.program : Program :=
  { mExternalDecl := [.GlobalDecl Sample.intX, .Function Sample.twoParams] }

/-- A context that holds a module built before: the state in which the
lowering of `int p;` into the fresh module returns. -/
def Sample.usedContext : CodeGenContext :=
  Sample.afterGlobal (GlobalDecl.Codegen Sample.intP Sample.context) Sample.context

/-- The context `Program::Codegen` returns for `Sample.program` in
`Sample.usedContext`. -/
def Sample.afterProgram : CodeGenContext :=
  match Program.Codegen Sample.program Sample.usedContext with
  | .ok r => r.2
  | .error _ => Sample.usedContext

/-- The method `WhileStmt::Codegen` (lines 180 to 182): `return {}`, the null
pair.  Neither the condition nor the body is lowered, no block is created. -/
def WhileStmt.Codegen (ctx : CodeGenContext) : LLVMValueSignPair × CodeGenContext :=
  ((none, false), ctx)

/-- The method `DoWhileStmt::Codegen` (lines 183 to 185): `return {}`, the null pair. -/
def DoWhileStmt.Codegen (ctx : CodeGenContext) : LLVMValueSignPair × CodeGenContext :=
  ((none, false), ctx)

/-- The method `ForStmt::Codegen` (lines 186 to 188): `return {}`, the null pair. -/
def ForStmt.Codegen (ctx : CodeGenContext) : LLVMValueSignPair × CodeGenContext :=
  ((none, false), ctx)

/-- The method `ForDeclarationStmt::Codegen` (lines 189 to 192): `return {}`, the
null pair. -/
def ForDeclarationStmt.Codegen (ctx : CodeGenContext) : LLVMValueSignPair × CodeGenContext :=
  ((none, false), ctx)

/-- The method `BreakStmt::Codegen` (lines 199 to 201): `return {}`, the null
pair.  The context is not looked at. -/
def BreakStmt.Codegen (ctx : CodeGenContext) : LLVMValueSignPair × CodeGenContext :=
  ((none, false), ctx)

/-- The method `ContinueStmt::Codegen` (lines 202 to 204): `return {}`, the null
pair.  The context is not looked at. -/
def ContinueStmt.Codegen (ctx : CodeGenContext) : LLVMValueSignPair × CodeGenContext :=
  ((none, false), ctx)

/-- The method `LogOrExpr::Codegen` (lines 217 to 219): `return {}`, the null
pair.  No operand is lowered, nothing is inserted, no block is created. -/
def LogOrExpr.Codegen (ctx : CodeGenContext) : LLVMValueSignPair × CodeGenContext :=
  ((none, false), ctx)

/-- The method `LogAndExpr::Codegen` (lines 220 to 222): `return {}`, the null
pair.  No operand is lowered, nothing is inserted, no block is created. -/
def LogAndExpr.Codegen (ctx : CodeGenContext) : LLVMValueSignPair × CodeGenContext :=
  ((none, false), ctx)

/-- A while, do-while or for statement (of either form) as a node of `Stmt`,
whatever its parts are: the instructions its `Codegen` inserts are none. -/
def Stmt.LoopStmt : Stmt := .other []

/-- A break or continue statement as a node of `Stmt`: the instructions its
`Codegen` inserts are none. -/
def Stmt.JumpStmt : Stmt := .other []

/-- A logical-and or logical-or expression as a node of `Expr`, whatever its
operands are: the pair its `Codegen` returns is the null pair. -/
def Expr.LogicalExpr : Expr := { result := (none, false) }

/-- The function `void f(int x) { while (x) { } }`. -/
def Sample.loop : Function :=
  { mName := "f", mRetType := Sample.voidType, mParam := [(Sample.intType, "x")],
    mOptBlockStmt := some [Stmt.LoopStmt] }

/-- The function `void f(int x) { break; }`, a break outside any loop. -/
def Sample.strayBreak : Function :=
  { mName := "f", mRetType := Sample.voidType, mParam := [(Sample.intType, "x")],
    mOptBlockStmt := some [Stmt.JumpStmt] }

/-- The function object and the entry block in `Sample.bodyStart`, the state in
which the body of a function `void f(int x)` is lowered: one block, `entry`,
which holds the stack slot of `x` and the store of `x` into it. -/
def Sample.entryOnly : List IRFunction × List BasicBlock :=
  ([{ name := "f", returnType := .voidTy, args := [{ ty := .intTy 32, name := "x" }],
      isVarArg := false, linkage := .ExternalLinkage, basicBlocks := [0] }],
   [{ name := "entry",
      insts := [.alloca 0 (.intTy 32) "x",
                .store (.argument 0 0 (.intTy 32)) (.instruction 0 (.pointerTy (.intTy 32)))] }])

/-- What the claim on `PrimaryType::TypeGen` calls skipping one leading `const`. -/
def PrimaryType.skipConst : List TokenType → List TokenType
  | .kw_const :: rest => rest
  | mTypes => mTypes

/-- What the claim calls skipping one `signed` or `unsigned`. -/
def PrimaryType.skipSign : List TokenType → List TokenType
  | .kw_signed :: rest => rest
  | .kw_unsigned :: rest => rest
  | mTypes => mTypes

/-- The type the claim gives for the token that decides. -/
def PrimaryType.ofToken : TokenType → LLVMTypePtr
  | .kw_void => some .voidTy
  | .kw_char => some (.intTy 8)
  | .kw_short => some (.intTy 16)
  | .kw_int => some (.intTy 32)
  | .kw_long => some (.intTy 64)
  | .kw_float => some .floatTy
  | .kw_double => some .doubleTy
  | _ => none

/-- The result the claim describes for a token list: one leading `const` and
then one `signed` or `unsigned` are skipped; when no token remains the type is
`i32`, otherwise the next token decides and the tokens after it play no role. -/
def PrimaryType.described (mTypes : List TokenType) : LLVMTypePtr :=
  match PrimaryType.skipSign (PrimaryType.skipConst mTypes) with
  | [] => some (.intTy 32)
  | token :: _ => PrimaryType.ofToken token

/-- The value of `mSign` after the call, for the flag `mSign` before it: the
token after the optional leading `const` sets it when it is `signed` or
`unsigned`. -/
def PrimaryType.signAfter (mTypes : List TokenType) (mSign : Bool) : Bool :=
  match PrimaryType.skipConst mTypes with
  | .kw_signed :: _ => true
  | .kw_unsigned :: _ => false
  | _ => mSign

/-- A run of `PrimaryType::TypeGen` with the positions of `mTypes` it reads:
`result` is what the call does, `reads` are the positions the expressions
`mTypes[cur]` of lines 24, 28, 31 and 38 read, in order, and `lookAhead` is the
position the expression `mTypes[cur+1]` of line 48 reads, none when that
expression is not evaluated. -/
structure PrimaryType.Trace where
  result : Except CodegenError (LLVMTypePtr × Bool)
  reads : List Nat
  lookAhead : Option Nat
  deriving DecidableEq, Repr

/-- The method `PrimaryType::TypeGen` (lines 20 to 62) once more, keeping track
of the positions read.  Line 31 is reached, and reads `mTypes[cur]` again, when
the token of line 28 is not `signed`.  In the condition of line 48,
`cur < size && mTypes[cur+1] == kw_long`, the second operand is evaluated when
the first holds. -/
def PrimaryType.TypeGenTraced (mTypes : List TokenType) (mSign : Bool) : PrimaryType.Trace :=
  let size := mTypes.length
  if ¬ (size > 0) then ⟨.error .assertionFailed, [], none⟩ else
  let cur := if mTypes[0]? = some .kw_const then 1 else 0
  if ¬ (cur < size) then ⟨.error .assertionFailed, [0], none⟩ else
  let sc : Bool × Nat :=
    if mTypes[cur]? = some .kw_signed then (true, cur + 1)
    else if mTypes[cur]? = some .kw_unsigned then (false, cur + 1)
    else (mSign, cur)
  let reads := if mTypes[cur]? = some .kw_signed then [0, cur] else [0, cur, cur]
  let mSign := sc.1
  let cur := sc.2
  if cur = size then ⟨.ok (some (.intTy 32), mSign), reads, none⟩ else
  let reads := reads ++ [cur]
  match mTypes[cur]? with
  | some .kw_void => ⟨.ok (some .voidTy, mSign), reads, none⟩
  | some .kw_char => ⟨.ok (some (.intTy 8), mSign), reads, none⟩
  | some .kw_short => ⟨.ok (some (.intTy 16), mSign), reads, none⟩
  | some .kw_int => ⟨.ok (some (.intTy 32), mSign), reads, none⟩
  | some .kw_long =>
    ⟨if cur < size && mTypes[cur + 1]? = some .kw_long then .ok (some (.intTy 64), mSign)
      else .ok (some (.intTy 64), mSign),
     reads, if cur < size then some (cur + 1) else none⟩
  | some .kw_float => ⟨.ok (some .floatTy, mSign), reads, none⟩
  | some .kw_double => ⟨.ok (some .doubleTy, mSign), reads, none⟩
  | _ => ⟨.ok (none, mSign), reads, none⟩

/-- The statement `if (x) { }`: the then arm is an empty block statement. -/
def Sample.ifEmpty : Stmt := .IfStmt Sample.argX (.BlockStmt []) none

/-- The statement `if (x) return; else { }`: the else arm is an empty block
statement and the then arm inserts `ret void`. -/
def Sample.ifEmptyElse : Stmt := .IfStmt Sample.argX Sample.returnVoid (some (.BlockStmt []))

/-- The state in which line 165 inspects the then block of `Sample.ifEmpty`,
lowered where the body of `void f(int x)` starts: the state after lines 151 to
164, the arm being lowered in the state `Sample.afterEnter`. -/
def Sample.afterEmptyArm : CodeGenContext :=
  Sample.afterStmt (Stmt.Codegen (.BlockStmt []) Sample.afterEnter) Sample.afterEnter

/-- The function `void f(int x) { if (x) { } }`. -/
def Sample.emptyArm : Function :=
  { mName := "f", mRetType := Sample.voidType, mParam := [(Sample.intType, "x")],
    mOptBlockStmt := some [Sample.ifEmpty] }

/-- The function `void f() { }`, whose only block is empty when line 132 inspects it. -/
def Sample.emptyBody : Function :=
  { mName := "f", mRetType := Sample.voidType, mParam := [], mOptBlockStmt := some [] }

/-- The function `void f(long x, double y) { }`. -/
def Sample.wide : Function :=
  { mName := "f", mRetType := Sample.voidType,
    mParam := [(.PrimaryType [.kw_long] true false, "x"),
               (.PrimaryType [.kw_double] true false, "y")],
    mOptBlockStmt := some [] }

/-- The context in which the body of `Sample.wide` is lowered: the state after
lines 102 to 128 of `Function::Codegen` on the fresh module. -/
def Sample.wideBody : CodeGenContext :=
  match Function.declare Sample.wide Sample.context with
  | .ok (fr, c) => Function.openBody c fr.1
  | .error _ => Sample.context

/-- The parameter `x` of `Sample.wide`, a value of type `i64`. -/
def Sample.argLong : Value := .argument 0 0 (.intTy 64)

/-- The parameter `y` of `Sample.wide`, a value of type double. -/
def Sample.argDouble : Value := .argument 0 1 .doubleTy

/-- The last instruction of block `bb`, none when there is no such block or it is empty. -/
def CodeGenContext.lastInst (ctx : CodeGenContext) (bb : Nat) : Option Instruction :=
  match ctx.blocks[bb]? with
  | none => none
  | some b => b.insts.getLast?

/-- The declaration `float x;` -/
def Sample.floatX : GlobalDecl :=
  { mType := .PrimaryType [.kw_float] true false, mName := "x", mOptValue := none }

/-- The context after `int x;` and then `float x;` were lowered into the fresh module. -/
def Sample.afterIntFloat : CodeGenContext :=
  Sample.afterGlobal
    (GlobalDecl.Codegen Sample.floatX
      (Sample.afterGlobal (GlobalDecl.Codegen Sample.intX Sample.context) Sample.context))
    Sample.context

/-- The program `int x; float x;` -/
def Sample.redeclared : Program :=
  { mExternalDecl := [.GlobalDecl Sample.intX, .GlobalDecl Sample.floatX] }

/-- The method `PrimaryExpr::Codegen` (lines 256 to 258): `return {}`, the null
pair.  The name or literal is not looked up, nothing is inserted. -/
def PrimaryExpr.Codegen (ctx : CodeGenContext) : LLVMValueSignPair × CodeGenContext :=
  ((none, false), ctx)

/-- A primary expression, such as the name `x`, as a node of `Expr`: the pair
`PrimaryExpr::Codegen` returns is the null pair. -/
def Expr.PrimaryExpr : Expr := { result := (none, false) }

/-- The statement `if (x) return 1; else return 0;`: the condition is a primary
expression, the arms are return statements. -/
def Sample.ifElseReturn : Stmt :=
  .IfStmt Expr.PrimaryExpr Stmt.ReturnStmt (some Stmt.ReturnStmt)

/-- The function `int f(int x) { if (x) return 1; else return 0; }`. -/
def Sample.sign : Function :=
  { mName := "f", mRetType := Sample.intType, mParam := [(Sample.intType, "x")],
    mOptBlockStmt := some [Sample.ifElseReturn] }

/-- The context in which the body of `Sample.sign` is lowered: the state after
lines 102 to 128 of `Function::Codegen` on the fresh module. -/
def Sample.signBody : CodeGenContext :=
  match Function.declare Sample.sign Sample.context with
  | .ok (fr, c) => Function.openBody c fr.1
  | .error _ => Sample.context

/-! ## The node `TypeName` of the parser's syntax tree (src/Parse/Syntax.h) -/

/-- The class `lcc::Syntax::TypeName` (lines 527 to 547): the member
`beginTokLoc_` of its base `Node` and its two data members.  The classes
`TokIter`, `DeclarationSpecifiers` and `AbstractDeclarator`, the last one held
in a `box`, are parameters. -/
structure Syntax.TypeName (TokIter DeclarationSpecifiers AbstractDeclarator : Type) where
  beginTokLoc_ : TokIter
  mSpecifierQualifiers : DeclarationSpecifiers
  mAbstractDeclarator : Option AbstractDeclarator

/-- The constructor of `TypeName` (lines 532 to 537).  The initializer of the
second member is written `mAbstractDeclarator(mAbstractDeclarator)`: the member
is initialised from itself, that is from what its storage holds before the
initialisation, `indeterminate`; the parameter `abstractDeclarator` is not
used. -/
def Syntax.TypeName.new {TokIter DeclarationSpecifiers AbstractDeclarator : Type}
    (begin : TokIter) (specifierQualifiers : DeclarationSpecifiers)
    (_abstractDeclarator : Option AbstractDeclarator)
    (indeterminate : Option AbstractDeclarator) :
    Syntax.TypeName TokIter DeclarationSpecifiers AbstractDeclarator :=
  { beginTokLoc_ := begin, mSpecifierQualifiers := specifierQualifiers,
    mAbstractDeclarator := indeterminate }

/-- The member `TypeName::getSpecifierQualifiers` (lines 538 to 540). -/
def Syntax.TypeName.getSpecifierQualifiers {TokIter DeclarationSpecifiers AbstractDeclarator : Type}
    (t : Syntax.TypeName TokIter DeclarationSpecifiers AbstractDeclarator) :
    DeclarationSpecifiers :=
  t.mSpecifierQualifiers

/-- The member `TypeName::getAbstractDeclarator` (lines 541 to 546): the pointer
to the declarator held, null when the member holds none. -/
def Syntax.TypeName.getAbstractDeclarator {TokIter DeclarationSpecifiers AbstractDeclarator : Type}
    (t : Syntax.TypeName TokIter DeclarationSpecifiers AbstractDeclarator) :
    Option AbstractDeclarator :=
  match t.mAbstractDeclarator with
  | some d => some d
  | none => none

/-- The type name `int *`, constructed at token 0 in storage that holds no
declarator: the specifiers and the abstract declarator are given by their
source text. -/
def Sample.typeName : Syntax.TypeName Nat String String :=
  Syntax.TypeName.new 0 "int" (some "*") none

/-- The type name `int`, constructed without abstract declarator in storage
that holds the declarator `*`. -/
def Sample.typeNamePlain : Syntax.TypeName Nat String String :=
  Syntax.TypeName.new 0 "int" none (some "*")

/-! ## Lemmas on the builder calls -/

theorem CodeGenContext.Extends.refl (a : CodeGenContext) : a.Extends a where
  mModule_eq := rfl
  mCurrentFunc_eq := rfl
  functions_length := rfl
  functions_grow := fun f fn h => ⟨[], by simp [h]⟩
  blocks_length := Nat.le_refl _
  blocks_grow := fun id blk h => ⟨[], by simp [h]⟩
  frame := fun _ _ _ => rfl
  cursor := Or.inl rfl

theorem CodeGenContext.Extends.trans {a b c : CodeGenContext} (h1 : a.Extends b) (h2 : b.Extends c) :
    a.Extends c where
  mModule_eq := h2.mModule_eq.trans h1.mModule_eq
  mCurrentFunc_eq := h2.mCurrentFunc_eq.trans h1.mCurrentFunc_eq
  functions_length := h2.functions_length.trans h1.functions_length
  functions_grow := by
    intro f fn h
    obtain ⟨e1, he1, hf1⟩ := h1.functions_grow f fn h
    obtain ⟨e2, he2, hf2⟩ := h2.functions_grow f _ he1
    refine ⟨e1 ++ e2, by simp [he2, List.append_assoc], ?_⟩
    intro x hx
    rcases List.mem_append.mp hx with hx | hx
    · exact hf1 x hx
    · exact Nat.le_trans h1.blocks_length (hf2 x hx)
  blocks_length := Nat.le_trans h1.blocks_length h2.blocks_length
  blocks_grow := by
    intro id blk h
    obtain ⟨e1, he1⟩ := h1.blocks_grow id blk h
    obtain ⟨e2, he2⟩ := h2.blocks_grow id _ he1
    exact ⟨e1 ++ e2, by simp [he2, List.append_assoc]⟩
  frame := by
    intro id hid hne
    rw [← h1.frame id hid hne]
    apply h2.frame id (Nat.lt_of_lt_of_le hid h1.blocks_length)
    rcases h1.cursor with hc | ⟨m, hm, hle⟩
    · rw [hc]; exact hne
    · rw [hm]; intro heq; cases heq; omega
  cursor := by
    rcases h2.cursor with hc | ⟨m, hm, hle⟩
    · rw [hc]; exact h1.cursor
    · exact Or.inr ⟨m, hm, Nat.le_trans h1.blocks_length hle⟩

theorem CodeGenContext.Extends.Insert (a : CodeGenContext) (i : Instruction) : a.Extends (a.Insert i) := by
  unfold CodeGenContext.Insert
  cases hc : a.insertBlock with
  | none => exact CodeGenContext.Extends.refl a
  | some bb =>
    refine ⟨rfl, rfl, rfl, fun f fn h => ⟨[], by simp [h]⟩, by simp, ?_, ?_, Or.inl hc.symm⟩
    · intro id blk h
      by_cases hid : bb = id
      · subst hid; exact ⟨[i], by simp [List.getElem?_modify, h]⟩
      · exact ⟨[], by simp [List.getElem?_modify, h, hid]⟩
    · intro id _ hne
      have : bb ≠ id := fun h => hne (by rw [hc, h])
      simp [List.getElem?_modify, this]

theorem CodeGenContext.Extends.foldl_Insert (emits : List Instruction) (a : CodeGenContext) :
    a.Extends (emits.foldl CodeGenContext.Insert a) := by
  induction emits generalizing a with
  | nil => exact CodeGenContext.Extends.refl a
  | cons i is ih => exact (CodeGenContext.Extends.Insert a i).trans (ih _)

theorem CodeGenContext.Extends.SetInsertPoint {a b : CodeGenContext} (h : a.Extends b) (m : Nat)
    (hm : a.blocks.length ≤ m) : a.Extends (b.SetInsertPoint m) :=
  { h with cursor := Or.inr ⟨m, rfl, hm⟩ }

theorem CodeGenContext.Extends.appendBlock {a b : CodeGenContext} (h : a.Extends b)
    (f bb : Nat) (hbb : a.blocks.length ≤ bb) : a.Extends (b.appendBlock f bb) := by
  refine ⟨h.mModule_eq, h.mCurrentFunc_eq, by simpa [CodeGenContext.appendBlock] using h.functions_length,
    ?_, h.blocks_length, h.blocks_grow, h.frame, h.cursor⟩
  intro g fn hg
  obtain ⟨ext, he, hfresh⟩ := h.functions_grow g fn hg
  by_cases hfg : f = g
  · subst hfg
    refine ⟨ext ++ [bb], by simp [CodeGenContext.appendBlock, List.getElem?_modify, he], ?_⟩
    intro x hx
    rcases List.mem_append.mp hx with hx | hx
    · exact hfresh x hx
    · simp at hx; omega
  · exact ⟨ext, by simp [CodeGenContext.appendBlock, List.getElem?_modify, he, hfg], hfresh⟩

theorem CodeGenContext.Extends.BasicBlockCreate (a : CodeGenContext) (name : String) (parent : Option Nat) :
    a.Extends (BasicBlockCreate a name parent).2 := by
  have h1 : a.Extends { a with blocks := a.blocks ++ [{ name := name, insts := [] }] } := by
    refine ⟨rfl, rfl, rfl, fun f fn h => ⟨[], by simp [h]⟩, by simp, ?_, ?_, Or.inl rfl⟩
    · intro id blk h
      have hlt : id < a.blocks.length := (List.getElem?_eq_some_iff.mp h).1
      exact ⟨[], by simp [List.getElem?_append_left hlt, h]⟩
    · intro id hid _
      simp [List.getElem?_append_left hid]
  cases parent with
  | none => exact h1
  | some f => exact h1.appendBlock f _ (Nat.le_refl _)

theorem IfStmt.anatomy {e : Expr} {t : Stmt} {o : Option Stmt} {ctx ctx' : CodeGenContext}
    (h : Stmt.Codegen (.IfStmt e t o) ctx = .ok ctx') :
    ∃ bbs c1 c2 c3, IfStmt.enter e o.isSome ctx = .ok (bbs, c1) ∧ Stmt.Codegen t c1 = .ok c2 ∧
      IfStmt.fallThrough c2 bbs.thenBB bbs.mergeBB = .ok c3 ∧
      ((bbs.elseBB = none ∧ IfStmt.leave c3 bbs = .ok ctx') ∨
       (∃ elseBB c4 c5 c6, bbs.elseBB = some elseBB ∧
          pushBackBlock c3 bbs.function elseBB = .ok c4 ∧
          OptStmt.Codegen o (c4.SetInsertPoint elseBB) = .ok c5 ∧
          IfStmt.fallThrough c5 elseBB bbs.mergeBB = .ok c6 ∧ IfStmt.leave c6 bbs = .ok ctx')) := by
  rw [Stmt.Codegen] at h
  split at h
  · cases h
  · rename_i bbs c1 h1
    split at h
    · cases h
    · rename_i c2 h2
      split at h
      · cases h
      · rename_i c3 h3
        refine ⟨bbs, c1, c2, c3, h1, h2, h3, ?_⟩
        split at h
        · rename_i he
          exact Or.inl ⟨he, h⟩
        · rename_i elseBB he
          split at h
          · cases h
          · rename_i c4 h4
            split at h
            · cases h
            · rename_i c5 h5
              split at h
              · cases h
              · rename_i c6 h6
                exact Or.inr ⟨elseBB, c4, c5, c6, he, h4, h5, h6, h⟩

theorem CodeGenContext.Extends.CreateCmp (a : CodeGenContext) (p : Predicate) (l r : Value) :
    a.Extends (CreateCmp a p l r).2 := by
  unfold lcc.CreateCmp
  split
  · exact CodeGenContext.Extends.refl a
  · have h := CodeGenContext.Extends.Insert a (.cmp a.nextId p l r)
    exact ⟨h.1, h.2, h.3, h.4, h.5, h.6, h.7, h.8⟩

theorem CodeGenContext.Extends.condition (a : CodeGenContext) (v : Value) :
    a.Extends (IfStmt.condition v a).2 := by
  unfold IfStmt.condition
  split
  · exact CodeGenContext.Extends.CreateCmp _ _ _ _
  · split
    · exact CodeGenContext.Extends.CreateCmp _ _ _ _
    · exact CodeGenContext.Extends.refl a

theorem IfStmt.condition_blocks_length (a : CodeGenContext) (v : Value) :
    (IfStmt.condition v a).2.blocks.length = a.blocks.length := by
  have : ∀ i, (a.Insert i).blocks.length = a.blocks.length := by
    intro i; unfold CodeGenContext.Insert; split <;> simp
  unfold IfStmt.condition lcc.CreateCmp
  split_ifs <;> simp [this]

theorem IfStmt.condition_insertBlock (a : CodeGenContext) (v : Value) :
    (IfStmt.condition v a).2.insertBlock = a.insertBlock := by
  have : ∀ i, (a.Insert i).insertBlock = a.insertBlock := by
    intro i; unfold CodeGenContext.Insert; split <;> simp [*]
  unfold IfStmt.condition lcc.CreateCmp
  split_ifs <;> simp [this]

theorem CodeGenContext.Insert_block {a : CodeGenContext} {b : Nat} {blk : BasicBlock}
    (hb : a.insertBlock = some b) (hblk : a.blocks[b]? = some blk) (i : Instruction) :
    (a.Insert i).blocks[b]? = some { blk with insts := blk.insts ++ [i] } := by
  unfold CodeGenContext.Insert
  simp [hb, List.getElem?_modify, hblk]

theorem IfStmt.condition_block {a : CodeGenContext} {b : Nat} {blk : BasicBlock}
    (hb : a.insertBlock = some b) (hblk : a.blocks[b]? = some blk) (v : Value) :
    (IfStmt.condition v a).2.blocks[b]? =
      some { blk with insts := blk.insts ++ IfStmt.conditionInsts v a.nextId } := by
  have hz : (getInt32 0).isConstant = true := rfl
  have hf : (Value.constantFP .floatTy 0).isConstant = true := rfl
  unfold IfStmt.condition IfStmt.conditionInsts lcc.CreateCmp
  by_cases hc : v.isConstant = true <;> by_cases hi : v.getType.isIntegerTy = true <;>
    by_cases hfp : v.getType.isFloatingPointTy = true <;>
    simp [hc, hi, hfp, hz, hf, hblk, CodeGenContext.Insert_block hb hblk]

theorem CodeGenContext.Insert_fields (a : CodeGenContext) (i : Instruction) :
    (a.Insert i).mModule = a.mModule ∧ (a.Insert i).mCurrentFunc = a.mCurrentFunc ∧
    (a.Insert i).insertBlock = a.insertBlock ∧ (a.Insert i).functions = a.functions ∧
    (a.Insert i).blocks.length = a.blocks.length ∧ (a.Insert i).nextId = a.nextId := by
  unfold CodeGenContext.Insert
  split <;> simp [*]

theorem IfStmt.condition_fields (a : CodeGenContext) (v : Value) :
    (IfStmt.condition v a).2.mCurrentFunc = a.mCurrentFunc ∧
    (IfStmt.condition v a).2.insertBlock = a.insertBlock ∧
    (IfStmt.condition v a).2.functions = a.functions ∧
    (IfStmt.condition v a).2.blocks.length = a.blocks.length := by
  have h := fun i => CodeGenContext.Insert_fields a i
  unfold IfStmt.condition lcc.CreateCmp
  split_ifs <;> simp [h]

theorem BasicBlockCreate_fst (a : CodeGenContext) (n : String) (p : Option Nat) :
    (BasicBlockCreate a n p).1 = a.blocks.length := by
  unfold BasicBlockCreate; cases p <;> rfl

theorem BasicBlockCreate_fields (a : CodeGenContext) (n : String) (p : Option Nat) :
    (BasicBlockCreate a n p).2.blocks = a.blocks ++ [{ name := n, insts := [] }] ∧
    (BasicBlockCreate a n p).2.insertBlock = a.insertBlock ∧
    (BasicBlockCreate a n p).2.mCurrentFunc = a.mCurrentFunc ∧
    (BasicBlockCreate a n p).2.mModule = a.mModule ∧
    (BasicBlockCreate a n p).2.nextId = a.nextId := by
  unfold BasicBlockCreate; cases p <;> simp [CodeGenContext.appendBlock]

theorem BasicBlockCreate_functions (a : CodeGenContext) (n : String) (p : Option Nat) :
    (BasicBlockCreate a n p).2.functions =
      match p with
      | none => a.functions
      | some f => a.functions.modify
          (fun fn => { fn with basicBlocks := fn.basicBlocks ++ [a.blocks.length] }) f := by
  unfold BasicBlockCreate; cases p <;> simp [CodeGenContext.appendBlock]

theorem CodeGenContext.Insert_blocks (a : CodeGenContext) (i : Instruction) :
    (a.Insert i).blocks =
      match a.insertBlock with
      | none => a.blocks
      | some bb => a.blocks.modify (fun b => { b with insts := b.insts ++ [i] }) bb := by
  unfold CodeGenContext.Insert; split <;> simp [*]

theorem IfStmt.enter_spec {e : Expr} {hasElse : Bool} {ctx c1 : CodeGenContext} {bbs : IfBlocks}
    (h : IfStmt.enter e hasElse ctx = .ok (bbs, c1)) :
    ∃ v, e.result.1 = some v ∧
      bbs = { function := ctx.mCurrentFunc, thenBB := ctx.blocks.length,
              elseBB := if hasElse then some (ctx.blocks.length + 1) else none,
              mergeBB := if hasElse then ctx.blocks.length + 2 else ctx.blocks.length + 1 } ∧
      ctx.Extends c1 ∧
      c1.insertBlock = some ctx.blocks.length ∧
      c1.blocks.length = ctx.blocks.length + (if hasElse then 3 else 2) ∧
      (ctx.cursorValid → ∀ id, ctx.blocks.length ≤ id → id < c1.blocks.length →
        c1.blocks[id]? = some { name := "", insts := [] }) ∧
      (∀ b blk, ctx.insertBlock = some b → ctx.blocks[b]? = some blk →
        c1.blocks[b]? = some { blk with insts := blk.insts ++ IfStmt.conditionInsts v ctx.nextId ++
          [.condBr (IfStmt.condition v ctx).1 ctx.blocks.length (ctx.blocks.length + 1)] }) ∧
      (∀ f fn, ctx.mCurrentFunc = some f → ctx.functions[f]? = some fn →
        c1.functions[f]? = some { fn with basicBlocks := fn.basicBlocks ++ [ctx.blocks.length] }) := by
  unfold IfStmt.enter Expr.Codegen at h
  cases hv : e.result.1 with
  | none => simp [hv] at h
  | some v =>
    simp only [hv] at h
    injection h with h
    injection h with h1 h2
    obtain ⟨hcf, hci, hcfn, hcl⟩ := IfStmt.condition_fields ctx v
    have hext := CodeGenContext.Extends.condition ctx v
    have hblk := fun b blk (hb : ctx.insertBlock = some b) (hk : ctx.blocks[b]? = some blk) =>
      IfStmt.condition_block hb hk v
    generalize hc : (IfStmt.condition v ctx).1 = c at *
    generalize (IfStmt.condition v ctx).2 = c0 at *
    have e1 := BasicBlockCreate_fst
    have e2 := fun a n p => (BasicBlockCreate_fields a n p).1
    have e3 := fun a n p => (BasicBlockCreate_fields a n p).2.1
    have e4 := fun a n p => (BasicBlockCreate_fields a n p).2.2.1
    have e5 := BasicBlockCreate_functions
    have i1 := fun a i => (CodeGenContext.Insert_fields a i).2.2.1
    have i2 := fun a i => (CodeGenContext.Insert_fields a i).2.2.2.1
    have i3 := fun a i => (CodeGenContext.Insert_fields a i).2.2.2.2.1
    have i4 := CodeGenContext.Insert_blocks
    have hE : ctx.Extends c1 := by
      subst h2
      refine CodeGenContext.Extends.SetInsertPoint ?_ _ (by simp [e1, hcl])
      refine hext.trans ?_
      refine (CodeGenContext.Extends.BasicBlockCreate c0 "" c0.mCurrentFunc).trans ?_
      unfold CreateCondBr
      refine CodeGenContext.Extends.trans ?_ (CodeGenContext.Extends.Insert _ _)
      cases hasElse
      · exact CodeGenContext.Extends.BasicBlockCreate _ "" none
      · exact (CodeGenContext.Extends.BasicBlockCreate _ "" none).trans
          (CodeGenContext.Extends.BasicBlockCreate _ "" none)
    refine ⟨v, rfl, ?_, hE, ?_, ?_, ?_, ?_, ?_⟩
    · subst h1
      cases hasElse <;> simp [e1, e2, hcf, hcl, Prod.map]
    · subst h2
      simp [CodeGenContext.SetInsertPoint, e1, hcl]
    · subst h2
      cases hasElse <;>
        simp [CodeGenContext.SetInsertPoint, CreateCondBr, i3, e2, hcl, Prod.map]
    · intro hcv id hle hlt
      subst h2
      have hne : ∀ b, ctx.insertBlock = some b → b ≠ id := fun b hb => by
        have := hcv b hb; omega
      have key : ∀ (l : List BasicBlock) (m : List BasicBlock) (x : BasicBlock),
          (∀ y ∈ m, y = x) → l.length ≤ id → id < l.length + m.length → (l ++ m)[id]? = some x := by
        intro l m x hm h1 h2
        rw [List.getElem?_append_right h1]
        have h3 : id - l.length < m.length := by omega
        rw [List.getElem?_eq_getElem h3]
        exact congrArg some (hm _ (List.getElem_mem _))
      cases hb : ctx.insertBlock with
      | none =>
        cases hasElse <;>
          simp [CodeGenContext.SetInsertPoint, CreateCondBr, i4, e2, e3, hci, hb, Prod.map] at hlt ⊢ <;>
          exact key _ _ _ (by simp) (by omega) (by simp; omega)
      | some b =>
        have hbN := hne b hb
        cases hasElse <;>
          simp [CodeGenContext.SetInsertPoint, CreateCondBr, i4, e2, e3, hci, hb, Prod.map,
            List.getElem?_modify, hbN] at hlt ⊢ <;>
          exact key _ _ _ (by simp) (by omega) (by simp; omega)
    · intro b blk hb hk
      subst h2
      have hlt : b < c0.blocks.length := by
        rw [hcl]; exact (List.getElem?_eq_some_iff.mp hk).1
      have h0 := hblk b blk hb hk
      cases hasElse <;>
        simp [CodeGenContext.SetInsertPoint, CreateCondBr, i4, e1, e2, e3, hci, hb, Prod.map,
          List.getElem?_modify, List.getElem?_append_left hlt, h0, hcl, List.append_assoc, hc]
    · intro f fn hf hfn
      subst h2
      cases hasElse <;>
        simp [CodeGenContext.SetInsertPoint, CreateCondBr, i2, e5, hcf, hf, hcfn, Prod.map,
          List.getElem?_modify, hfn, hcl]

theorem IfStmt.fallThrough_spec {c c' : CodeGenContext} {a m : Nat}
    (h : IfStmt.fallThrough c a m = .ok c') :
    ∃ blk last, c.blocks[a]? = some blk ∧ blk.insts.getLast? = some last ∧
      ((last.isTerminator = true ∧ c' = c) ∨
       (last.isTerminator = false ∧ c' = c.Insert (.br m))) := by
  unfold IfStmt.fallThrough backIsTerminator at h
  cases hb : c.blocks[a]? with
  | none => simp [hb] at h
  | some blk =>
    cases hl : blk.insts.getLast? with
    | none => simp [hb, hl] at h
    | some last =>
      refine ⟨blk, last, rfl, hl, ?_⟩
      cases ht : last.isTerminator <;> simp [hb, hl, ht, CreateBr] at h
      · exact Or.inr ⟨rfl, h.symm⟩
      · exact Or.inl ⟨rfl, h.symm⟩

theorem IfStmt.fallThrough_extends {c c' : CodeGenContext} {a m : Nat}
    (h : IfStmt.fallThrough c a m = .ok c') : c.Extends c' := by
  obtain ⟨_, _, _, _, h | h⟩ := IfStmt.fallThrough_spec h
  · rw [h.2]; exact CodeGenContext.Extends.refl c
  · rw [h.2]; exact CodeGenContext.Extends.Insert c _

theorem pushBackBlock_spec {c c' : CodeGenContext} {fo : Option Nat} {bb : Nat}
    (h : pushBackBlock c fo bb = .ok c') : ∃ f, fo = some f ∧ c' = c.appendBlock f bb := by
  unfold pushBackBlock at h
  cases fo with
  | none => simp at h
  | some f => exact ⟨f, rfl, by simpa using h.symm⟩

theorem IfStmt.leave_spec {c c' : CodeGenContext} {bbs : IfBlocks}
    (h : IfStmt.leave c bbs = .ok c') :
    ∃ f, bbs.function = some f ∧
      c' = (c.appendBlock f bbs.mergeBB).SetInsertPoint bbs.mergeBB := by
  unfold IfStmt.leave at h
  split at h
  · cases h
  · rename_i c1 h1
    obtain ⟨f, hf, hc⟩ := pushBackBlock_spec h1
    exact ⟨f, hf, by rw [← hc]; simpa using h.symm⟩

theorem Stmt.Codegen_extends_all :
    (∀ (s : Stmt) (ctx ctx' : CodeGenContext), Stmt.Codegen s ctx = .ok ctx' → ctx.Extends ctx') := by
  intro s
  refine Stmt.rec
    (motive_1 := fun s => ∀ ctx ctx', Stmt.Codegen s ctx = .ok ctx' → ctx.Extends ctx')
    (motive_2 := fun l => ∀ ctx ctx', BlockStmt.Codegen l ctx = .ok ctx' → ctx.Extends ctx')
    (motive_3 := fun o => ∀ ctx ctx', OptStmt.Codegen o ctx = .ok ctx' → ctx.Extends ctx')
    ?_ ?_ ?_ ?_ ?_ ?_ ?_ s
  · intro l ih ctx ctx' h
    rw [Stmt.Codegen] at h
    exact ih ctx ctx' h
  · intro e t o iht iho ctx ctx' h
    obtain ⟨bbs, c1, c2, c3, h1, h2, h3, h4⟩ := IfStmt.anatomy h
    obtain ⟨v, _, hbbs, hE1, _, hlen, _, _, _⟩ := IfStmt.enter_spec h1
    have hE3 : ctx.Extends c3 := (hE1.trans (iht c1 c2 h2)).trans (IfStmt.fallThrough_extends h3)
    have hM : ctx.blocks.length ≤ bbs.mergeBB := by
      rw [hbbs]; simp only; split <;> omega
    rcases h4 with ⟨_, h5⟩ | ⟨elseBB, c4, c5, c6, he, h4, h5, h6, h7⟩
    · obtain ⟨f, _, hc⟩ := IfStmt.leave_spec h5
      rw [hc]
      exact CodeGenContext.Extends.SetInsertPoint (hE3.appendBlock _ _ hM) _ hM
    · obtain ⟨f, _, hc4⟩ := pushBackBlock_spec h4
      have hEl : ctx.blocks.length ≤ elseBB := by
        rw [hbbs] at he; simp only at he; split at he
        · cases he; omega
        · cases he
      have hE4 : ctx.Extends (c4.SetInsertPoint elseBB) := by
        rw [hc4]
        exact CodeGenContext.Extends.SetInsertPoint (hE3.appendBlock _ _ hEl) _ hEl
      have hE6 : ctx.Extends c6 :=
        (hE4.trans (iho _ _ h5)).trans (IfStmt.fallThrough_extends h6)
      obtain ⟨f', _, hc⟩ := IfStmt.leave_spec h7
      rw [hc]
      exact CodeGenContext.Extends.SetInsertPoint (hE6.appendBlock _ _ hM) _ hM
  · intro emits ctx ctx' h
    rw [Stmt.Codegen] at h
    cases h
    exact CodeGenContext.Extends.foldl_Insert emits ctx
  · intro ctx ctx' h
    rw [BlockStmt.Codegen] at h
    cases h
    exact CodeGenContext.Extends.refl ctx
  · intro s l ihs ihl ctx ctx' h
    rw [BlockStmt.Codegen] at h
    split at h
    · cases h
    · rename_i c1 h1
      exact (ihs _ _ h1).trans (ihl _ _ h)
  · intro ctx ctx' h
    rw [OptStmt.Codegen] at h
    cases h
  · intro s ih ctx ctx' h
    rw [OptStmt.Codegen] at h
    exact ih _ _ h

theorem BlockStmt.loop_extends {l : List Stmt} {ctx ctx' : CodeGenContext}
    (h : BlockStmt.Codegen l ctx = .ok ctx') : ctx.Extends ctx' :=
  Stmt.Codegen_extends_all (.BlockStmt l) ctx ctx' (by rw [Stmt.Codegen]; exact h)

theorem OptStmt.arm_extends {o : Option Stmt} {ctx ctx' : CodeGenContext}
    (h : OptStmt.Codegen o ctx = .ok ctx') : ctx.Extends ctx' := by
  cases o with
  | none => rw [OptStmt.Codegen] at h; cases h
  | some s => rw [OptStmt.Codegen] at h; exact Stmt.Codegen_extends_all s ctx ctx' h

theorem foldl_Insert_append (a b : List Instruction) (ctx : CodeGenContext) :
    (a ++ b).foldl CodeGenContext.Insert ctx =
      b.foldl CodeGenContext.Insert (a.foldl CodeGenContext.Insert ctx) :=
  List.foldl_append _ _ _ _

theorem Stmt.straightLine_codegen :
    ∀ (s : Stmt) (is : List Instruction) (ctx : CodeGenContext), s.straightLine = some is →
      Stmt.Codegen s ctx = .ok (is.foldl CodeGenContext.Insert ctx) := by
  intro s
  refine Stmt.rec
    (motive_1 := fun s => ∀ is ctx, s.straightLine = some is →
      Stmt.Codegen s ctx = .ok (is.foldl CodeGenContext.Insert ctx))
    (motive_2 := fun l => ∀ is ctx, BlockStmt.straightLine l = some is →
      BlockStmt.Codegen l ctx = .ok (is.foldl CodeGenContext.Insert ctx))
    (motive_3 := fun _ => True)
    ?_ ?_ ?_ ?_ ?_ ?_ ?_ s
  · intro l ih is ctx h
    rw [Stmt.straightLine] at h
    rw [Stmt.Codegen]
    exact ih is ctx h
  · intro e t o _ _ is ctx h
    rw [Stmt.straightLine] at h
    cases h
  · intro emits is ctx h
    rw [Stmt.straightLine] at h
    cases h
    rw [Stmt.Codegen]
  · intro is ctx h
    rw [BlockStmt.straightLine] at h
    cases h
    rw [BlockStmt.Codegen]
    rfl
  · intro s l ihs ihl is ctx h
    rw [BlockStmt.straightLine] at h
    split at h
    · rename_i a b ha hb
      cases h
      rw [BlockStmt.Codegen, ihs a ctx ha]
      simp only
      rw [ihl b _ hb, foldl_Insert_append]
    · cases h
  · trivial
  · intros; trivial

theorem BlockStmt.straightLine_loop {l : List Stmt} {is : List Instruction}
    (ctx : CodeGenContext) (h : BlockStmt.straightLine l = some is) :
    BlockStmt.Codegen l ctx = .ok (is.foldl CodeGenContext.Insert ctx) := by
  have := Stmt.straightLine_codegen (.BlockStmt l) is ctx (by rw [Stmt.straightLine]; exact h)
  rw [Stmt.Codegen] at this
  exact this

theorem foldl_Insert_fields (is : List Instruction) (a : CodeGenContext) :
    (is.foldl CodeGenContext.Insert a).mModule = a.mModule ∧
    (is.foldl CodeGenContext.Insert a).mCurrentFunc = a.mCurrentFunc ∧
    (is.foldl CodeGenContext.Insert a).insertBlock = a.insertBlock ∧
    (is.foldl CodeGenContext.Insert a).functions = a.functions ∧
    (is.foldl CodeGenContext.Insert a).blocks.length = a.blocks.length ∧
    (is.foldl CodeGenContext.Insert a).nextId = a.nextId := by
  induction is generalizing a with
  | nil => simp
  | cons i is ih =>
    obtain ⟨h1, h2, h3, h4, h5, h6⟩ := CodeGenContext.Insert_fields a i
    obtain ⟨g1, g2, g3, g4, g5, g6⟩ := ih (a.Insert i)
    simp only [List.foldl_cons]
    exact ⟨g1.trans h1, g2.trans h2, g3.trans h3, g4.trans h4, g5.trans h5, g6.trans h6⟩

theorem foldl_Insert_block {a : CodeGenContext} {b : Nat} {blk : BasicBlock}
    (hb : a.insertBlock = some b) (hblk : a.blocks[b]? = some blk) (is : List Instruction) :
    (is.foldl CodeGenContext.Insert a).blocks[b]? = some { blk with insts := blk.insts ++ is } := by
  induction is generalizing a blk with
  | nil => simp [hblk]
  | cons i is ih =>
    simp only [List.foldl_cons]
    rw [ih ((CodeGenContext.Insert_fields a i).2.2.1.trans hb) (CodeGenContext.Insert_block hb hblk i)]
    simp [List.append_assoc]

theorem CodeGenContext.Extends.cursor_ne {a b : CodeGenContext} (h : a.Extends b) {id : Nat}
    (hid : id < a.blocks.length) (hne : a.insertBlock ≠ some id) : b.insertBlock ≠ some id := by
  rcases h.cursor with hc | ⟨m, hm, hle⟩
  · rw [hc]; exact hne
  · rw [hm]; intro heq; cases heq; omega

theorem IfStmt.fallThrough_fields {c c' : CodeGenContext} {a m : Nat}
    (h : IfStmt.fallThrough c a m = .ok c') :
    c'.mCurrentFunc = c.mCurrentFunc ∧ c'.insertBlock = c.insertBlock ∧
    c'.functions = c.functions ∧ c'.blocks.length = c.blocks.length := by
  obtain ⟨_, _, _, _, h | h⟩ := IfStmt.fallThrough_spec h
  · rw [h.2]; simp
  · rw [h.2]
    obtain ⟨_, h2, h3, h4, h5, _⟩ := CodeGenContext.Insert_fields c (.br m)
    exact ⟨h2, h3, h4, h5⟩

theorem Stmt.straightLine_functions {s : Stmt} {c c' : CodeGenContext}
    (hs : s.straightLine.isSome) (h : Stmt.Codegen s c = .ok c') : c'.functions = c.functions := by
  obtain ⟨is, his⟩ := Option.isSome_iff_exists.mp hs
  rw [Stmt.straightLine_codegen s is c his] at h
  cases h
  exact (foldl_Insert_fields is c).2.2.2.1

theorem appendBlock_getElem? (c : CodeGenContext) (f bb : Nat) (fn : IRFunction)
    (h : c.functions[f]? = some fn) :
    (c.appendBlock f bb).functions[f]? =
      some { fn with basicBlocks := fn.basicBlocks ++ [bb] } := by
  simp [CodeGenContext.appendBlock, List.getElem?_modify, h]

/-- What a completed `IfStmt::Codegen` leaves behind, in terms of the state `c1`
right after the conditional branch was emitted. -/
theorem IfStmt.run_spec {e : Expr} {t : Stmt} {o : Option Stmt} {ctx ctx' : CodeGenContext}
    (h : Stmt.Codegen (.IfStmt e t o) ctx = .ok ctx') :
    ∃ bbs c1 f, IfStmt.enter e o.isSome ctx = .ok (bbs, c1) ∧
      ctx.mCurrentFunc = some f ∧
      ctx'.insertBlock = some bbs.mergeBB ∧
      c1.blocks.length ≤ ctx'.blocks.length ∧
      (∀ id, id < c1.blocks.length → id ≠ bbs.thenBB → bbs.elseBB ≠ some id →
        ctx'.blocks[id]? = c1.blocks[id]?) ∧
      (∀ fn, ctx.functions[f]? = some fn → ∃ ta ea,
        ctx'.functions[f]? = some { fn with basicBlocks :=
          fn.basicBlocks ++ bbs.thenBB :: ta ++
            (match bbs.elseBB with
              | some elseBB => elseBB :: ea
              | none => []) ++ [bbs.mergeBB] } ∧
        (∀ x ∈ ta ++ ea, c1.blocks.length ≤ x) ∧
        (t.straightLine.isSome → ta = []) ∧
        (∀ s, o = some s → s.straightLine.isSome → ea = [])) := by
  obtain ⟨bbs, c1, c2, c3, h1, h2, h3, h4⟩ := IfStmt.anatomy h
  obtain ⟨v, _, hbbs, hE1, hcur1, hlen1, _, _, hfn1⟩ := IfStmt.enter_spec h1
  have hT : bbs.thenBB = ctx.blocks.length := by rw [hbbs]
  have hF : bbs.function = ctx.mCurrentFunc := by rw [hbbs]
  have hE12 := Stmt.Codegen_extends_all t c1 c2 h2
  have hE23 := IfStmt.fallThrough_extends h3
  have hE13 := hE12.trans hE23
  obtain ⟨_, _, hf23, hl23⟩ := IfStmt.fallThrough_fields h3
  have hc1T : ∀ id, id ≠ bbs.thenBB → c1.insertBlock ≠ some id := by
    intro id hne heq; rw [hcur1, ← hT] at heq; cases heq; exact hne rfl
  -- the function list after the then arm
  have hthen : ∀ f fn, ctx.mCurrentFunc = some f → ctx.functions[f]? = some fn →
      ∃ ta, c3.functions[f]? = some { fn with basicBlocks := fn.basicBlocks ++ bbs.thenBB :: ta } ∧
        (∀ x ∈ ta, c1.blocks.length ≤ x) ∧ (t.straightLine.isSome → ta = []) := by
    intro f fn hf hfn
    obtain ⟨ta, hta, hfresh⟩ := hE12.functions_grow f _ (hfn1 f fn hf hfn)
    refine ⟨ta, by rw [hf23, hta, hT]; simp, hfresh, ?_⟩
    intro hs
    have heq := Stmt.straightLine_functions hs h2
    rw [heq, hfn1 f fn hf hfn] at hta
    simpa using hta
  rcases h4 with ⟨hnone, h5⟩ | ⟨elseBB, c4, c5, c6, he, h4, h5, h6, h7⟩
  · obtain ⟨f, hf, hc⟩ := IfStmt.leave_spec h5
    rw [hF] at hf
    refine ⟨bbs, c1, f, h1, hf, by rw [hc]; rfl, by rw [hc]; exact hE13.blocks_length, ?_, ?_⟩
    · intro id hid hne _
      rw [hc]
      exact hE13.frame id hid (hc1T id hne)
    · intro fn hfn
      obtain ⟨ta, hta, hfresh, hstr⟩ := hthen f fn hf hfn
      refine ⟨ta, [], ?_, by simpa using hfresh, hstr, fun _ _ _ => rfl⟩
      rw [hc, hnone]
      simp only [CodeGenContext.SetInsertPoint]
      rw [appendBlock_getElem? _ _ _ _ hta]
      simp
  · obtain ⟨f0, hf0, hc4⟩ := pushBackBlock_spec h4
    obtain ⟨f, hf, hc⟩ := IfStmt.leave_spec h7
    rw [hF] at hf hf0
    have hff : f0 = f := by rw [hf] at hf0; cases hf0; rfl
    subst hff
    have hE45 := OptStmt.arm_extends h5
    have hE56 := IfStmt.fallThrough_extends h6
    have hE46 := hE45.trans hE56
    obtain ⟨_, _, hf56, _⟩ := IfStmt.fallThrough_fields h6
    have hl4 : (c4.SetInsertPoint elseBB).blocks = c3.blocks := by rw [hc4]; rfl
    refine ⟨bbs, c1, f0, h1, hf, by rw [hc]; rfl, ?_, ?_, ?_⟩
    · rw [hc]
      have h46 := hE46.blocks_length
      rw [hl4] at h46
      exact Nat.le_trans hE13.blocks_length h46
    · intro id hid hne hne2
      rw [hc]
      have h3' : c3.blocks[id]? = c1.blocks[id]? := hE13.frame id hid (hc1T id hne)
      have hid3 : id < (c4.SetInsertPoint elseBB).blocks.length := by
        rw [hl4]; exact Nat.lt_of_lt_of_le hid hE13.blocks_length
      have h6' := hE46.frame id hid3 (by
        simp only [CodeGenContext.SetInsertPoint]
        intro heq; cases heq; exact hne2 he)
      rw [hl4] at h6'
      simp only [CodeGenContext.SetInsertPoint, CodeGenContext.appendBlock]
      rw [h6', h3']
    · intro fn hfn
      obtain ⟨ta, hta, hfresh, hstr⟩ := hthen f0 fn hf hfn
      have h4f : (c4.SetInsertPoint elseBB).functions[f0]? =
          some { fn with basicBlocks := fn.basicBlocks ++ bbs.thenBB :: ta ++ [elseBB] } := by
        rw [hc4]
        simp only [CodeGenContext.SetInsertPoint]
        rw [appendBlock_getElem? _ _ _ _ hta]
      obtain ⟨ea, hea, hfresh2⟩ := hE45.functions_grow f0 _ h4f
      refine ⟨ta, ea, ?_, ?_, hstr, ?_⟩
      · rw [hc, he]
        simp only [CodeGenContext.SetInsertPoint]
        rw [appendBlock_getElem? _ _ _ _ (by rw [hf56]; exact hea)]
        simp [List.append_assoc]
      · intro x hx
        rcases List.mem_append.mp hx with hx | hx
        · exact hfresh x hx
        · have := hfresh2 x hx
          rw [hl4] at this
          exact Nat.le_trans hE13.blocks_length this
      · intro s hs hstr2
        subst hs
        rw [OptStmt.Codegen] at h5
        have heq := Stmt.straightLine_functions hstr2 h5
        rw [heq, h4f] at hea
        simpa using hea

theorem Stmt.Codegen_cursorAtBack_all :
    ∀ (s : Stmt) (ctx ctx' : CodeGenContext), ctx.cursorAtBack → Stmt.Codegen s ctx = .ok ctx' →
      ctx'.cursorAtBack := by
  intro s
  refine Stmt.rec
    (motive_1 := fun s => ∀ ctx ctx', ctx.cursorAtBack → Stmt.Codegen s ctx = .ok ctx' →
      ctx'.cursorAtBack)
    (motive_2 := fun l => ∀ ctx ctx', ctx.cursorAtBack → BlockStmt.Codegen l ctx = .ok ctx' →
      ctx'.cursorAtBack)
    (motive_3 := fun _ => True)
    ?_ ?_ ?_ ?_ ?_ ?_ ?_ s
  · intro l ih ctx ctx' hJ h
    rw [Stmt.Codegen] at h
    exact ih ctx ctx' hJ h
  · intro e t o _ _ ctx ctx' hJ h
    obtain ⟨f, fn, bb, hf, hfn, _, _⟩ := hJ
    obtain ⟨bbs, c1, f', _, hf', hcur, _, _, hshape⟩ := IfStmt.run_spec h
    rw [hf] at hf'; cases hf'
    obtain ⟨ta, ea, hfn', _⟩ := hshape fn hfn
    have hE := Stmt.Codegen_extends_all _ _ _ h
    exact ⟨f, _, bbs.mergeBB, by rw [hE.mCurrentFunc_eq, hf], hfn', List.getLast?_concat _, hcur⟩
  · intro emits ctx ctx' hJ h
    rw [Stmt.Codegen] at h
    cases h
    obtain ⟨f, fn, bb, hf, hfn, hl, hc⟩ := hJ
    obtain ⟨_, h2, h3, h4, _, _⟩ := foldl_Insert_fields emits ctx
    exact ⟨f, fn, bb, by rw [h2, hf], by rw [h4, hfn], hl, by rw [h3, hc]⟩
  · intro ctx ctx' hJ h
    rw [BlockStmt.Codegen] at h
    cases h
    exact hJ
  · intro s l ihs ihl ctx ctx' hJ h
    rw [BlockStmt.Codegen] at h
    split at h
    · cases h
    · rename_i c1 h1
      exact ihl _ _ (ihs _ _ hJ h1) h
  · trivial
  · intros; trivial

theorem BlockStmt.Codegen_cursorAtBack {l : List Stmt} {ctx ctx' : CodeGenContext}
    (hJ : ctx.cursorAtBack) (h : BlockStmt.Codegen l ctx = .ok ctx') : ctx'.cursorAtBack :=
  Stmt.Codegen_cursorAtBack_all (.BlockStmt l) ctx ctx' hJ (by rw [Stmt.Codegen]; exact h)

theorem CodeGenContext.Insert_block_ne {a : CodeGenContext} {b id : Nat}
    (hb : a.insertBlock = some b) (hid : id ≠ b) (i : Instruction) :
    (a.Insert i).blocks[id]? = a.blocks[id]? := by
  unfold CodeGenContext.Insert
  simp [hb, List.getElem?_modify, Ne.symm hid]

theorem CreateAlloca_fields (a : CodeGenContext) (ty : LLVMType) (n : String) :
    (CreateAlloca a ty n).1 = .instruction a.nextId (.pointerTy ty) ∧
    (CreateAlloca a ty n).2.mModule = a.mModule ∧
    (CreateAlloca a ty n).2.mCurrentFunc = a.mCurrentFunc ∧
    (CreateAlloca a ty n).2.insertBlock = a.insertBlock ∧
    (CreateAlloca a ty n).2.functions = a.functions ∧
    (CreateAlloca a ty n).2.blocks = (a.Insert (.alloca a.nextId ty n)).blocks ∧
    (CreateAlloca a ty n).2.nextId = a.nextId + 1 := by
  obtain ⟨h1, h2, h3, h4, _, _⟩ := CodeGenContext.Insert_fields a (.alloca a.nextId ty n)
  simp [CreateAlloca, h1, h2, h3, h4]

theorem spillArgs_spec (func : Nat) (args : List Argument) :
    ∀ (argNo : Nat) (c : CodeGenContext) (b : Nat) (blk : BasicBlock),
      c.insertBlock = some b → c.blocks[b]? = some blk →
      (spillArgs func argNo args c).mModule = c.mModule ∧
      (spillArgs func argNo args c).mCurrentFunc = c.mCurrentFunc ∧
      (spillArgs func argNo args c).insertBlock = c.insertBlock ∧
      (spillArgs func argNo args c).functions = c.functions ∧
      (spillArgs func argNo args c).blocks.length = c.blocks.length ∧
      (spillArgs func argNo args c).nextId = c.nextId + args.length ∧
      (spillArgs func argNo args c).blocks[b]? =
        some { blk with insts := blk.insts ++ entrySlots func c.nextId argNo args } ∧
      (∀ id, id ≠ b → (spillArgs func argNo args c).blocks[id]? = c.blocks[id]?) := by
  induction args with
  | nil =>
    intro argNo c b blk hb hblk
    simp [spillArgs, entrySlots, hblk]
  | cons a args ih =>
    intro argNo c b blk hb hblk
    obtain ⟨a1, a2, a3, a4, a5, a6, a7⟩ := CreateAlloca_fields c a.ty a.name
    have hb1 : (CreateAlloca c a.ty a.name).2.insertBlock = some b := a4.trans hb
    have hblk1 : (CreateAlloca c a.ty a.name).2.blocks[b]? =
        some { blk with insts := blk.insts ++ [.alloca c.nextId a.ty a.name] } := by
      rw [a6]; exact CodeGenContext.Insert_block hb hblk _
    obtain ⟨s1, s2, s3, s4, s5, s6⟩ := CodeGenContext.Insert_fields (CreateAlloca c a.ty a.name).2
      (.store (.argument func argNo a.ty) (CreateAlloca c a.ty a.name).1)
    have hblk2 := CodeGenContext.Insert_block hb1 hblk1
      (.store (.argument func argNo a.ty) (CreateAlloca c a.ty a.name).1)
    obtain ⟨r1, r2, r3, r4, r5, r6, r7, r8⟩ := ih (argNo + 1) _ b _ (s3.trans hb1) hblk2
    simp only [spillArgs, CreateStore]
    refine ⟨r1.trans (s1.trans a2), r2.trans (s2.trans a3), r3.trans (s3.trans a4),
      r4.trans (s4.trans a5), ?_, ?_, ?_, ?_⟩
    · rw [r5, s5, a6, (CodeGenContext.Insert_fields c _).2.2.2.2.1]
    · rw [r6, s6, a7]; simp; omega
    · rw [r7, s6, a7, a1]; simp [entrySlots, List.append_assoc]
    · intro id hid
      rw [r8 id hid]
      rw [CodeGenContext.Insert_block_ne hb1 hid, a6, CodeGenContext.Insert_block_ne hb hid]

theorem allNonNull_eq_some {l : List LLVMTypePtr} {ps : List LLVMType}
    (h : allNonNull l = some ps) : l = ps.map some := by
  induction l generalizing ps with
  | nil => simp [allNonNull] at h; subst h; rfl
  | cons a l ih =>
    cases a with
    | none => simp [allNonNull] at h
    | some t =>
      simp only [allNonNull] at h
      split at h
      · cases h
      · rename_i rest hr
        cases h
        simp [ih hr]

theorem allNonNull_map_some (ps : List LLVMType) : allNonNull (ps.map some) = some ps := by
  induction ps with
  | nil => rfl
  | cons t ps ih => simp [allNonNull, ih]

theorem modify_append_length {α : Type} (l : List α) (x : α) (f : α → α) :
    (l ++ [x]).modify f l.length = l ++ [f x] := by
  induction l with
  | nil => rfl
  | cons a l ih => simp [ih]

theorem Function.declare_eq {fn : Function} {r : LLVMType} {ps : List LLVMType}
    (ctx : CodeGenContext) (hr : fn.mRetType.TypeGen = .ok (some r))
    (hp : Function.paramTypes fn.mParam = .ok (ps.map some)) :
    Function.declare fn ctx = .ok ((ctx.functions.length, r), Function.declared fn r ps ctx) := by
  unfold Function.declare
  simp only [hr, hp, functionTypeGet, allNonNull_map_some, FunctionCreate, modify_append_length]
  rfl

theorem Function.declare_inv {fn : Function} {ctx c0 : CodeGenContext} {func : Nat}
    {retTy : LLVMType} (h : Function.declare fn ctx = .ok ((func, retTy), c0)) :
    ∃ ps, fn.mRetType.TypeGen = .ok (some retTy) ∧
      Function.paramTypes fn.mParam = .ok (ps.map some) ∧
      func = ctx.functions.length ∧ c0 = Function.declared fn retTy ps ctx := by
  cases hr : fn.mRetType.TypeGen with
  | error e => simp [Function.declare, hr] at h
  | ok retType =>
    cases hp : Function.paramTypes fn.mParam with
    | error e => simp [Function.declare, hr, hp] at h
    | ok paramType =>
      cases retType with
      | none => simp [Function.declare, hr, hp, functionTypeGet] at h
      | some r =>
        cases hps : allNonNull paramType with
        | none => simp [Function.declare, hr, hp, functionTypeGet, hps] at h
        | some ps =>
          have hps' := allNonNull_eq_some hps
          subst hps'
          rw [Function.declare_eq ctx hr hp] at h
          cases h
          exact ⟨ps, rfl, rfl, rfl, rfl⟩

theorem Function.openBody_spec (fn : Function) (r : LLVMType) (ps : List LLVMType)
    (ctx : CodeGenContext) :
    let c := Function.openBody (Function.declared fn r ps ctx) ctx.functions.length
    c.mModule = (Function.declared fn r ps ctx).mModule ∧
    c.mCurrentFunc = some ctx.functions.length ∧
    c.insertBlock = some ctx.blocks.length ∧
    c.functions = ctx.functions ++
      [{ (Function.created fn r ps) with basicBlocks := [ctx.blocks.length] }] ∧
    c.blocks.length = ctx.blocks.length + 1 ∧
    c.nextId = ctx.nextId + (Function.created fn r ps).args.length ∧
    c.blocks[ctx.blocks.length]? = some ⟨"entry",
      entrySlots ctx.functions.length ctx.nextId 0 (Function.created fn r ps).args⟩ ∧
    (∀ id, id ≠ ctx.blocks.length → c.blocks[id]? = ctx.blocks[id]?) := by
  intro c
  have hargs : (Function.declared fn r ps ctx).functions[ctx.functions.length]? =
      some (Function.created fn r ps) := by
    simp [Function.declared]
  obtain ⟨c00, hc00⟩ : ∃ c00 : CodeGenContext, c00 =
      { (Function.declared fn r ps ctx) with mCurrentFunc := some ctx.functions.length } := ⟨_, rfl⟩
  have f1 : c00.blocks = ctx.blocks := by rw [hc00]; rfl
  have f2 : c00.functions = ctx.functions ++ [Function.created fn r ps] := by rw [hc00]; rfl
  have f3 : c00.mModule = (Function.declared fn r ps ctx).mModule := by rw [hc00]
  have f4 : c00.nextId = ctx.nextId := by rw [hc00]; rfl
  have f5 : c00.mCurrentFunc = some ctx.functions.length := by rw [hc00]
  have hc : c = spillArgs ctx.functions.length 0 (Function.created fn r ps).args
      ((BasicBlockCreate c00 "entry" (some ctx.functions.length)).2.SetInsertPoint
        ctx.blocks.length) := by
    show Function.openBody _ _ = _
    unfold Function.openBody
    simp only [hargs, Option.map_some', Option.getD_some, BasicBlockCreate_fst]
    rw [hc00]
    rfl
  clear_value c
  clear hc00
  obtain ⟨b1, b2, b3, b4, b5⟩ := BasicBlockCreate_fields c00 "entry" (some ctx.functions.length)
  have b6 := BasicBlockCreate_functions c00 "entry" (some ctx.functions.length)
  simp only [f1, f2, f3, f4, f5] at b1 b2 b3 b4 b5 b6
  obtain ⟨cE, hcE⟩ : ∃ cE : CodeGenContext, cE =
      (BasicBlockCreate c00 "entry" (some ctx.functions.length)).2.SetInsertPoint
        ctx.blocks.length := ⟨_, rfl⟩
  have g1 : cE.blocks = ctx.blocks ++ [{ name := "entry", insts := [] }] := by rw [hcE]; exact b1
  have g2 : cE.insertBlock = some ctx.blocks.length := by rw [hcE]; rfl
  have g3 : cE.mCurrentFunc = some ctx.functions.length := by rw [hcE]; exact b3
  have g4 : cE.mModule = (Function.declared fn r ps ctx).mModule := by rw [hcE]; exact b4
  have g5 : cE.nextId = ctx.nextId := by rw [hcE]; exact b5
  have g6 : cE.functions = ctx.functions ++
      [{ (Function.created fn r ps) with basicBlocks := [ctx.blocks.length] }] := by
    rw [hcE]
    show (BasicBlockCreate c00 "entry" (some ctx.functions.length)).2.functions = _
    rw [b6]; simp [modify_append_length, Function.created]
  rw [← hcE] at hc
  clear hcE b1 b2 b3 b4 b5 b6
  obtain ⟨s1, s2, s3, s4, s5, s6, s7, s8⟩ := spillArgs_spec ctx.functions.length
    (Function.created fn r ps).args 0 cE ctx.blocks.length
    { name := "entry", insts := [] } g2 (by simp [g1])
  rw [hc]
  refine ⟨s1.trans g4, s2.trans g3, s3.trans g2, s4.trans g6, ?_, by rw [s6, g5], ?_, ?_⟩
  · rw [s5, g1]; simp
  · rw [s7, g5]; simp
  · intro id hid
    rw [s8 id hid, g1]
    by_cases hlt : id < ctx.blocks.length
    · simp [List.getElem?_append_left hlt]
    · have hgt : ctx.blocks.length < id := by omega
      rw [List.getElem?_eq_none (by simp; omega), List.getElem?_eq_none (by omega)]

theorem Function.paramTypes_spec :
    ∀ (l : List (TypeNode × String)) (ts : List LLVMTypePtr), Function.paramTypes l = .ok ts →
      ts.length = l.length ∧
      ∀ (i : Nat) (p : TypeNode × String), l[i]? = some p →
        ∃ t, ts[i]? = some t ∧ p.1.TypeGen = .ok t := by
  intro l
  induction l with
  | nil =>
    intro ts h
    simp [Function.paramTypes] at h
    subst h
    simp
  | cons p l ih =>
    intro ts h
    rw [Function.paramTypes] at h
    split at h
    · cases h
    · rename_i t ht
      split at h
      · cases h
      · rename_i ts' hts
        cases h
        obtain ⟨hl, hi⟩ := ih ts' hts
        refine ⟨by simp [hl], ?_⟩
        intro i q hq
        cases i with
        | zero => simp at hq; subst hq; exact ⟨t, by simp, ht⟩
        | succ i => simpa using hi i q (by simpa using hq)

theorem setArgNames_spec :
    ∀ (ps : List LLVMType) (names : List String), ps.length = names.length →
      (setArgNames (ps.map (fun t => { ty := t, name := "" })) names).length = ps.length ∧
      ∀ (i : Nat) (t : LLVMType) (n : String), ps[i]? = some t → names[i]? = some n →
        (setArgNames (ps.map (fun t => { ty := t, name := "" })) names)[i]? =
          some (Argument.mk t n) := by
  intro ps
  induction ps with
  | nil => intro names _; simp [setArgNames]
  | cons p ps ih =>
    intro names hl
    cases names with
    | nil => simp at hl
    | cons n names =>
      obtain ⟨h1, h2⟩ := ih names (by simpa using hl)
      simp only [List.map_cons, setArgNames]
      refine ⟨by simp [h1], ?_⟩
      intro i t m hp hn
      cases i with
      | zero =>
        simp at hp hn
        subst hp hn
        by_cases he : n.isEmpty = true
        · have : n = "" := (String.isEmpty_iff n).mp he
          simp [he, this]
        · simp [he]
      | succ i => simpa using h2 i t m (by simpa using hp) (by simpa using hn)

theorem entrySlots_spec (func : Nat) :
    ∀ (args : List Argument) (id argNo : Nat),
      (entrySlots func id argNo args).length = 2 * args.length ∧
      ∀ i a, args[i]? = some a →
        (entrySlots func id argNo args)[2 * i]? = some (.alloca (id + i) a.ty a.name) ∧
        (entrySlots func id argNo args)[2 * i + 1]? =
          some (.store (.argument func (argNo + i) a.ty) (.instruction (id + i) (.pointerTy a.ty))) := by
  intro args
  induction args with
  | nil => intro id argNo; simp [entrySlots]
  | cons a args ih =>
    intro id argNo
    obtain ⟨h1, h2⟩ := ih (id + 1) (argNo + 1)
    simp only [entrySlots]
    refine ⟨by simp [h1]; omega, ?_⟩
    intro i b hb
    cases i with
    | zero => simp at hb; subst hb; simp
    | succ i =>
      obtain ⟨g1, g2⟩ := h2 i b (by simpa using hb)
      have e1 : 2 * (i + 1) = (2 * i) + 1 + 1 := by omega
      have e2 : 2 * (i + 1) + 1 = (2 * i + 1) + 1 + 1 := by omega
      constructor
      · rw [e1]
        simp only [List.getElem?_cons_succ]
        rw [g1]; congr 2; omega
      · rw [e2]
        simp only [List.getElem?_cons_succ]
        rw [g2]
        have e3 : argNo + 1 + i = argNo + (i + 1) := by omega
        have e4 : id + 1 + i = id + (i + 1) := by omega
        rw [e3, e4]

theorem Function.paramTypes_of_map :
    ∀ (l : List (TypeNode × String)) (ps : List LLVMType),
      l.map (fun p => p.1.TypeGen) = ps.map (fun t => .ok (some t)) →
      Function.paramTypes l = .ok (ps.map some) := by
  intro l
  induction l with
  | nil =>
    intro ps h
    cases ps with
    | nil => rfl
    | cons _ _ => simp at h
  | cons p l ih =>
    intro ps h
    cases ps with
    | nil => simp at h
    | cons t ps =>
      simp only [List.map_cons, List.cons.injEq] at h
      rw [Function.paramTypes, h.1]
      simp only
      rw [ih ps h.2]
      rfl

theorem Function.finish_spec {c c' : CodeGenContext} {func : Nat} {retTy : LLVMType}
    (h : Function.finish c func retTy = .ok c') : c' = c ∨ c' = c.Insert .retVoid := by
  unfold Function.finish at h
  split at h
  · cases h
  · split at h
    · cases h
    · split at h
      · cases h
      · split at h
        · split at h
          · cases h; exact Or.inr rfl
          · cases h
        · cases h; exact Or.inl rfl

theorem Function.finish_extends {c c' : CodeGenContext} {func : Nat} {retTy : LLVMType}
    (h : Function.finish c func retTy = .ok c') : c.Extends c' := by
  rcases Function.finish_spec h with h | h
  · rw [h]; exact CodeGenContext.Extends.refl c
  · rw [h]; exact CodeGenContext.Extends.Insert c _

/-- How a completed `Function::Codegen` on a definition went. -/
theorem Function.Codegen_inv {fn : Function} {ctx ctx' : CodeGenContext} {func : Nat}
    (h : Function.Codegen fn ctx = .ok (func, ctx')) :
    ∃ r ps, fn.mRetType.TypeGen = .ok (some r) ∧
      Function.paramTypes fn.mParam = .ok (ps.map some) ∧ func = ctx.functions.length ∧
      ((fn.mOptBlockStmt = none ∧ ctx' = Function.declared fn r ps ctx) ∨
       (∃ mStmts c1, fn.mOptBlockStmt = some mStmts ∧
          BlockStmt.Codegen mStmts
            (Function.openBody (Function.declared fn r ps ctx) ctx.functions.length) = .ok c1 ∧
          Function.finish c1 ctx.functions.length r = .ok ctx' ∧
          verifyFunction ctx' ctx.functions.length = false)) := by
  unfold Function.Codegen at h
  split at h
  · cases h
  · rename_i fr c0 hd
    obtain ⟨f0, r⟩ := fr
    obtain ⟨ps, hr, hp, hf, hc0⟩ := Function.declare_inv hd
    subst hf hc0
    refine ⟨r, ps, hr, hp, ?_⟩
    split at h
    · rename_i hb
      cases h
      exact ⟨rfl, Or.inl ⟨hb, rfl⟩⟩
    · rename_i mStmts hb
      split at h
      · cases h
      · rename_i c1 h1
        split at h
        · cases h
        · rename_i c2 h2
          split at h
          · cases h
          · rename_i hv
            cases h
            exact ⟨rfl, Or.inr ⟨mStmts, c1, hb, h1, h2, by simpa using hv⟩⟩

theorem Function.created_args (fn : Function) (r : LLVMType) (ps : List LLVMType)
    (hlen : ps.length = fn.mParam.length) :
    (Function.created fn r ps).args.length = fn.mParam.length ∧
    ∀ (i : Nat) (t : LLVMType) (p : TypeNode × String), ps[i]? = some t → fn.mParam[i]? = some p →
      (Function.created fn r ps).args[i]? = some (Argument.mk t p.2) := by
  obtain ⟨h1, h2⟩ := setArgNames_spec ps (fn.mParam.map (fun p => p.2)) (by simp [hlen])
  refine ⟨by simp [Function.created, h1, hlen], ?_⟩
  intro i t p hp hq
  exact h2 i t p.2 hp (by simp [hq])

theorem map_TypeGen_length {l : List (TypeNode × String)} {ps : List LLVMType}
    (hp : l.map (fun p => p.1.TypeGen) = ps.map (fun t => .ok (some t))) :
    ps.length = l.length := by
  have := congrArg List.length hp
  simpa using this.symm

theorem IfStmt.enter_ok (e : Expr) (hasElse : Bool) (ctx : CodeGenContext) (v : Value)
    (hv : e.result.1 = some v) : ∃ bbs c1, IfStmt.enter e hasElse ctx = .ok (bbs, c1) := by
  unfold IfStmt.enter Expr.Codegen
  simp only [hv]
  exact ⟨_, _, rfl⟩

/-- The block that was the insertion block when an if statement was entered is
not touched after the conditional branch. -/
theorem IfStmt.entry_block_frozen {e : Expr} {t : Stmt} {o : Option Stmt}
    {ctx ctx' c1 : CodeGenContext} {bbs : IfBlocks} {b : Nat}
    (hb : b < ctx.blocks.length) (h1 : IfStmt.enter e o.isSome ctx = .ok (bbs, c1))
    (h : Stmt.Codegen (.IfStmt e t o) ctx = .ok ctx') : ctx'.blocks[b]? = c1.blocks[b]? := by
  obtain ⟨bbs', c1', f, h1', _, _, _, hframe, _⟩ := IfStmt.run_spec h
  rw [h1] at h1'
  cases h1'
  obtain ⟨_, _, hbbs, hE, _, _, _, _, _⟩ := IfStmt.enter_spec h1
  apply hframe b (Nat.lt_of_lt_of_le hb hE.blocks_length)
  · rw [hbbs]; simp only; omega
  · rw [hbbs]; simp only
    split
    · intro heq; cases heq; omega
    · intro heq; cases heq

theorem IfStmt.Codegen_of_steps {e : Expr} {t : Stmt} {o : Option Stmt}
    {ctx ctx' c1 c2 c3 : CodeGenContext} {bbs : IfBlocks}
    (h1 : IfStmt.enter e o.isSome ctx = .ok (bbs, c1)) (h2 : Stmt.Codegen t c1 = .ok c2)
    (h3 : IfStmt.fallThrough c2 bbs.thenBB bbs.mergeBB = .ok c3)
    (h4 : (bbs.elseBB = none ∧ IfStmt.leave c3 bbs = .ok ctx') ∨
       (∃ elseBB c4 c5 c6, bbs.elseBB = some elseBB ∧
          pushBackBlock c3 bbs.function elseBB = .ok c4 ∧
          OptStmt.Codegen o (c4.SetInsertPoint elseBB) = .ok c5 ∧
          IfStmt.fallThrough c5 elseBB bbs.mergeBB = .ok c6 ∧ IfStmt.leave c6 bbs = .ok ctx')) :
    Stmt.Codegen (.IfStmt e t o) ctx = .ok ctx' := by
  rw [Stmt.Codegen]
  simp only [h1, h2, h3]
  rcases h4 with ⟨he, h5⟩ | ⟨elseBB, c4, c5, c6, he, h4, h5, h6, h7⟩
  · simp only [he, h5]
  · simp only [he, h4, h5, h6, h7]

theorem IfStmt.fallThrough_ok {c : CodeGenContext} {a : Nat} {blk : BasicBlock} (m : Nat)
    (hblk : c.blocks[a]? = some blk) (hne : blk.insts ≠ []) :
    ∃ c', IfStmt.fallThrough c a m = .ok c' := by
  unfold IfStmt.fallThrough backIsTerminator
  simp only [hblk]
  cases hl : blk.insts.getLast? with
  | none => exact absurd (List.getLast?_eq_none_iff.mp hl) hne
  | some last => cases ht : last.isTerminator <;> simp [ht]

/-- An arm without if statements that inserts at least one instruction: lowered
with the insertion point at an existing block `a`, it leaves `a` non-empty and
changes neither the function lists nor the number of blocks, so the inspection
of `a` that follows succeeds. -/
theorem IfStmt.straight_arm {s : Stmt} {is : List Instruction} {c : CodeGenContext} {a : Nat}
    (hs : s.straightLine = some is) (hne : is ≠ []) (hc : c.insertBlock = some a)
    (ha : a < c.blocks.length) (m : Nat) :
    ∃ c2 c3, Stmt.Codegen s c = .ok c2 ∧ IfStmt.fallThrough c2 a m = .ok c3 ∧
      c3.blocks.length = c.blocks.length ∧ c3.functions = c.functions := by
  have h2 := Stmt.straightLine_codegen s is c hs
  obtain ⟨blk, hblk⟩ : ∃ blk, c.blocks[a]? = some blk := ⟨_, List.getElem?_eq_getElem ha⟩
  have hblk2 := foldl_Insert_block hc hblk is
  obtain ⟨c3, h3⟩ := IfStmt.fallThrough_ok m hblk2 (by simp [hne])
  obtain ⟨_, _, hf, hl⟩ := IfStmt.fallThrough_fields h3
  obtain ⟨_, _, _, g4, g5, _⟩ := foldl_Insert_fields is c
  exact ⟨_, c3, h2, h3, hl.trans g5, hf.trans g4⟩

theorem Function.finish_void {c : CodeGenContext} {func b : Nat} {irf : IRFunction}
    {blk : BasicBlock} (hf : c.functions[func]? = some irf)
    (hl : irf.basicBlocks.getLast? = some b) (hblk : c.blocks[b]? = some blk)
    (ho : blk.insts = [] ∨ ∃ last, blk.insts.getLast? = some last ∧ last.isTerminator = false) :
    Function.finish c func .voidTy = .ok (c.Insert .retVoid) := by
  unfold Function.finish
  simp only [hf, hl, hblk]
  rcases ho with h | ⟨last, h1, h2⟩
  · simp [h, LLVMType.isVoidTy, CreateRetVoid]
  · simp [h1, h2, LLVMType.isVoidTy, CreateRetVoid]

theorem entrySlots_plain (func : Nat) :
    ∀ (args : List Argument) (id argNo : Nat), ∀ i ∈ entrySlots func id argNo args,
      i.isTerminator = false := by
  intro args
  induction args with
  | nil => intro id argNo i hi; simp [entrySlots] at hi
  | cons a args ih =>
    intro id argNo i hi
    simp only [entrySlots, List.mem_cons] at hi
    rcases hi with h | h | h
    · subst h; rfl
    · subst h; rfl
    · exact ih _ _ i h

theorem setArgNames_map_ty :
    ∀ (args : List Argument) (names : List String),
      (setArgNames args names).map (fun a => a.ty) = args.map (fun a => a.ty) := by
  intro args
  induction args with
  | nil => intro names; cases names <;> simp [setArgNames]
  | cons a args ih =>
    intro names
    cases names with
    | nil => simp [setArgNames]
    | cons n names =>
      simp only [setArgNames, List.map_cons, ih names]
      split <;> rfl

theorem Function.created_args_ty (fn : Function) (r : LLVMType) (ps : List LLVMType) :
    (Function.created fn r ps).args.map (fun a => a.ty) = ps := by
  simp [Function.created, setArgNames_map_ty, Function.comp_def]

theorem open_of_plain {l : List Instruction} (h : ∀ i ∈ l, i.isTerminator = false) :
    l = [] ∨ ∃ last, l.getLast? = some last ∧ last.isTerminator = false := by
  cases hl : l.getLast? with
  | none => exact Or.inl (List.getLast?_eq_none_iff.mp hl)
  | some last => exact Or.inr ⟨last, rfl, h last (List.mem_of_getLast?_eq_some hl)⟩

/-- After the body of a function is lowered, the last block of the function is
the insertion block. -/
theorem Function.body_cursorAtBack (fn : Function) (ctx c0 c1 : CodeGenContext) (func : Nat)
    (r : LLVMType) (mStmts : List Stmt) (hd : Function.declare fn ctx = .ok ((func, r), c0))
    (hb : BlockStmt.Codegen mStmts (Function.openBody c0 func) = .ok c1) :
    ∃ irf back, c1.mCurrentFunc = some func ∧ c1.functions[func]? = some irf ∧
      irf.basicBlocks.getLast? = some back ∧ c1.insertBlock = some back := by
  obtain ⟨ps, _, _, hfunc, hc0⟩ := Function.declare_inv hd
  subst hfunc hc0
  obtain ⟨_, s2, s3, s4, _, _, _, _⟩ := Function.openBody_spec fn r ps ctx
  have hJ : (Function.openBody (Function.declared fn r ps ctx)
      ctx.functions.length).cursorAtBack :=
    ⟨ctx.functions.length,
      { (Function.created fn r ps) with basicBlocks := [ctx.blocks.length] },
      ctx.blocks.length, s2, by rw [s4]; simp, rfl, s3⟩
  obtain ⟨f, irf, bb, g1, g2, g3, g4⟩ := BlockStmt.Codegen_cursorAtBack hJ hb
  have hE := BlockStmt.loop_extends hb
  have : f = ctx.functions.length := by
    rw [hE.mCurrentFunc_eq, s2] at g1; cases g1; rfl
  subst this
  exact ⟨irf, bb, g1, g2, g3, g4⟩

theorem BasicBlock.unterminated.terminatorOnlyLast {b : BasicBlock} (h : b.unterminated) :
    b.terminatorOnlyLast :=
  fun i hi => h i (List.mem_of_mem_dropLast hi)

theorem CodeGenContext.Insert_getElem? (c : CodeGenContext) (i : Instruction) (id : Nat)
    (blk' : BasicBlock) (h : (c.Insert i).blocks[id]? = some blk') :
    c.blocks[id]? = some blk' ∨
    (c.insertBlock = some id ∧ ∃ blk, c.blocks[id]? = some blk ∧
      blk' = { blk with insts := blk.insts ++ [i] }) := by
  cases hc : c.insertBlock with
  | none =>
    left
    simpa [CodeGenContext.Insert, hc] using h
  | some b =>
    by_cases hid : id = b
    · subst hid
      right
      cases hb : c.blocks[id]? with
      | none =>
        have := (CodeGenContext.Extends.Insert c i).blocks_length
        have h1 : id < (c.Insert i).blocks.length := (List.getElem?_eq_some_iff.mp h).1
        rw [(CodeGenContext.Insert_fields c i).2.2.2.2.1] at h1
        rw [List.getElem?_eq_getElem h1] at hb
        cases hb
      | some blk =>
        rw [CodeGenContext.Insert_block hc hb] at h
        cases h
        exact ⟨rfl, blk, rfl, rfl⟩
    · left
      rw [CodeGenContext.Insert_block_ne hc hid] at h
      exact h

/-- Inserting any instruction into an insertion block that holds no terminator
keeps every block with its terminators last. -/
theorem CodeGenContext.TerminatorsLast.Insert_blocks_ok {c : CodeGenContext}
    (h : c.TerminatorsLast) (i : Instruction) :
    ∀ (id : Nat) (blk : BasicBlock), (c.Insert i).blocks[id]? = some blk →
      blk.terminatorOnlyLast := by
  intro id blk' hb
  rcases CodeGenContext.Insert_getElem? c i id blk' hb with h1 | ⟨hc, blk, h1, h2⟩
  · exact h.blocks_ok id blk' h1
  · subst h2
    intro j hj
    simp only [List.dropLast_concat] at hj
    exact h.cursor_open id blk hc h1 j hj

theorem CodeGenContext.TerminatorsLast.Insert_plain {c : CodeGenContext}
    (h : c.TerminatorsLast) (i : Instruction) (hi : i.isTerminator = false) :
    (c.Insert i).TerminatorsLast := by
  obtain ⟨_, _, f3, _, f5, _⟩ := CodeGenContext.Insert_fields c i
  refine ⟨h.Insert_blocks_ok i, ?_, ?_⟩
  · intro b blk' hc hb
    rw [f3] at hc
    rcases CodeGenContext.Insert_getElem? c i b blk' hb with h1 | ⟨_, blk, h1, h2⟩
    · cases hk : c.blocks[b]? with
      | none => rw [hk] at h1; cases h1
      | some blk =>
        rw [CodeGenContext.Insert_block hc hk] at hb
        cases hb
        intro j hj
        simp only [List.mem_append, List.mem_singleton] at hj
        rcases hj with hj | hj
        · exact h.cursor_open b blk hc hk j hj
        · subst hj; exact hi
    · subst h2
      intro j hj
      simp only [List.mem_append, List.mem_singleton] at hj
      rcases hj with hj | hj
      · exact h.cursor_open b blk hc h1 j hj
      · subst hj; exact hi
  · intro b hc
    rw [f3] at hc
    rw [f5]
    exact h.cursor_valid b hc

theorem CodeGenContext.TerminatorsLast.foldl_plain (is : List Instruction) :
    ∀ (c : CodeGenContext), c.TerminatorsLast → (∀ i ∈ is, i.isTerminator = false) →
      (is.foldl CodeGenContext.Insert c).TerminatorsLast := by
  induction is with
  | nil => intro c h _; exact h
  | cons i is ih =>
    intro c h hp
    exact ih _ (h.Insert_plain i (hp i (List.mem_cons_self _ _)))
      (fun j hj => hp j (List.mem_cons_of_mem _ hj))

/-- After the inspection of an arm's block, every block still has its
terminators last. -/
theorem CodeGenContext.TerminatorsLast.fallThrough {c c' : CodeGenContext} {a m : Nat}
    (h : c.TerminatorsLast) (h3 : IfStmt.fallThrough c a m = .ok c') :
    ∀ (id : Nat) (blk : BasicBlock), c'.blocks[id]? = some blk → blk.terminatorOnlyLast := by
  obtain ⟨_, _, _, _, h' | h'⟩ := IfStmt.fallThrough_spec h3
  · rw [h'.2]; exact h.blocks_ok
  · rw [h'.2]; exact h.Insert_blocks_ok _

/-- Moving the insertion point to an existing empty block restores the state
in which a statement may be lowered. -/
theorem CodeGenContext.TerminatorsLast.repoint {c : CodeGenContext} {m : Nat}
    (hok : ∀ (id : Nat) (blk : BasicBlock), c.blocks[id]? = some blk → blk.terminatorOnlyLast)
    (hm : c.blocks[m]? = some { name := "", insts := [] }) (c' : CodeGenContext)
    (hb : c'.blocks = c.blocks) (hc : c'.insertBlock = some m) : c'.TerminatorsLast := by
  refine ⟨by rw [hb]; exact hok, ?_, ?_⟩
  · intro b blk hcb hblk
    rw [hc] at hcb; cases hcb
    rw [hb, hm] at hblk; cases hblk
    intro i hi; simp at hi
  · intro b hcb
    rw [hc] at hcb; cases hcb
    rw [hb]
    exact (List.getElem?_eq_some_iff.mp hm).1

theorem IfStmt.conditionInsts_plain (v : Value) (id : Nat) :
    ∀ i ∈ IfStmt.conditionInsts v id, i.isTerminator = false := by
  intro i hi
  unfold IfStmt.conditionInsts at hi
  split_ifs at hi <;> simp at hi <;> subst hi <;> rfl

/-- The state right after the conditional branch of an if statement is one in
which the then arm may be lowered. -/
theorem CodeGenContext.TerminatorsLast.enter {e : Expr} {hasElse : Bool}
    {ctx c1 : CodeGenContext} {bbs : IfBlocks} (h : ctx.TerminatorsLast)
    (h1 : IfStmt.enter e hasElse ctx = .ok (bbs, c1)) : c1.TerminatorsLast := by
  obtain ⟨v, _, hbbs, hE1, hcur1, hlen1, hnew, hcurblk, _⟩ := IfStmt.enter_spec h1
  have hnew := hnew h.cursor_valid
  have hNlt : ctx.blocks.length < c1.blocks.length := by rw [hlen1]; split <;> omega
  refine ⟨?_, ?_, ?_⟩
  · intro id blk' hb
    by_cases hid : id < ctx.blocks.length
    · by_cases hc : ctx.insertBlock = some id
      · obtain ⟨blk, hblk⟩ : ∃ blk, ctx.blocks[id]? = some blk :=
          ⟨_, List.getElem?_eq_getElem hid⟩
        rw [hcurblk id blk hc hblk] at hb
        cases hb
        intro j hj
        simp only [List.dropLast_concat, List.mem_append] at hj
        rcases hj with hj | hj
        · exact h.cursor_open id blk hc hblk j hj
        · exact IfStmt.conditionInsts_plain _ _ j hj
      · rw [hE1.frame id hid hc] at hb
        exact h.blocks_ok id blk' hb
    · have hlt : id < c1.blocks.length := (List.getElem?_eq_some_iff.mp hb).1
      rw [hnew id (by omega) hlt] at hb
      cases hb
      intro j hj; simp at hj
  · intro b blk hc hb
    rw [hcur1] at hc; cases hc
    rw [hnew _ (Nat.le_refl _) hNlt] at hb
    cases hb
    intro j hj; simp at hj
  · intro b hc
    rw [hcur1] at hc; cases hc
    exact hNlt

theorem Stmt.Codegen_terminatorsLast_all :
    ∀ (s : Stmt) (ctx ctx' : CodeGenContext), s.leavesPlain = true → ctx.TerminatorsLast →
      Stmt.Codegen s ctx = .ok ctx' → ctx'.TerminatorsLast := by
  intro s
  refine Stmt.rec
    (motive_1 := fun s => ∀ ctx ctx', s.leavesPlain = true → ctx.TerminatorsLast →
      Stmt.Codegen s ctx = .ok ctx' → ctx'.TerminatorsLast)
    (motive_2 := fun l => ∀ ctx ctx', BlockStmt.leavesPlain l = true → ctx.TerminatorsLast →
      BlockStmt.Codegen l ctx = .ok ctx' → ctx'.TerminatorsLast)
    (motive_3 := fun o => ∀ ctx ctx', OptStmt.leavesPlain o = true → ctx.TerminatorsLast →
      OptStmt.Codegen o ctx = .ok ctx' → ctx'.TerminatorsLast)
    ?_ ?_ ?_ ?_ ?_ ?_ ?_ s
  · intro l ih ctx ctx' hp hK h
    rw [Stmt.leavesPlain] at hp
    rw [Stmt.Codegen] at h
    exact ih ctx ctx' hp hK h
  · intro e t o iht iho ctx ctx' hp hK h
    rw [Stmt.leavesPlain, Bool.and_eq_true] at hp
    obtain ⟨bbs, c1, c2, c3, h1, h2, h3, h4⟩ := IfStmt.anatomy h
    obtain ⟨v, _, hbbs, hE1, hcur1, hlen1, hnew, _, _⟩ := IfStmt.enter_spec h1
    have hnew := hnew hK.cursor_valid
    have hK1 := hK.enter h1
    have hK2 := iht c1 c2 hp.1 hK1 h2
    have hok3 := hK2.fallThrough h3
    have hE13 := (Stmt.Codegen_extends_all t c1 c2 h2).trans (IfStmt.fallThrough_extends h3)
    have hMlt : bbs.mergeBB < c1.blocks.length := by
      rw [hbbs, hlen1]; simp only; split <;> omega
    have hMge : ctx.blocks.length < bbs.mergeBB := by
      rw [hbbs]; simp only; split <;> omega
    have hM1 : c1.blocks[bbs.mergeBB]? = some { name := "", insts := [] } :=
      hnew _ (Nat.le_of_lt hMge) hMlt
    have hM3 : c3.blocks[bbs.mergeBB]? = some { name := "", insts := [] } := by
      rw [hE13.frame _ hMlt (by rw [hcur1]; intro heq; have := Option.some.inj heq; omega)]
      exact hM1
    rcases h4 with ⟨_, h5⟩ | ⟨elseBB, c4, c5, c6, he, h4, h5, h6, h7⟩
    · obtain ⟨f, _, hc⟩ := IfStmt.leave_spec h5
      exact CodeGenContext.TerminatorsLast.repoint hok3 hM3 ctx' (by rw [hc]; rfl)
        (by rw [hc]; rfl)
    · obtain ⟨f0, _, hc4⟩ := pushBackBlock_spec h4
      have hEeq : elseBB = ctx.blocks.length + 1 := by
        rw [hbbs] at he; simp only at he; split at he
        · cases he; rfl
        · cases he
      have hMeq : bbs.mergeBB = ctx.blocks.length + 2 := by
        rw [hbbs] at he ⊢; simp only at he ⊢; split at he
        · rename_i ho; simp [ho]
        · cases he
      have hElt : elseBB < c1.blocks.length := by omega
      have hE3 : c3.blocks[elseBB]? = some { name := "", insts := [] } := by
        rw [hE13.frame _ hElt (by rw [hcur1]; intro heq; have := Option.some.inj heq; omega)]
        exact hnew _ (by omega) hElt
      have hK4 : (c4.SetInsertPoint elseBB).TerminatorsLast :=
        CodeGenContext.TerminatorsLast.repoint hok3 hE3 _ (by rw [hc4]; rfl) rfl
      have hK5 := iho _ c5 hp.2 hK4 h5
      have hok6 := hK5.fallThrough h6
      have hE46 := (OptStmt.arm_extends h5).trans (IfStmt.fallThrough_extends h6)
      have hl4 : (c4.SetInsertPoint elseBB).blocks = c3.blocks := by rw [hc4]; rfl
      have hM6 : c6.blocks[bbs.mergeBB]? = some { name := "", insts := [] } := by
        rw [hE46.frame _ (by rw [hl4]; exact Nat.lt_of_lt_of_le hMlt hE13.blocks_length)
          (by simp only [CodeGenContext.SetInsertPoint]; intro heq; have := Option.some.inj heq; omega), hl4]
        exact hM3
      obtain ⟨f, _, hc⟩ := IfStmt.leave_spec h7
      exact CodeGenContext.TerminatorsLast.repoint hok6 hM6 ctx' (by rw [hc]; rfl)
        (by rw [hc]; rfl)
  · intro emits ctx ctx' hp hK h
    rw [Stmt.leavesPlain, List.all_eq_true] at hp
    rw [Stmt.Codegen] at h
    cases h
    exact CodeGenContext.TerminatorsLast.foldl_plain emits ctx hK
      (fun i hi => by simpa using hp i hi)
  · intro ctx ctx' _ hK h
    rw [BlockStmt.Codegen] at h
    cases h
    exact hK
  · intro s l ihs ihl ctx ctx' hp hK h
    rw [BlockStmt.leavesPlain, Bool.and_eq_true] at hp
    rw [BlockStmt.Codegen] at h
    split at h
    · cases h
    · rename_i c1 h1
      exact ihl _ _ hp.2 (ihs _ _ hp.1 hK h1) h
  · intro ctx ctx' _ _ h
    rw [OptStmt.Codegen] at h
    cases h
  · intro s ih ctx ctx' hp hK h
    rw [OptStmt.leavesPlain] at hp
    rw [OptStmt.Codegen] at h
    exact ih _ _ hp hK h

theorem BlockStmt.Codegen_terminatorsLast {l : List Stmt} {ctx ctx' : CodeGenContext}
    (hp : BlockStmt.leavesPlain l = true) (hK : ctx.TerminatorsLast)
    (h : BlockStmt.Codegen l ctx = .ok ctx') : ctx'.TerminatorsLast :=
  Stmt.Codegen_terminatorsLast_all (.BlockStmt l) ctx ctx'
    (by rw [Stmt.leavesPlain]; exact hp) hK (by rw [Stmt.Codegen]; exact h)

theorem BasicBlock.terminatorOnlyLast.count_le_one {b : BasicBlock} (h : b.terminatorOnlyLast) :
    (b.insts.filter Instruction.isTerminator).length ≤ 1 := by
  unfold BasicBlock.terminatorOnlyLast at h
  cases hl : b.insts.getLast? with
  | none => simp [List.getLast?_eq_none_iff.mp hl]
  | some last =>
    obtain ⟨init, hcat⟩ := List.getLast?_eq_some_iff.mp hl
    rw [hcat] at h ⊢
    rw [List.dropLast_concat] at h
    have hinit : init.filter Instruction.isTerminator = [] := by
      rw [List.filter_eq_nil_iff]
      intro i hi
      simp [h i hi]
    rw [List.filter_append, hinit]
    exact (List.length_filter_le _ _).trans (by simp)

/-- The state in which the body of a function is lowered is one in which a
statement may be lowered without terminating a block twice. -/
theorem CodeGenContext.TerminatorsLast.openBody (fn : Function) (r : LLVMType)
    (ps : List LLVMType) (ctx : CodeGenContext)
    (hctx : ∀ (id : Nat) (blk : BasicBlock), ctx.blocks[id]? = some blk →
      blk.terminatorOnlyLast) :
    (Function.openBody (Function.declared fn r ps ctx) ctx.functions.length).TerminatorsLast := by
  obtain ⟨_, _, s3, _, s5, _, s7, s8⟩ := Function.openBody_spec fn r ps ctx
  have hplain := entrySlots_plain ctx.functions.length (Function.created fn r ps).args
    ctx.nextId 0
  refine ⟨?_, ?_, ?_⟩
  · intro id blk hb
    by_cases hid : id = ctx.blocks.length
    · subst hid
      rw [s7] at hb; cases hb
      exact BasicBlock.unterminated.terminatorOnlyLast hplain
    · rw [s8 id hid] at hb
      exact hctx id blk hb
  · intro b blk hc hb
    rw [s3] at hc; cases hc
    rw [s7] at hb; cases hb
    exact hplain
  · intro b hc
    rw [s3] at hc; cases hc
    rw [s5]; omega

theorem findGlobal_lt {name : String} {gs : List GlobalVariable} {i : Nat}
    (h : findGlobal name gs = some i) : i < gs.length := by
  induction gs generalizing i with
  | nil => simp [findGlobal] at h
  | cons g gs ih =>
    unfold findGlobal at h
    split at h
    · cases h; simp
    · cases hf : findGlobal name gs with
      | none => simp [hf] at h
      | some j =>
        simp [hf] at h
        subst h
        have := ih hf
        simp; omega

theorem modify_findGlobal {name : String} (ty : LLVMType) (init : Option Value)
    {gs : List GlobalVariable} {i : Nat} (h : findGlobal name gs = some i) :
    gs.modify (fun g => { g with initializer := init }) i = upsertGlobal name ty init gs := by
  induction gs generalizing i with
  | nil => simp [findGlobal] at h
  | cons g gs ih =>
    unfold findGlobal at h
    unfold upsertGlobal
    split at h
    · next hg => cases h; simp [hg]
    · next hg =>
      cases hf : findGlobal name gs with
      | none => simp [hf] at h
      | some j =>
        simp [hf] at h
        subst h
        simp [hg, ih hf]

theorem findGlobal_append_new {name : String} (ty : LLVMType) (init : Option Value)
    {gs : List GlobalVariable} (h : findGlobal name gs = none) :
    findGlobal name (gs ++ [{ name := name, valueType := ty, initializer := init }]) =
      some gs.length := by
  induction gs with
  | nil => simp [findGlobal]
  | cons g gs ih =>
    unfold findGlobal at h
    split at h
    · cases h
    · next hg =>
      have hf : findGlobal name gs = none := by
        cases hf : findGlobal name gs with
        | none => rfl
        | some j => simp [hf] at h
      simp [findGlobal, hg, ih hf]

theorem modify_append_new {name : String} (ty : LLVMType) (init : Option Value)
    {gs : List GlobalVariable} (h : findGlobal name gs = none) :
    (gs ++ [({ name := name, valueType := ty, initializer := none } : GlobalVariable)]).modify
      (fun g => { g with initializer := init }) gs.length = upsertGlobal name ty init gs := by
  induction gs with
  | nil => simp [upsertGlobal]
  | cons g gs ih =>
    unfold findGlobal at h
    split at h
    · cases h
    · next hg =>
      have hf : findGlobal name gs = none := by
        cases hf : findGlobal name gs with
        | none => rfl
        | some j => simp [hf] at h
      simp [upsertGlobal, hg, ih hf]

theorem findGlobal_upsertGlobal (name : String) (ty : LLVMType) (init : Option Value)
    (gs : List GlobalVariable) :
    ∃ i, findGlobal name (upsertGlobal name ty init gs) = some i ∧
      (findGlobal name gs = none → i = gs.length) ∧
      (∀ j, findGlobal name gs = some j → i = j) := by
  induction gs with
  | nil => exact ⟨0, by simp [upsertGlobal, findGlobal], fun _ => rfl, by simp [findGlobal]⟩
  | cons g gs ih =>
    obtain ⟨i, h1, h2, h3⟩ := ih
    by_cases hg : g.name = name
    · exact ⟨0, by simp [upsertGlobal, findGlobal, hg], by simp [findGlobal, hg],
        by simp [findGlobal, hg]⟩
    · refine ⟨i + 1, by simp [upsertGlobal, findGlobal, hg, h1], ?_, ?_⟩
      · intro h
        simp [findGlobal, hg] at h
        simp [h2 h]
      · intro j h
        simp [findGlobal, hg] at h
        obtain ⟨k, hk, rfl⟩ := h
        simp [h3 k hk]

theorem upsertGlobal_idem (name : String) (ty ty2 : LLVMType) (init : Option Value)
    (gs : List GlobalVariable) :
    upsertGlobal name ty2 init (upsertGlobal name ty init gs) = upsertGlobal name ty init gs := by
  induction gs with
  | nil => simp [upsertGlobal]
  | cons g gs ih =>
    by_cases hg : g.name = name
    · simp [upsertGlobal, hg]
    · simp [upsertGlobal, hg, ih]

theorem upsertGlobal_twice (name : String) (ty ty2 : LLVMType) (init init2 : Option Value)
    (gs : List GlobalVariable) :
    upsertGlobal name ty2 init2 (upsertGlobal name ty init gs) = upsertGlobal name ty init2 gs := by
  induction gs with
  | nil => simp [upsertGlobal]
  | cons g gs ih =>
    by_cases hg : g.name = name
    · simp [upsertGlobal, hg]
    · simp [upsertGlobal, hg, ih]

theorem countP_upsertGlobal (name : String) (ty : LLVMType) (init : Option Value)
    (gs : List GlobalVariable) :
    (upsertGlobal name ty init gs).countP (fun g => g.name = name) =
      max 1 (gs.countP (fun g => g.name = name)) := by
  induction gs with
  | nil => simp [upsertGlobal]
  | cons g gs ih =>
    by_cases hg : g.name = name
    · simp [upsertGlobal, hg, List.countP_cons]
    · simp [upsertGlobal, hg, List.countP_cons, ih]

theorem countP_upsertGlobal_other (name other : String) (ty : LLVMType) (init : Option Value)
    (gs : List GlobalVariable) (hne : other ≠ name) :
    (upsertGlobal name ty init gs).countP (fun g => g.name = other) =
      gs.countP (fun g => g.name = other) := by
  induction gs with
  | nil => simp [upsertGlobal, hne.symm]
  | cons g gs ih =>
    by_cases hg : g.name = name
    · simp [upsertGlobal, hg, List.countP_cons]
    · simp [upsertGlobal, hg, List.countP_cons, ih]

theorem filter_upsertGlobal (name : String) (ty : LLVMType) (init : Option Value)
    (gs : List GlobalVariable) (h : gs.countP (fun g => g.name = name) ≤ 1) :
    ∃ vt, (upsertGlobal name ty init gs).filter (fun g => g.name = name) =
        [{ name := name, valueType := vt, initializer := init }] ∧
      ((vt = ty ∧ gs.countP (fun g => g.name = name) = 0) ∨
        ∃ g ∈ gs, g.name = name ∧ g.valueType = vt) := by
  induction gs with
  | nil => exact ⟨ty, by simp [upsertGlobal], .inl ⟨rfl, rfl⟩⟩
  | cons g gs ih =>
    by_cases hg : g.name = name
    · have h0 : gs.countP (fun g => g.name = name) = 0 := by
        simp [List.countP_cons, hg] at h
        simpa using h
      have hnil : gs.filter (fun g => g.name = name) = [] := by
        rw [List.filter_eq_nil_iff]
        intro a ha
        have := (List.countP_eq_zero.mp h0) a ha
        simpa using this
      refine ⟨g.valueType, ?_, .inr ⟨g, by simp, hg, rfl⟩⟩
      simp [upsertGlobal, hg, List.filter_cons, hnil]
    · have h1 : gs.countP (fun g => g.name = name) ≤ 1 := by
        simpa [List.countP_cons, hg] using h
      obtain ⟨vt, ha, hb⟩ := ih h1
      refine ⟨vt, ?_, ?_⟩
      · simp [upsertGlobal, hg, List.filter_cons, ha]
      · rcases hb with ⟨hb1, hb2⟩ | ⟨a, ha1, ha2, ha3⟩
        · exact .inl ⟨hb1, by simpa [List.countP_cons, hg] using hb2⟩
        · exact .inr ⟨a, by simp [ha1], ha2, ha3⟩

theorem findGlobal_append_none {name other : String} (ty : LLVMType) (init : Option Value)
    {gs : List GlobalVariable} (h : findGlobal name gs = none) (hne : other ≠ name) :
    findGlobal name (gs ++ [{ name := other, valueType := ty, initializer := init }]) = none := by
  induction gs with
  | nil => simp [findGlobal, hne]
  | cons g gs ih =>
    unfold findGlobal at h
    split at h
    · cases h
    · next hg =>
      have hf : findGlobal name gs = none := by
        cases hf : findGlobal name gs with
        | none => rfl
        | some j => simp [hf] at h
      simp [findGlobal, hg, ih hf]

theorem GlobalDecl.getGlobal_eq {d : GlobalDecl} {ctx : CodeGenContext} {m : Module}
    {ty : LLVMType} (hm : ctx.mModule = some m) (ht : d.mType.TypeGen = .ok (some ty))
    (hf : findGlobal d.mName m.globals = none →
      findFunction ctx.functions d.mName m.functions = none) :
    ∃ m' i, GlobalDecl.getGlobal d ctx = .ok (GlobalDecl.constant d ty, m', some i) ∧
      ∀ init, setInitializer m' i init =
        { m with globals := upsertGlobal d.mName ty init m.globals } := by
  have key : ∀ cs : LLVMValueSignPair, ∃ m' i,
      (match getOrInsertGlobal ctx m d.mName (some ty) with
        | .error e =>
          (.error e : Except CodegenError (LLVMValueSignPair × Module × Option Nat))
        | .ok m => .ok (cs, m, getGlobalVariable ctx m d.mName)) = .ok (cs, m', some i) ∧
      ∀ init, setInitializer m' i init =
        { m with globals := upsertGlobal d.mName ty init m.globals } := by
    intro cs
    cases hg : findGlobal d.mName m.globals with
    | some i =>
      refine ⟨m, i, ?_, ?_⟩
      · simp [getOrInsertGlobal, getNamedValue, getGlobalVariable, hg]
      · intro init
        simp [setInitializer, modify_findGlobal ty init hg]
    | none =>
      have hnew := @findGlobal_append_new d.mName ty none _ hg
      refine ⟨{ m with globals := m.globals ++
        [{ name := d.mName, valueType := ty, initializer := none }] }, m.globals.length, ?_, ?_⟩
      · simp [getOrInsertGlobal, getNamedValue, getGlobalVariable, hg, hf hg, hnew]
      · intro init
        simp [setInitializer, modify_append_new ty init hg]
  unfold GlobalDecl.getGlobal
  rw [ht]
  cases hv : d.mOptValue with
  | none =>
    simp only [hm]
    obtain ⟨m', i, h1, h2⟩ := key (GlobalDecl.zeroValue ty, d.mType.afterTypeGen.IsSigned)
    refine ⟨m', i, ?_, h2⟩
    rw [h1]
    simp [GlobalDecl.constant, hv]
  | some e =>
    simp only [hm]
    obtain ⟨m', i, h1, h2⟩ := key (e.Codegen ctx)
    refine ⟨m', i, ?_, h2⟩
    rw [h1]
    simp [GlobalDecl.constant, hv, Expr.Codegen]

theorem GlobalDecl.Codegen_eq {d : GlobalDecl} {ctx : CodeGenContext} {m : Module}
    {ty : LLVMType} {v : Value} (hm : ctx.mModule = some m)
    (ht : d.mType.TypeGen = .ok (some ty))
    (hf : findGlobal d.mName m.globals = none →
      findFunction ctx.functions d.mName m.functions = none)
    (hc : (GlobalDecl.constant d ty).1 = some v) (hv : v.isConstant = true) :
    GlobalDecl.Codegen d ctx = .ok (GlobalDecl.constant d ty,
      ctx.withGlobal m d.mName ty (GlobalDecl.constant d ty).1) := by
  obtain ⟨m', i, h1, h2⟩ := GlobalDecl.getGlobal_eq hm ht hf
  unfold GlobalDecl.Codegen
  rw [h1]
  simp [castConstant, hc, hv, h2, CodeGenContext.withGlobal]

theorem GlobalDecl.Codegen_ok_inv {d : GlobalDecl} {ctx c : CodeGenContext} {r : LLVMValueSignPair}
    (h : GlobalDecl.Codegen d ctx = .ok (r, c)) :
    ∃ m ty, ctx.mModule = some m ∧ d.mType.TypeGen = .ok (some ty) ∧
      (findGlobal d.mName m.globals = none →
        findFunction ctx.functions d.mName m.functions = none) ∧
      r = GlobalDecl.constant d ty ∧
      c = ctx.withGlobal m d.mName ty (GlobalDecl.constant d ty).1 ∧
      ∃ v, (GlobalDecl.constant d ty).1 = some v ∧ v.isConstant = true := by
  cases ht : d.mType.TypeGen with
  | error e => simp [GlobalDecl.Codegen, GlobalDecl.getGlobal, ht] at h
  | ok type =>
    cases hm : ctx.mModule with
    | none =>
      unfold GlobalDecl.Codegen GlobalDecl.getGlobal at h
      rw [ht] at h
      cases hv : d.mOptValue <;> cases type <;> simp [hv, hm] at h
    | some m =>
      cases type with
      | none =>
        unfold GlobalDecl.Codegen GlobalDecl.getGlobal at h
        rw [ht] at h
        cases hv : d.mOptValue <;> simp [hv, hm, getOrInsertGlobal] at h
      | some ty =>
        have hfun : findGlobal d.mName m.globals = none →
            findFunction ctx.functions d.mName m.functions = none := by
          intro hg
          cases hff : findFunction ctx.functions d.mName m.functions with
          | none => rfl
          | some f =>
            exfalso
            have hne : d.mName ++ ".1" ≠ d.mName := by
              intro he
              have := congrArg String.length he
              simp [String.length_append] at this
              exact absurd this (by decide)
            have hnone := findGlobal_append_none ty none hg hne
            unfold GlobalDecl.Codegen GlobalDecl.getGlobal at h
            rw [ht] at h
            cases hv : d.mOptValue <;>
              simp [hv, hm, getOrInsertGlobal, getNamedValue, hg, hff, getGlobalVariable,
                hnone] at h <;>
              (split at h <;> simp at h)
        obtain ⟨m', i, h1, h2⟩ := GlobalDecl.getGlobal_eq hm ht hfun
        unfold GlobalDecl.Codegen at h
        rw [h1] at h
        cases hcv : (GlobalDecl.constant d ty).1 with
        | none => simp [castConstant, hcv] at h
        | some v =>
          cases hk : v.isConstant with
          | false => simp [castConstant, hcv, hk] at h
          | true =>
            simp [castConstant, hcv, hk, h2] at h
            refine ⟨m, ty, rfl, rfl, hfun, h.1.symm, ?_, v, hcv, hk⟩
            rw [← h.2, hcv]
            rfl

theorem filter_upsertGlobal_other (name other : String) (ty : LLVMType) (init : Option Value)
    (gs : List GlobalVariable) (hne : other ≠ name) :
    (upsertGlobal name ty init gs).filter (fun g => g.name = other) =
      gs.filter (fun g => g.name = other) := by
  induction gs with
  | nil => simp [upsertGlobal, hne.symm]
  | cons g gs ih =>
    by_cases hg : g.name = name
    · simp [upsertGlobal, hg, List.filter_cons, hne.symm]
    · simp [upsertGlobal, hg, List.filter_cons, ih]

theorem Function.Codegen_module {fn : Function} {ctx ctx' : CodeGenContext} {func : Nat}
    (h : Function.Codegen fn ctx = .ok (func, ctx')) :
    func = ctx.functions.length ∧
    ctx'.mModule =
      ctx.mModule.map (fun m => { m with functions := m.functions ++ [ctx.functions.length] }) ∧
    ctx'.functions.length = ctx.functions.length + 1 ∧
    (∀ f, f < ctx.functions.length → ctx'.functionName f = ctx.functionName f) ∧
    ctx'.functionName ctx.functions.length = some fn.mName := by
  obtain ⟨r, ps, _, _, hf, hcase⟩ := Function.Codegen_inv h
  refine ⟨hf, ?_⟩
  rcases hcase with ⟨_, hc⟩ | ⟨mStmts, c1, _, hb, hfin, _⟩
  · subst hc
    refine ⟨rfl, by simp [Function.declared], ?_, ?_⟩
    · intro f hlt
      simp [CodeGenContext.functionName, Function.declared, List.getElem?_append_left hlt]
    · simp [CodeGenContext.functionName, Function.declared, Function.created]
  · obtain ⟨s1, _, _, s4, _, _, _, _⟩ := Function.openBody_spec fn r ps ctx
    have hE := (BlockStmt.loop_extends hb).trans (Function.finish_extends hfin)
    refine ⟨by rw [hE.mModule_eq, s1]; rfl, ?_, ?_, ?_⟩
    · rw [hE.functions_length, s4]; simp
    · intro f hlt
      have hsome : ∃ fn0, ctx.functions[f]? = some fn0 := ⟨ctx.functions[f], by simp [hlt]⟩
      obtain ⟨fn0, hfn0⟩ := hsome
      obtain ⟨ext, hext, _⟩ := hE.functions_grow f fn0
        (by rw [s4, List.getElem?_append_left hlt]; exact hfn0)
      simp [CodeGenContext.functionName, hext, hfn0]
    · obtain ⟨ext, hext, _⟩ := hE.functions_grow ctx.functions.length
        { (Function.created fn r ps) with basicBlocks := [ctx.blocks.length] }
        (by rw [s4]; simp)
      simp [CodeGenContext.functionName, hext, Function.created]

theorem mem_upsertGlobal_name {name : String} {ty : LLVMType} {init : Option Value}
    {gs : List GlobalVariable} {g : GlobalVariable} (hg : g ∈ upsertGlobal name ty init gs) :
    g.name = name ∨ g ∈ gs := by
  induction gs with
  | nil =>
    simp [upsertGlobal] at hg
    subst hg
    exact .inl rfl
  | cons a gs ih =>
    by_cases ha : a.name = name
    · simp [upsertGlobal, ha] at hg
      rcases hg with rfl | hg
      · exact .inl rfl
      · exact .inr (by simp [hg])
    · simp [upsertGlobal, ha] at hg
      rcases hg with rfl | hg
      · exact .inr (by simp)
      · rcases ih hg with h | h
        · exact .inl h
        · exact .inr (by simp [h])

theorem Program.loop_steps {decls : List ExternalDecl} {c c' : CodeGenContext}
    (h : Program.loop decls c = .ok c') : ∃ states, Program.Steps decls c c' states := by
  induction decls generalizing c with
  | nil =>
    simp [Program.loop] at h
    subst h
    exact ⟨[c], by simp [Program.Steps]⟩
  | cons ext rest ih =>
    unfold Program.loop at h
    cases h1 : ext.Codegen c with
    | error e => simp [h1] at h
    | ok c1 =>
      simp only [h1] at h
      obtain ⟨states, hlen, h0, hlast, hstep⟩ := ih h
      refine ⟨c :: states, by simp [hlen], by simp, by simpa using hlast, ?_⟩
      intro i d a b hd ha hb
      cases i with
      | zero =>
        simp at hd ha hb
        subst hd ha
        rw [h0] at hb
        cases hb
        exact h1
      | succ i =>
        simp at hd ha hb
        exact hstep i d a b hd ha hb

theorem Program.steps_loop {decls : List ExternalDecl} {c c' : CodeGenContext}
    {states : List CodeGenContext} (h : Program.Steps decls c c' states) :
    Program.loop decls c = .ok c' := by
  induction decls generalizing c states with
  | nil =>
    obtain ⟨_, h0, hlast, _⟩ := h
    simp at hlast
    rw [h0] at hlast
    cases hlast
    rfl
  | cons ext rest ih =>
    obtain ⟨hlen, h0, hlast, hstep⟩ := h
    match states, hlen with
    | s0 :: s1 :: more, hlen =>
      simp at h0
      subst h0
      have h1 := hstep 0 ext s0 s1 (by simp) (by simp) (by simp)
      unfold Program.loop
      simp only [h1]
      refine ih (?_ : Program.Steps rest s1 c' (s1 :: more))
      refine ⟨by simpa using hlen, by simp, by simpa using hlast, ?_⟩
      intro i d a b hd ha hb
      exact hstep (i + 1) d a b (by simpa using hd) (by simpa using ha) (by simpa using hb)

theorem exists_name_upsertGlobal (name : String) (ty : LLVMType) (init : Option Value)
    (gs : List GlobalVariable) :
    (∃ g ∈ upsertGlobal name ty init gs, g.name = name) ∧
    ∀ x, (∃ g ∈ gs, g.name = x) → ∃ g ∈ upsertGlobal name ty init gs, g.name = x := by
  induction gs with
  | nil =>
    exact ⟨⟨{ name := name, valueType := ty, initializer := init }, by simp [upsertGlobal], rfl⟩,
      by simp⟩
  | cons a gs ih =>
    obtain ⟨⟨g1, hg1, hn1⟩, ih2⟩ := ih
    by_cases ha : a.name = name
    · refine ⟨⟨{ a with initializer := init }, by simp [upsertGlobal, ha], ha⟩, ?_⟩
      rintro x ⟨g, hg, hx⟩
      simp at hg
      rcases hg with rfl | hg
      · exact ⟨{ g with initializer := init }, by simp [upsertGlobal, ha], hx⟩
      · exact ⟨g, by simp [upsertGlobal, ha, hg], hx⟩
    · refine ⟨⟨g1, by simp [upsertGlobal, ha, hg1], hn1⟩, ?_⟩
      rintro x ⟨g, hg, hx⟩
      simp at hg
      rcases hg with rfl | hg
      · exact ⟨g, by simp [upsertGlobal, ha], hx⟩
      · obtain ⟨g2, hg2, hx2⟩ := ih2 x ⟨g, hg, hx⟩
        exact ⟨g2, by simp [upsertGlobal, ha, hg2], hx2⟩

theorem Program.loop_module {decls : List ExternalDecl} {c c' : CodeGenContext} {m : Module}
    (h : Program.loop decls c = .ok c') (hm : c.mModule = some m) :
    ∃ m', c'.mModule = some m' ∧ m'.name = m.name ∧
      m'.functions =
        m.functions ++ List.range' c.functions.length (Program.functionNames decls).length ∧
      c'.functions.length = c.functions.length + (Program.functionNames decls).length ∧
      (∀ f, f < c.functions.length → c'.functionName f = c.functionName f) ∧
      (∀ j, j < (Program.functionNames decls).length →
        c'.functionName (c.functions.length + j) = (Program.functionNames decls)[j]?) ∧
      (∀ g ∈ m'.globals, g ∈ m.globals ∨ g.name ∈ Program.globalNames decls) ∧
      (∀ x, ((∃ g ∈ m.globals, g.name = x) ∨ x ∈ Program.globalNames decls) →
        ∃ g ∈ m'.globals, g.name = x) := by
  induction decls generalizing c m with
  | nil =>
    simp [Program.loop] at h
    subst h
    exact ⟨m, hm, rfl, by simp [Program.functionNames], by simp [Program.functionNames],
      fun _ _ => rfl, by simp [Program.functionNames], fun g hg => .inl hg,
      by simp [Program.globalNames]⟩
  | cons ext rest ih =>
    unfold Program.loop at h
    cases h1 : ext.Codegen c with
    | error e => simp [h1] at h
    | ok c1 =>
      simp only [h1] at h
      cases ext with
      | GlobalDecl d =>
        unfold ExternalDecl.Codegen at h1
        cases h2 : GlobalDecl.Codegen d c with
        | error e => simp [h2] at h1
        | ok r =>
          simp only [h2] at h1
          obtain ⟨r1, r2⟩ := r
          obtain ⟨m0, ty, hm0, _, _, _, hc, _⟩ := GlobalDecl.Codegen_ok_inv h2
          rw [hm] at hm0
          cases hm0
          have hc1 : c1 = c.withGlobal m d.mName ty (GlobalDecl.constant d ty).1 := by
            simpa [hc] using h1.symm
          subst hc1
          obtain ⟨m', a1, a2, a3, a4, a5, a6, a7, a8⟩ := ih h rfl
          refine ⟨m', a1, a2, a3, a4, a5, a6, ?_, ?_⟩
          · intro g hg
            rcases a7 g hg with hmem | hmem
            · rcases mem_upsertGlobal_name hmem with hn | hn
              · exact .inr (by simp [Program.globalNames, hn])
              · exact .inl hn
            · exact .inr (by simp [Program.globalNames, hmem])
          · intro x hx
            obtain ⟨e1, e2⟩ := exists_name_upsertGlobal d.mName ty (GlobalDecl.constant d ty).1
              m.globals
            apply a8
            rcases hx with hx | hx
            · exact .inl (e2 x hx)
            · simp [Program.globalNames] at hx
              rcases hx with rfl | hx
              · exact .inl e1
              · exact .inr hx
      | Function fn =>
        unfold ExternalDecl.Codegen at h1
        cases h2 : Function.Codegen fn c with
        | error e => simp [h2] at h1
        | ok r =>
          simp only [h2] at h1
          obtain ⟨func, r2⟩ := r
          have hc1 : r2 = c1 := by simpa using h1
          subst hc1
          obtain ⟨_, b2, b3, b4, b5⟩ := Function.Codegen_module h2
          rw [hm] at b2
          obtain ⟨m', a1, a2, a3, a4, a5, a6, a7, a8⟩ := ih h b2
          refine ⟨m', a1, a2, ?_, ?_, ?_, ?_, a7, a8⟩
          · rw [a3, b3]
            simp [Program.functionNames, List.range'_succ]
          · rw [a4, b3]
            simp [Program.functionNames]
            omega
          · intro f hf
            rw [a5 f (by omega), b4 f hf]
          · intro j hj
            cases j with
            | zero =>
              rw [Nat.add_zero, a5 _ (by omega), b5]
              simp [Program.functionNames]
            | succ j =>
              have := a6 j (by simpa [Program.functionNames] using hj)
              rw [b3] at this
              rw [show c.functions.length + (j + 1) = c.functions.length + 1 + j by omega, this]
              simp [Program.functionNames]

theorem Sema.Variant.eq_self (v : Sema.Variant) : Sema.Variant.eq v v = true := by
  refine @Sema.Variant.rec
    (fun t => Sema.Type.eq t t = true)
    (fun v => Sema.Variant.eq v v = true)
    (fun a => Sema.ArrayType.eq a a = true)
    (fun a => Sema.AbstractArrayType.eq a a = true)
    (fun a => Sema.ValArrayType.eq a a = true)
    (fun f => Sema.FunctionType.eq f f = true)
    (fun p => Sema.PointerType.eq p p = true)
    (fun args => Sema.FunctionType.argsEq args args = true)
    (fun arg => Sema.Type.eq arg.1 arg.1 = true)
    ?_ ?_ ?_ ?_ ?_ ?_ ?_ ?_ ?_ ?_ ?_ ?_ ?_ ?_ ?_ ?_ ?_ ?_ ?_ v
  · intro m_type m_name c vol ih
    simpa [Sema.Type.eq] using ih
  · simp [Sema.Variant.eq]
  · intro p
    simp [Sema.Variant.eq]
  · intro a ih
    simpa [Sema.Variant.eq] using ih
  · intro a ih
    simpa [Sema.Variant.eq] using ih
  · intro a ih
    simpa [Sema.Variant.eq] using ih
  · intro f ih
    simpa [Sema.Variant.eq] using ih
  · intro s
    simp [Sema.Variant.eq, Sema.StructType.eq]
  · intro u
    simp [Sema.Variant.eq, Sema.UnionType.eq]
  · intro e
    simp [Sema.Variant.eq, Sema.EnumType.eq]
  · intro p ih
    simpa [Sema.Variant.eq] using ih
  · intro t n r s ih
    simp [Sema.ArrayType.eq, ih]
  · intro t r ih
    simp [Sema.AbstractArrayType.eq, ih]
  · intro t r s ih
    simp [Sema.ValArrayType.eq, ih]
  · intro t args v ih1 ih2
    simp [Sema.FunctionType.eq, ih1, ih2]
  · intro t r ih
    simp [Sema.PointerType.eq, ih]
  · simp [Sema.FunctionType.argsEq]
  · intro head tail ih1 ih2
    obtain ⟨t, n⟩ := head
    simp [Sema.FunctionType.argsEq, ih2]
    exact ih1
  · intro t n ih
    exact ih

theorem Program.loop_globals_distinct {decls : List ExternalDecl} {c c' : CodeGenContext}
    {m : Module} (h : Program.loop decls c = .ok c') (hm : c.mModule = some m)
    (hd : ∀ name, m.countGlobals name ≤ 1) :
    ∃ m', c'.mModule = some m' ∧ ∀ name, m'.countGlobals name ≤ 1 := by
  induction decls generalizing c m with
  | nil =>
    simp [Program.loop] at h
    subst h
    exact ⟨m, hm, hd⟩
  | cons ext rest ih =>
    unfold Program.loop at h
    cases h1 : ext.Codegen c with
    | error e => simp [h1] at h
    | ok c1 =>
      simp only [h1] at h
      cases ext with
      | GlobalDecl d =>
        unfold ExternalDecl.Codegen at h1
        cases h2 : GlobalDecl.Codegen d c with
        | error e => simp [h2] at h1
        | ok r =>
          simp only [h2] at h1
          obtain ⟨r1, r2⟩ := r
          obtain ⟨m0, ty, hm0, _, _, _, hc, _⟩ := GlobalDecl.Codegen_ok_inv h2
          rw [hm] at hm0
          cases hm0
          have hc1 : c1 = c.withGlobal m d.mName ty (GlobalDecl.constant d ty).1 := by
            simpa [hc] using h1.symm
          subst hc1
          refine ih h rfl ?_
          intro name
          by_cases hn : name = d.mName
          · subst hn
            have := hd d.mName
            simp only [Module.countGlobals, countP_upsertGlobal] at this ⊢
            omega
          · have := hd name
            simp only [Module.countGlobals] at this ⊢
            rw [countP_upsertGlobal_other _ _ _ _ _ hn]
            exact this
      | Function fn =>
        unfold ExternalDecl.Codegen at h1
        cases h2 : Function.Codegen fn c with
        | error e => simp [h2] at h1
        | ok r =>
          simp only [h2] at h1
          obtain ⟨func, r2⟩ := r
          have hc1 : r2 = c1 := by simpa using h1
          subst hc1
          obtain ⟨_, b2, _⟩ := Function.Codegen_module h2
          rw [hm] at b2
          exact ih h b2 hd

theorem PrimaryType.TypeGen_eq_described (mTypes : List TokenType) (mSign : Bool)
    (h : PrimaryType.skipConst mTypes ≠ []) :
    PrimaryType.TypeGen mTypes mSign =
      .ok (PrimaryType.described mTypes, PrimaryType.signAfter mTypes mSign) := by
  match mTypes, h with
  | [], h => exact absurd rfl h
  | [t0], h =>
    cases t0 <;>
      simp_all [PrimaryType.TypeGen, PrimaryType.described, PrimaryType.skipConst,
        PrimaryType.skipSign, PrimaryType.ofToken, PrimaryType.signAfter]
  | [t0, t1], _ =>
    cases t0 <;> cases t1 <;>
      simp [PrimaryType.TypeGen, PrimaryType.described, PrimaryType.skipConst,
        PrimaryType.skipSign, PrimaryType.ofToken, PrimaryType.signAfter]
  | t0 :: t1 :: t2 :: rest, _ =>
    cases t0
    case kw_const =>
      cases t1
      case kw_signed =>
        cases t2 <;>
          simp [PrimaryType.TypeGen, PrimaryType.described, PrimaryType.skipConst,
            PrimaryType.skipSign, PrimaryType.ofToken, PrimaryType.signAfter]
      case kw_unsigned =>
        cases t2 <;>
          simp [PrimaryType.TypeGen, PrimaryType.described, PrimaryType.skipConst,
            PrimaryType.skipSign, PrimaryType.ofToken, PrimaryType.signAfter]
      all_goals
        simp [PrimaryType.TypeGen, PrimaryType.described, PrimaryType.skipConst,
          PrimaryType.skipSign, PrimaryType.ofToken, PrimaryType.signAfter]
    case kw_signed =>
      cases t1 <;>
        simp [PrimaryType.TypeGen, PrimaryType.described, PrimaryType.skipConst,
          PrimaryType.skipSign, PrimaryType.ofToken, PrimaryType.signAfter]
    case kw_unsigned =>
      cases t1 <;>
        simp [PrimaryType.TypeGen, PrimaryType.described, PrimaryType.skipConst,
          PrimaryType.skipSign, PrimaryType.ofToken, PrimaryType.signAfter]
    all_goals
      simp [PrimaryType.TypeGen, PrimaryType.described, PrimaryType.skipConst,
        PrimaryType.skipSign, PrimaryType.ofToken, PrimaryType.signAfter]

theorem PrimaryType.described_append (mTypes more : List TokenType) (mSign : Bool)
    (h : PrimaryType.skipSign (PrimaryType.skipConst mTypes) ≠ []) :
    PrimaryType.skipConst (mTypes ++ more) ≠ [] ∧
    PrimaryType.described (mTypes ++ more) = PrimaryType.described mTypes ∧
    PrimaryType.signAfter (mTypes ++ more) mSign = PrimaryType.signAfter mTypes mSign := by
  match mTypes, h with
  | [], h => exact absurd rfl h
  | [t0], h =>
    cases t0 <;>
      simp_all [PrimaryType.described, PrimaryType.skipConst, PrimaryType.skipSign,
        PrimaryType.signAfter]
  | [t0, t1], h =>
    cases t0 <;> cases t1 <;>
      simp_all [PrimaryType.described, PrimaryType.skipConst, PrimaryType.skipSign,
        PrimaryType.signAfter]
  | t0 :: t1 :: t2 :: rest, _ =>
    cases t0 <;> cases t1 <;>
      simp [PrimaryType.described, PrimaryType.skipConst, PrimaryType.skipSign,
        PrimaryType.signAfter]

set_option maxHeartbeats 400000 in
theorem PrimaryType.TypeGenTraced_result (mTypes : List TokenType) (mSign : Bool) :
    (PrimaryType.TypeGenTraced mTypes mSign).result = PrimaryType.TypeGen mTypes mSign := by
  match mTypes with
  | [] => simp [PrimaryType.TypeGenTraced, PrimaryType.TypeGen]
  | [t0] =>
    cases t0 <;> simp [PrimaryType.TypeGenTraced, PrimaryType.TypeGen]
  | [t0, t1] =>
    cases t0 <;> cases t1 <;> simp [PrimaryType.TypeGenTraced, PrimaryType.TypeGen]
  | t0 :: t1 :: t2 :: rest =>
    cases t0
    case kw_const =>
      cases t1
      case kw_signed =>
        cases t2 <;> simp [PrimaryType.TypeGenTraced, PrimaryType.TypeGen]
      case kw_unsigned =>
        cases t2 <;> simp [PrimaryType.TypeGenTraced, PrimaryType.TypeGen]
      all_goals simp [PrimaryType.TypeGenTraced, PrimaryType.TypeGen]
    case kw_signed =>
      cases t1 <;> simp [PrimaryType.TypeGenTraced, PrimaryType.TypeGen]
    case kw_unsigned =>
      cases t1 <;> simp [PrimaryType.TypeGenTraced, PrimaryType.TypeGen]
    all_goals simp [PrimaryType.TypeGenTraced, PrimaryType.TypeGen]

set_option maxHeartbeats 400000 in
theorem PrimaryType.TypeGenTraced_reads (mTypes : List TokenType) (mSign : Bool) :
    ∀ p ∈ (PrimaryType.TypeGenTraced mTypes mSign).reads, p < mTypes.length := by
  match mTypes with
  | [] => simp [PrimaryType.TypeGenTraced]
  | [t0] =>
    cases t0 <;> simp [PrimaryType.TypeGenTraced]
  | [t0, t1] =>
    cases t0 <;> cases t1 <;> simp [PrimaryType.TypeGenTraced]
  | t0 :: t1 :: t2 :: rest =>
    cases t0
    case kw_const =>
      cases t1
      case kw_signed =>
        cases t2 <;> simp [PrimaryType.TypeGenTraced]
      case kw_unsigned =>
        cases t2 <;> simp [PrimaryType.TypeGenTraced]
      all_goals simp [PrimaryType.TypeGenTraced]
    case kw_signed =>
      cases t1 <;> simp [PrimaryType.TypeGenTraced]
    case kw_unsigned =>
      cases t1 <;> simp [PrimaryType.TypeGenTraced]
    all_goals simp [PrimaryType.TypeGenTraced]

theorem GlobalDecl.Codegen_null_constant {d : GlobalDecl}
    (hd : ∀ ty, (GlobalDecl.constant d ty).1 = none) (ctx c : CodeGenContext)
    (r : LLVMValueSignPair) : GlobalDecl.Codegen d ctx ≠ .ok (r, c) := by
  intro h
  obtain ⟨_, ty, _, _, _, _, _, v, hv, _⟩ := GlobalDecl.Codegen_ok_inv h
  rw [hd ty] at hv
  cases hv

theorem TypeNode.TypeGen_pointer {mType : TypeNode} {ty : LLVMType}
    (h : (TypeNode.PointerType mType).TypeGen = .ok (some ty)) : ∃ t, ty = .pointerTy t := by
  unfold TypeNode.TypeGen at h
  cases ht : mType.TypeGen with
  | error e => simp [ht] at h
  | ok o =>
    cases o with
    | none => simp [ht] at h
    | some t =>
      simp [ht] at h
      exact ⟨t, h.symm⟩

/-! ## The claims -/

/-- The blocks of an if statement whose lowering gets past line 153, which takes
a condition whose `Codegen` returns a value that is not null.  (1) When
`IfStmt::Codegen` returns, the block that was the insertion
block on entry ends with a conditional branch whose true target is the then
block and whose false target is the else block when there is an else arm and
the merge block otherwise, and the block list of the current function has
gained, in this order, the then block, the blocks of the then arm, the else
block followed by the blocks of the else arm (only with an else arm), and the
merge block; then, else and merge block are the first blocks created since
entry, the blocks of the arms come later, and an arm without if statements
adds none.  (2) An if statement whose condition lowers to a value that is not
null and whose arms contain no if statement and insert at least one
instruction each does return, having created exactly three blocks (two without
else arm), which are exactly what the function's list gains. -/
theorem IfStmt.Codegen_blocks :
    (∀ (e : Expr) (t : Stmt) (o : Option Stmt) (ctx ctx' : CodeGenContext) (f b : Nat)
        (fn : IRFunction) (blk : BasicBlock),
        ctx.mCurrentFunc = some f → ctx.functions[f]? = some fn →
        ctx.insertBlock = some b → ctx.blocks[b]? = some blk →
        Stmt.Codegen (.IfStmt e t o) ctx = .ok ctx' →
        ∃ bbs c1 cond thenArm elseArm blk',
          IfStmt.enter e o.isSome ctx = .ok (bbs, c1) ∧
          bbs.thenBB = ctx.blocks.length ∧
          bbs.elseBB = (if o.isSome then some (ctx.blocks.length + 1) else none) ∧
          bbs.mergeBB = ctx.blocks.length + (if o.isSome then 2 else 1) ∧
          ctx'.blocks[b]? = some blk' ∧
          blk'.insts.getLast? = some (.condBr cond bbs.thenBB (bbs.elseBB.getD bbs.mergeBB)) ∧
          ctx'.functions[f]? = some { fn with basicBlocks :=
            fn.basicBlocks ++ bbs.thenBB :: thenArm ++
              (match bbs.elseBB with
                | some elseBB => elseBB :: elseArm
                | none => []) ++ [bbs.mergeBB] } ∧
          (∀ x ∈ thenArm ++ elseArm, bbs.mergeBB < x) ∧
          (t.straightLine.isSome → thenArm = []) ∧
          (∀ s, o = some s → s.straightLine.isSome → elseArm = [])) ∧
    (∀ (e : Expr) (t : Stmt) (o : Option Stmt) (ctx : CodeGenContext) (f : Nat)
        (fn : IRFunction) (v : Value) (thenInsts : List Instruction),
        ctx.mCurrentFunc = some f → ctx.functions[f]? = some fn →
        e.result.1 = some v →
        t.straightLine = some thenInsts → thenInsts ≠ [] →
        (∀ s, o = some s → ∃ elseInsts, s.straightLine = some elseInsts ∧ elseInsts ≠ []) →
        ∃ ctx', Stmt.Codegen (.IfStmt e t o) ctx = .ok ctx' ∧
          ctx'.blocks.length = ctx.blocks.length + (if o.isSome then 3 else 2) ∧
          ctx'.functions[f]? = some { fn with basicBlocks := fn.basicBlocks ++
            (if o.isSome then
              [ctx.blocks.length, ctx.blocks.length + 1, ctx.blocks.length + 2]
            else [ctx.blocks.length, ctx.blocks.length + 1]) }) := by
  have part1 : ∀ (e : Expr) (t : Stmt) (o : Option Stmt) (ctx ctx' : CodeGenContext) (f b : Nat)
        (fn : IRFunction) (blk : BasicBlock),
        ctx.mCurrentFunc = some f → ctx.functions[f]? = some fn →
        ctx.insertBlock = some b → ctx.blocks[b]? = some blk →
        Stmt.Codegen (.IfStmt e t o) ctx = .ok ctx' →
        ∃ bbs c1 cond thenArm elseArm blk',
          IfStmt.enter e o.isSome ctx = .ok (bbs, c1) ∧
          bbs.thenBB = ctx.blocks.length ∧
          bbs.elseBB = (if o.isSome then some (ctx.blocks.length + 1) else none) ∧
          bbs.mergeBB = ctx.blocks.length + (if o.isSome then 2 else 1) ∧
          ctx'.blocks[b]? = some blk' ∧
          blk'.insts.getLast? = some (.condBr cond bbs.thenBB (bbs.elseBB.getD bbs.mergeBB)) ∧
          ctx'.functions[f]? = some { fn with basicBlocks :=
            fn.basicBlocks ++ bbs.thenBB :: thenArm ++
              (match bbs.elseBB with
                | some elseBB => elseBB :: elseArm
                | none => []) ++ [bbs.mergeBB] } ∧
          (∀ x ∈ thenArm ++ elseArm, bbs.mergeBB < x) ∧
          (t.straightLine.isSome → thenArm = []) ∧
          (∀ s, o = some s → s.straightLine.isSome → elseArm = []) := by
    intro e t o ctx ctx' f b fn blk hf hfn hb hblk h
    obtain ⟨bbs, c1, f', h1, hf', _, _, _, hshape⟩ := IfStmt.run_spec h
    rw [hf] at hf'; cases hf'
    obtain ⟨v, _, hbbs, _, _, hlen, _, hcur, _⟩ := IfStmt.enter_spec h1
    obtain ⟨ta, ea, hfn', hfresh, hst, hse⟩ := hshape fn hfn
    have hblt : b < ctx.blocks.length := (List.getElem?_eq_some_iff.mp hblk).1
    have hfro := IfStmt.entry_block_frozen hblt h1 h
    have hT : bbs.thenBB = ctx.blocks.length := by rw [hbbs]
    have hEl : bbs.elseBB = (if o.isSome then some (ctx.blocks.length + 1) else none) := by
      rw [hbbs]
    have hM : bbs.mergeBB = ctx.blocks.length + (if o.isSome then 2 else 1) := by
      rw [hbbs]; cases o <;> simp
    have hF : bbs.elseBB.getD bbs.mergeBB = ctx.blocks.length + 1 := by
      rw [hbbs]; cases o <;> simp
    refine ⟨bbs, c1, (IfStmt.condition v ctx).1, ta, ea, _, h1, hT, hEl, hM,
      hfro.trans (hcur b blk hb hblk), ?_, hfn', ?_, hst, hse⟩
    · rw [hT, hF]
      exact List.getLast?_concat _
    · intro x hx
      have := hfresh x hx
      rw [hlen] at this
      rw [hM]
      cases o <;> simp at this ⊢ <;> omega
  refine ⟨part1, ?_⟩
  intro e t o ctx f fn v thenInsts hf hfn hv hst hne hos
  obtain ⟨bbs, c1, h1⟩ := IfStmt.enter_ok e o.isSome ctx v hv
  obtain ⟨_, _, hbbs, _, hcur1, hlen1, _, _, hfn1⟩ := IfStmt.enter_spec h1
  have hT : bbs.thenBB = ctx.blocks.length := by rw [hbbs]
  have hFn : bbs.function = some f := by rw [hbbs]; exact hf
  obtain ⟨c2, c3, h2, h3, hl3, hf3⟩ := IfStmt.straight_arm hst hne hcur1
    (by rw [hlen1]; split <;> omega) bbs.mergeBB
  rw [← hT] at h3
  cases o with
  | none =>
    have hE : bbs.elseBB = none := by rw [hbbs]; rfl
    have hM : bbs.mergeBB = ctx.blocks.length + 1 := by rw [hbbs]; rfl
    have h5 : IfStmt.leave c3 bbs =
        .ok ((c3.appendBlock f bbs.mergeBB).SetInsertPoint bbs.mergeBB) := by
      unfold IfStmt.leave pushBackBlock
      simp [hFn]
    refine ⟨_, IfStmt.Codegen_of_steps h1 h2 h3 (Or.inl ⟨hE, h5⟩), ?_, ?_⟩
    · simp [CodeGenContext.SetInsertPoint, CodeGenContext.appendBlock, hl3, hlen1]
    · simp only [CodeGenContext.SetInsertPoint]
      rw [appendBlock_getElem? _ _ _ _ (by rw [hf3]; exact hfn1 f fn hf hfn), hM]
      simp
  | some s =>
    obtain ⟨elseInsts, hse, hnee⟩ := hos s rfl
    have hE : bbs.elseBB = some (ctx.blocks.length + 1) := by rw [hbbs]; rfl
    have hM : bbs.mergeBB = ctx.blocks.length + 2 := by rw [hbbs]; rfl
    have h4 : pushBackBlock c3 bbs.function (ctx.blocks.length + 1) =
        .ok (c3.appendBlock f (ctx.blocks.length + 1)) := by
      unfold pushBackBlock
      simp [hFn]
    obtain ⟨c5, c6, h5, h6, hl6, hf6⟩ := IfStmt.straight_arm
      (c := (c3.appendBlock f (ctx.blocks.length + 1)).SetInsertPoint (ctx.blocks.length + 1))
      hse hnee rfl
      (by simp [CodeGenContext.SetInsertPoint, CodeGenContext.appendBlock, hl3, hlen1])
      bbs.mergeBB
    have h7 : IfStmt.leave c6 bbs =
        .ok ((c6.appendBlock f bbs.mergeBB).SetInsertPoint bbs.mergeBB) := by
      unfold IfStmt.leave pushBackBlock
      simp [hFn]
    refine ⟨_, IfStmt.Codegen_of_steps h1 h2 h3
      (Or.inr ⟨_, _, c5, c6, hE, h4, by rw [OptStmt.Codegen]; exact h5, h6, h7⟩), ?_, ?_⟩
    · simp [CodeGenContext.SetInsertPoint, CodeGenContext.appendBlock, hl6, hl3, hlen1]
    · simp only [CodeGenContext.SetInsertPoint]
      have hc4 : ((c3.appendBlock f (ctx.blocks.length + 1)).SetInsertPoint
          (ctx.blocks.length + 1)).functions[f]? = some { fn with basicBlocks :=
            fn.basicBlocks ++ [ctx.blocks.length] ++ [ctx.blocks.length + 1] } := by
        simp only [CodeGenContext.SetInsertPoint]
        rw [appendBlock_getElem? _ _ _ _ (by rw [hf3]; exact hfn1 f fn hf hfn)]
      rw [appendBlock_getElem? _ _ _ _ (by rw [hf6]; exact hc4), hM]
      simp

/-- For an if statement with two arms whose condition lowers to the value of `x`,
whose then arm inserts `ret void` and whose else arm inserts a store, lowered
at the start of the body of function 0, whose list holds the entry block 0:
the call returns, three blocks were created and the function's list is
`[0, 1, 2, 3]`. -/
theorem IfStmt.Codegen_blocks_witness :
    Sample.bodyStart.mCurrentFunc = some 0 ∧
    Sample.returnVoid.straightLine = some [.retVoid] ∧
    ∃ ctx', Stmt.Codegen Sample.ifElse Sample.bodyStart = .ok ctx' ∧
      ctx'.blocks.length = Sample.bodyStart.blocks.length + 3 ∧
      ctx'.functions[0]? = some
        { name := "f", returnType := .voidTy, args := [{ ty := .intTy 32, name := "x" }],
          isVarArg := false, linkage := .ExternalLinkage,
          basicBlocks := [0] ++ [Sample.bodyStart.blocks.length,
            Sample.bodyStart.blocks.length + 1, Sample.bodyStart.blocks.length + 2] } :=
  ⟨by decide, by decide,
    IfStmt.Codegen_blocks.2 Sample.argX Sample.returnVoid (some Sample.assign) Sample.bodyStart 0
      { name := "f", returnType := .voidTy, args := [{ ty := .intTy 32, name := "x" }],
        isVarArg := false, linkage := .ExternalLinkage, basicBlocks := [0] }
      (.argument 0 0 (.intTy 32)) [.retVoid] (by decide) (by decide) rfl (by decide) (by decide)
      (fun s hs => ⟨[.store (getInt32 1) (.instruction 0 (.pointerTy (.intTy 32)))],
        by cases hs; decide, by decide⟩)⟩

/-- C1: the if statement of `int f(int x) { if (x) return 1; else return 0; }`.
The condition `x` is a primary expression; `PrimaryExpr::Codegen`, like the
`Codegen` of every expression class of this file (lines 208 to 261), returns
the null pair, and line 153 dereferences the null value.  For a condition whose `Codegen` returns
a null value the call of `IfStmt::Codegen` stops there, in every context and
whatever the arms are: lines 159 to 162 are not reached, so no then, else or
merge block is created and no conditional branch is emitted.  Where the body of
`f` starts the function holds the block `entry` alone, with the stack slot of
`x` and the store into it and without terminator; the if statement stops in
that state and `Function::Codegen` does not return for `f`. -/
theorem IfStmt.Codegen_stops_at_null_condition :
    (∀ ctx, PrimaryExpr.Codegen ctx = ((none, false), ctx)) ∧
    (∀ ctx, Expr.PrimaryExpr.Codegen ctx = (PrimaryExpr.Codegen ctx).1) ∧
    (∀ (mExpr : Expr) (hasElse : Bool) (ctx : CodeGenContext),
      (mExpr.Codegen ctx).1 = none → IfStmt.enter mExpr hasElse ctx = .error .nullDereference) ∧
    (∀ (mExpr : Expr) (mThenStmt : Stmt) (mOptElseStmt : Option Stmt) (ctx : CodeGenContext),
      (mExpr.Codegen ctx).1 = none →
      Stmt.Codegen (.IfStmt mExpr mThenStmt mOptElseStmt) ctx = .error .nullDereference) ∧
    (∀ (mThenStmt : Stmt) (mOptElseStmt : Option Stmt) (ctx : CodeGenContext),
      Stmt.Codegen (.IfStmt Expr.PrimaryExpr mThenStmt mOptElseStmt) ctx =
        .error .nullDereference) ∧
    Sample.ifElseReturn = .IfStmt Expr.PrimaryExpr Stmt.ReturnStmt (some Stmt.ReturnStmt) ∧
    (Sample.signBody.functions.map (fun fn => fn.basicBlocks)) = [[0]] ∧
    Sample.signBody.blocks =
      [{ name := "entry",
         insts := [.alloca 0 (.intTy 32) "x",
                   .store (.argument 0 0 (.intTy 32)) (.instruction 0 (.pointerTy (.intTy 32)))] }] ∧
    Stmt.Codegen Sample.ifElseReturn Sample.signBody = .error .nullDereference ∧
    Function.Codegen Sample.sign Sample.context = .error .nullDereference := by
  have h1 : ∀ (mExpr : Expr) (hasElse : Bool) (ctx : CodeGenContext),
      (mExpr.Codegen ctx).1 = none →
      IfStmt.enter mExpr hasElse ctx = .error .nullDereference := by
    intro mExpr hasElse ctx h
    unfold IfStmt.enter
    rw [h]
  have h2 : ∀ (mExpr : Expr) (mThenStmt : Stmt) (mOptElseStmt : Option Stmt)
      (ctx : CodeGenContext), (mExpr.Codegen ctx).1 = none →
      Stmt.Codegen (.IfStmt mExpr mThenStmt mOptElseStmt) ctx = .error .nullDereference := by
    intro mExpr mThenStmt mOptElseStmt ctx h
    rw [Stmt.Codegen, h1 mExpr _ ctx h]
  exact ⟨fun _ => rfl, fun _ => rfl, h1, h2, fun t o ctx => h2 _ t o ctx rfl, rfl, by decide,
    by decide, by decide, by decide⟩

/-- For `if (x) { if (x) return; }` with a condition whose lowering returns the
value of `x` and a return statement whose lowering inserts `ret void`, which
the `Codegen` methods of this file do not do, lowered at the start of a
function body: the lowering of the then arm ends in block 4, the merge block
of the inner if statement; block 4 is empty then, so the arm falls through.
`IfStmt::Codegen` inspects the then block 1 instead (line 165), finds the inner
conditional branch there and inserts no branch: when it returns, block 4 is
still empty, and `Function::Codegen` on a function with this body ends in
`std::terminate()`.  With an arm that inserts nothing line 165 reads `back()`
of the empty then block. -/
theorem IfStmt.Codegen_nested_arm_left_open :
    IfStmt.enter Sample.argX false Sample.bodyStart =
      .ok ({ function := some 0, thenBB := 1, elseBB := none, mergeBB := 2 },
        Sample.afterEnter) ∧
    Stmt.Codegen (.BlockStmt [Sample.ifReturn]) Sample.afterEnter = .ok Sample.afterArm ∧
    Sample.afterArm.insertBlock = some 4 ∧
    Sample.afterArm.blocks[4]? = some { name := "", insts := [] } ∧
    (Sample.afterArm.blocks[1]?.map (fun b => b.insts.getLast?)) =
      some (some (.condBr (.instruction 2 (.intTy 1)) 3 4)) ∧
    Stmt.Codegen Sample.ifNested Sample.bodyStart = .ok Sample.afterNested ∧
    Sample.afterNested.blocks[4]? = some { name := "", insts := [] } ∧
    Function.Codegen Sample.nestedOpen Sample.context = .error .terminated ∧
    Stmt.Codegen (.IfStmt Sample.argX (.BlockStmt []) none) Sample.bodyStart =
      .error .backOfEmptyBlock := by
  refine ⟨?_, ?_, ?_, ?_, ?_, ?_, ?_, ?_, ?_⟩ <;> decide

/-- C3: when `Function::Codegen` returns for a function with a body, every block
in the block list of the function it created holds at least one instruction and
ends with a terminator. -/
theorem Function.Codegen_blocks_terminated (fn : Function) (ctx ctx' : CodeGenContext)
    (func : Nat) (hbody : fn.mOptBlockStmt.isSome = true)
    (h : Function.Codegen fn ctx = .ok (func, ctx')) :
    ∃ irf, ctx'.functions[func]? = some irf ∧
      ∀ bb ∈ irf.basicBlocks, ∃ blk last, ctx'.blocks[bb]? = some blk ∧
        blk.insts.getLast? = some last ∧ last.isTerminator = true := by
  obtain ⟨r, ps, _, _, hf, hcase⟩ := Function.Codegen_inv h
  subst hf
  rcases hcase with ⟨hnone, _⟩ | ⟨mStmts, c1, _, _, _, hv⟩
  · rw [hnone] at hbody; cases hbody
  · unfold verifyFunction at hv
    cases hfn : ctx'.functions[ctx.functions.length]? with
    | none => simp [hfn] at hv
    | some irf =>
      simp only [hfn, Bool.not_eq_false', Bool.and_eq_true, List.all_eq_true] at hv
      refine ⟨irf, rfl, ?_⟩
      intro bb hbb
      have hb := hv.2 bb hbb
      cases hblk : ctx'.blocks[bb]? with
      | none => simp [hblk] at hb
      | some blk =>
        simp only [hblk, BasicBlock.wellFormed] at hb
        cases hl : blk.insts.getLast? with
        | none => simp [hl] at hb
        | some last =>
          simp only [hl, Bool.and_eq_true] at hb
          exact ⟨blk, last, rfl, hl, hb.1⟩

/-- The lowering of `void f(int x) { if (x) { if (x) return; return; } }`
completes, and all five blocks of the function end with a terminator. -/
theorem Function.Codegen_blocks_terminated_witness :
    Function.Codegen Sample.nested Sample.context =
      .ok (0, Sample.contextOf (Function.Codegen Sample.nested Sample.context) Sample.context) ∧
    ∃ irf, (Sample.contextOf (Function.Codegen Sample.nested Sample.context)
        Sample.context).functions[0]? = some irf ∧
      ∀ bb ∈ irf.basicBlocks, ∃ blk last,
        (Sample.contextOf (Function.Codegen Sample.nested Sample.context)
          Sample.context).blocks[bb]? = some blk ∧
        blk.insts.getLast? = some last ∧ last.isTerminator = true :=
  ⟨by decide, Function.Codegen_blocks_terminated Sample.nested Sample.context _ 0 (by decide)
    (by decide)⟩

/-- C4: (1) a statement built from block statements, if statements and
statements that insert no terminator, lowered in a state where no block holds
an instruction after a terminator and the insertion block holds no terminator,
returns in such a state again; so the conditional branch of every if
statement, the branch `IfStmt::Codegen` inserts after an arm and the `ret void`
of `Function::Codegen` all go into a block without terminator.  (2) When
`Function::Codegen` returns for such a body, every block holds at most one
terminator and no instruction after it. -/
theorem Function.Codegen_terminates_once :
    (∀ (s : Stmt) (ctx ctx' : CodeGenContext), s.leavesPlain = true → ctx.TerminatorsLast →
        Stmt.Codegen s ctx = .ok ctx' → ctx'.TerminatorsLast) ∧
    (∀ (fn : Function) (ctx ctx' : CodeGenContext) (func : Nat) (mStmts : List Stmt),
        (∀ (id : Nat) (blk : BasicBlock), ctx.blocks[id]? = some blk →
          blk.terminatorOnlyLast) →
        fn.mOptBlockStmt = some mStmts → BlockStmt.leavesPlain mStmts = true →
        Function.Codegen fn ctx = .ok (func, ctx') →
        ∀ (id : Nat) (blk : BasicBlock), ctx'.blocks[id]? = some blk →
          blk.terminatorOnlyLast ∧
          (blk.insts.filter Instruction.isTerminator).length ≤ 1) := by
  refine ⟨Stmt.Codegen_terminatorsLast_all, ?_⟩
  intro fn ctx ctx' func mStmts hctx hbody hp h
  obtain ⟨r, ps, _, _, hf, hcase⟩ := Function.Codegen_inv h
  subst hf
  rcases hcase with ⟨hnone, _⟩ | ⟨mStmts', c1, hb', hb, hfin, _⟩
  · rw [hnone] at hbody; cases hbody
  · rw [hbody] at hb'; cases hb'
    have hK0 := CodeGenContext.TerminatorsLast.openBody fn r ps ctx hctx
    have hK1 := BlockStmt.Codegen_terminatorsLast hp hK0 hb
    have hok : ∀ (id : Nat) (blk : BasicBlock), ctx'.blocks[id]? = some blk →
        blk.terminatorOnlyLast := by
      rcases Function.finish_spec hfin with hc | hc
      · rw [hc]; exact hK1.blocks_ok
      · rw [hc]; exact hK1.Insert_blocks_ok _
    intro id blk hblk
    exact ⟨hok id blk hblk, (hok id blk hblk).count_le_one⟩

/-- For `void h(int x) { if (x) x = 1; else x = 1; }` lowered into
the fresh module: the call returns and each of its blocks holds at most one
terminator. -/
theorem Function.Codegen_terminates_once_witness :
    Function.Codegen Sample.assigns Sample.context =
      .ok (0, Sample.contextOf (Function.Codegen Sample.assigns Sample.context)
        Sample.context) ∧
    (Sample.contextOf (Function.Codegen Sample.assigns Sample.context)
      Sample.context).blocks.length = 4 ∧
    ∀ (id : Nat) (blk : BasicBlock),
      (Sample.contextOf (Function.Codegen Sample.assigns Sample.context)
        Sample.context).blocks[id]? = some blk →
      blk.terminatorOnlyLast ∧ (blk.insts.filter Instruction.isTerminator).length ≤ 1 :=
  ⟨by decide, by decide,
    Function.Codegen_terminates_once.2 Sample.assigns Sample.context _ 0 _
      (fun id blk h => by simp [Sample.context] at h) rfl (by decide) (by decide)⟩

/-- C5: when `IfStmt::Codegen` returns, the insertion point is the merge block
of that if statement and the merge block is the last block of the current
function; and whenever the body of a function has been lowered, the last block
of the function, the one `Function::Codegen` inspects at line 131, is the block
at the insertion point. -/
theorem IfStmt.Codegen_cursor_at_merge :
    (∀ (e : Expr) (t : Stmt) (o : Option Stmt) (ctx ctx' : CodeGenContext) (f : Nat)
        (fn : IRFunction), ctx.mCurrentFunc = some f → ctx.functions[f]? = some fn →
        Stmt.Codegen (.IfStmt e t o) ctx = .ok ctx' →
        ∃ bbs c1 fn', IfStmt.enter e o.isSome ctx = .ok (bbs, c1) ∧
          bbs.mergeBB = ctx.blocks.length + (if o.isSome then 2 else 1) ∧
          ctx'.insertBlock = some bbs.mergeBB ∧ ctx'.mCurrentFunc = some f ∧
          ctx'.functions[f]? = some fn' ∧ fn'.basicBlocks.getLast? = some bbs.mergeBB) ∧
    (∀ (fn : Function) (ctx c0 c1 : CodeGenContext) (func : Nat) (r : LLVMType)
        (mStmts : List Stmt), Function.declare fn ctx = .ok ((func, r), c0) →
        BlockStmt.Codegen mStmts (Function.openBody c0 func) = .ok c1 →
        ∃ irf back, c1.mCurrentFunc = some func ∧ c1.functions[func]? = some irf ∧
          irf.basicBlocks.getLast? = some back ∧ c1.insertBlock = some back) := by
  constructor
  · intro e t o ctx ctx' f fn hf hfn h
    obtain ⟨bbs, c1, f', h1, hf', hcur, _, _, hshape⟩ := IfStmt.run_spec h
    rw [hf] at hf'; cases hf'
    obtain ⟨ta, ea, hfn', _⟩ := hshape fn hfn
    obtain ⟨_, _, hbbs, _⟩ := IfStmt.enter_spec h1
    have hE := Stmt.Codegen_extends_all _ _ _ h
    refine ⟨bbs, c1, _, h1, ?_, hcur, by rw [hE.mCurrentFunc_eq, hf], hfn',
      List.getLast?_concat _⟩
    rw [hbbs]
    cases o <;> simp
  · intro fn ctx c0 c1 func r mStmts hd hb
    exact Function.body_cursorAtBack fn ctx c0 c1 func r mStmts hd hb

/-- For `if (x) return; else x = 1;` lowered at the start of a function body:
the call returns, the merge block is block 3, it is the insertion point and the
last block of function 0. -/
theorem IfStmt.Codegen_cursor_at_merge_witness :
    Sample.bodyStart.mCurrentFunc = some 0 ∧
    (∃ bbs c1 fn', IfStmt.enter Sample.argX true Sample.bodyStart = .ok (bbs, c1) ∧
      bbs.mergeBB = 1 + 2 ∧
      (Sample.afterStmt (Stmt.Codegen Sample.ifElse Sample.bodyStart)
        Sample.bodyStart).insertBlock = some bbs.mergeBB ∧
      (Sample.afterStmt (Stmt.Codegen Sample.ifElse Sample.bodyStart)
        Sample.bodyStart).mCurrentFunc = some 0 ∧
      (Sample.afterStmt (Stmt.Codegen Sample.ifElse Sample.bodyStart)
        Sample.bodyStart).functions[0]? = some fn' ∧
      fn'.basicBlocks.getLast? = some bbs.mergeBB) :=
  ⟨by decide, IfStmt.Codegen_cursor_at_merge.1 Sample.argX Sample.returnVoid (some Sample.assign)
    Sample.bodyStart _ 0
    { name := "f", returnType := .voidTy, args := [{ ty := .intTy 32, name := "x" }],
      isVarArg := false, linkage := .ExternalLinkage, basicBlocks := [0] }
    (by decide) (by decide) (by decide)⟩

/-- C6: for a function with a body whose types lower to `r` and `ps`, lines 122
to 128 open a block named `entry` as the only block of the function and as
insertion point, holding exactly two instructions per parameter: at positions
`2 i` and `2 i + 1` the stack slot of the type of parameter `i` and the store
of the incoming argument `i` into that slot.  Whatever the body and the end of
`Function::Codegen` insert into the entry block comes after these. -/
theorem Function.Codegen_spills_parameters (fn : Function) (ctx : CodeGenContext)
    (r : LLVMType) (ps : List LLVMType)
    (hr : fn.mRetType.TypeGen = .ok (some r))
    (hp : fn.mParam.map (fun p => p.1.TypeGen) = ps.map (fun t => .ok (some t))) :
    ∃ c0 irf entry, Function.declare fn ctx = .ok ((ctx.functions.length, r), c0) ∧
      (Function.openBody c0 ctx.functions.length).functions[ctx.functions.length]? = some irf ∧
      irf.basicBlocks = [ctx.blocks.length] ∧
      (Function.openBody c0 ctx.functions.length).insertBlock = some ctx.blocks.length ∧
      (Function.openBody c0 ctx.functions.length).blocks[ctx.blocks.length]? = some entry ∧
      entry.name = "entry" ∧ entry.insts.length = 2 * fn.mParam.length ∧
      (∀ (i : Nat) (t : LLVMType) (p : TypeNode × String), ps[i]? = some t →
        fn.mParam[i]? = some p →
        p.1.TypeGen = .ok (some t) ∧
        entry.insts[2 * i]? = some (.alloca (ctx.nextId + i) t p.2) ∧
        entry.insts[2 * i + 1]? = some (.store (.argument ctx.functions.length i t)
          (.instruction (ctx.nextId + i) (.pointerTy t)))) ∧
      (∀ (func : Nat) (ctx' : CodeGenContext), fn.mOptBlockStmt.isSome = true →
        Function.Codegen fn ctx = .ok (func, ctx') →
        ∃ irf' rest, ctx'.functions[func]? = some irf' ∧
          irf'.basicBlocks.head? = some ctx.blocks.length ∧
          ctx'.blocks[ctx.blocks.length]? =
            some { name := "entry", insts := entry.insts ++ rest }) := by
  have hlen := map_TypeGen_length hp
  have hpt := Function.paramTypes_of_map fn.mParam ps hp
  obtain ⟨_, s2, s3, s4, _, _, s7, _⟩ := Function.openBody_spec fn r ps ctx
  obtain ⟨a1, a2⟩ := Function.created_args fn r ps hlen
  obtain ⟨e1, e2⟩ := entrySlots_spec ctx.functions.length (Function.created fn r ps).args
    ctx.nextId 0
  refine ⟨_, { (Function.created fn r ps) with basicBlocks := [ctx.blocks.length] }, _,
    Function.declare_eq ctx hr hpt, by rw [s4]; simp, rfl, s3, s7, rfl,
    by rw [e1, a1], ?_, ?_⟩
  · intro i t p hi hq
    obtain ⟨g1, g2⟩ := e2 i _ (a2 i t p hi hq)
    refine ⟨?_, g1, by simpa using g2⟩
    have h1 : (fn.mParam.map (fun p => p.1.TypeGen))[i]? = some p.1.TypeGen := by simp [hq]
    rw [hp] at h1
    simp [hi] at h1
    exact h1.symm
  · intro func ctx' hbody h
    obtain ⟨r', ps', hr', hp', hf, hcase⟩ := Function.Codegen_inv h
    rw [hr] at hr'; cases hr'
    rw [hpt] at hp'
    have hps : ps' = ps := by
      have := Except.ok.inj hp'
      exact (List.map_injective_iff.mpr (Option.some_injective _) this).symm
    subst hps hf
    rcases hcase with ⟨hnone, _⟩ | ⟨mStmts, c1, _, hb, hfin, _⟩
    · rw [hnone] at hbody; cases hbody
    · have hE := (BlockStmt.loop_extends hb).trans (Function.finish_extends hfin)
      obtain ⟨ext, hext, _⟩ := hE.functions_grow ctx.functions.length
        { (Function.created fn r ps') with basicBlocks := [ctx.blocks.length] }
        (by rw [s4]; simp)
      obtain ⟨more, hmore⟩ := hE.blocks_grow ctx.blocks.length _ s7
      exact ⟨_, more, hext, by simp, hmore⟩

/-- For `void g(int a, float) { }` lowered into the fresh module: the types lower
to void, i32 and float, and the entry block holds the four instructions
`alloca i32`, `store a`, `alloca float`, `store` of the second argument. -/
theorem Function.Codegen_spills_parameters_witness :
    Sample.twoParams.mRetType.TypeGen = .ok (some .voidTy) ∧
    Sample.twoParams.mParam.map (fun p => p.1.TypeGen) =
      [LLVMType.intTy 32, LLVMType.floatTy].map (fun t => .ok (some t)) ∧
    ∃ c0 entry, Function.declare Sample.twoParams Sample.context = .ok ((0, .voidTy), c0) ∧
      (Function.openBody c0 0).blocks[0]? = some entry ∧ entry.name = "entry" ∧
      entry.insts = [.alloca 0 (.intTy 32) "a",
        .store (.argument 0 0 (.intTy 32)) (.instruction 0 (.pointerTy (.intTy 32))),
        .alloca 1 .floatTy "",
        .store (.argument 0 1 .floatTy) (.instruction 1 (.pointerTy .floatTy))] := by
  refine ⟨by decide, by decide, ?_⟩
  obtain ⟨c0, irf, entry, h1, _, _, _, h5, h6, _, _, _⟩ :=
    Function.Codegen_spills_parameters Sample.twoParams Sample.context .voidTy
      [.intTy 32, .floatTy] (by decide) (by decide)
  refine ⟨c0, entry, h1, h5, h6, ?_⟩
  have hd : Function.declare Sample.twoParams Sample.context =
      .ok ((0, .voidTy), Function.declared Sample.twoParams .voidTy [.intTy 32, .floatTy]
        Sample.context) := by decide
  have hc : c0 = Function.declared Sample.twoParams .voidTy [.intTy 32, .floatTy]
      Sample.context := by
    have h1' : Function.declare Sample.twoParams Sample.context = .ok ((0, .voidTy), c0) := h1
    rw [hd] at h1'
    injection h1' with h1'
    injection h1' with _ h1'
    exact h1'.symm
  subst hc
  have he : (Function.openBody (Function.declared Sample.twoParams .voidTy
      [.intTy 32, .floatTy] Sample.context) 0).blocks[0]? =
      some { name := "entry", insts := [.alloca 0 (.intTy 32) "a",
        .store (.argument 0 0 (.intTy 32)) (.instruction 0 (.pointerTy (.intTy 32))),
        .alloca 1 .floatTy "",
        .store (.argument 0 1 .floatTy) (.instruction 1 (.pointerTy .floatTy))] } := by
    decide
  have h5' : (Function.openBody (Function.declared Sample.twoParams .voidTy
      [.intTy 32, .floatTy] Sample.context) 0).blocks[0]? = some entry := h5
  rw [he] at h5'
  injection h5' with h5'
  rw [← h5']

/-- C7: (1) for a function whose return type lowers to void, once the body is
lowered with the insertion block `b` empty or not ending with a terminator,
lines 131 to 138 insert `ret void` at the end of `b` and touch no other block.
(2) A void function with `n` parameters (none of type void) whose body inserts
no instruction is lowered, `Function::Codegen` returning, to a single block of
`2 n + 1` instructions, the last of which is `ret void`. -/
theorem Function.Codegen_implicit_return :
    (∀ (fn : Function) (ctx c0 c1 : CodeGenContext) (func b : Nat) (mStmts : List Stmt)
        (blk : BasicBlock), Function.declare fn ctx = .ok ((func, .voidTy), c0) →
        BlockStmt.Codegen mStmts (Function.openBody c0 func) = .ok c1 →
        c1.insertBlock = some b → c1.blocks[b]? = some blk →
        (blk.insts = [] ∨ ∃ last, blk.insts.getLast? = some last ∧ last.isTerminator = false) →
        ∃ c2, Function.finish c1 func .voidTy = .ok c2 ∧
          c2.blocks[b]? = some { blk with insts := blk.insts ++ [.retVoid] } ∧
          ∀ id, id ≠ b → c2.blocks[id]? = c1.blocks[id]?) ∧
    (∀ (fn : Function) (ctx : CodeGenContext) (ps : List LLVMType) (mStmts : List Stmt),
        fn.mRetType.TypeGen = .ok (some .voidTy) →
        fn.mParam.map (fun p => p.1.TypeGen) = ps.map (fun t => .ok (some t)) →
        (∀ t ∈ ps, t.isVoidTy = false) →
        fn.mOptBlockStmt = some mStmts → BlockStmt.straightLine mStmts = some [] →
        ∃ ctx' irf entry, Function.Codegen fn ctx = .ok (ctx.functions.length, ctx') ∧
          ctx'.functions[ctx.functions.length]? = some irf ∧
          irf.basicBlocks = [ctx.blocks.length] ∧
          ctx'.blocks[ctx.blocks.length]? = some entry ∧
          entry.insts.length = 2 * fn.mParam.length + 1 ∧
          entry.insts.getLast? = some .retVoid) := by
  constructor
  · intro fn ctx c0 c1 func b mStmts blk hd hbody hb hblk ho
    obtain ⟨irf, back, _, hirf, hback, hcur⟩ :=
      Function.body_cursorAtBack fn ctx c0 c1 func .voidTy mStmts hd hbody
    rw [hb] at hcur
    cases hcur
    exact ⟨_, Function.finish_void hirf hback hblk ho, CodeGenContext.Insert_block hb hblk _,
      fun id hid => CodeGenContext.Insert_block_ne hb hid _⟩
  · intro fn ctx ps mStmts hr hp hnv hbody hstr
    have hlen := map_TypeGen_length hp
    have hpt := Function.paramTypes_of_map fn.mParam ps hp
    have hd := Function.declare_eq ctx hr hpt
    obtain ⟨_, _, s3, s4, _, _, s7, _⟩ := Function.openBody_spec fn .voidTy ps ctx
    obtain ⟨a1, _⟩ := Function.created_args fn .voidTy ps hlen
    obtain ⟨e1, _⟩ := entrySlots_spec ctx.functions.length (Function.created fn .voidTy ps).args
      ctx.nextId 0
    have hplain := entrySlots_plain ctx.functions.length (Function.created fn .voidTy ps).args
      ctx.nextId 0
    have hb := BlockStmt.straightLine_loop
      (Function.openBody (Function.declared fn .voidTy ps ctx) ctx.functions.length) hstr
    simp only [List.foldl_nil] at hb
    have hfn : (Function.openBody (Function.declared fn .voidTy ps ctx)
        ctx.functions.length).functions[ctx.functions.length]? =
        some { (Function.created fn .voidTy ps) with basicBlocks := [ctx.blocks.length] } := by
      rw [s4]; simp
    have hfin := Function.finish_void hfn rfl s7 (open_of_plain hplain)
    have hblk' := CodeGenContext.Insert_block s3 s7 .retVoid
    have hfn' : ((Function.openBody (Function.declared fn .voidTy ps ctx)
        ctx.functions.length).Insert .retVoid).functions[ctx.functions.length]? =
        some { (Function.created fn .voidTy ps) with basicBlocks := [ctx.blocks.length] } := by
      rw [(CodeGenContext.Insert_fields _ _).2.2.2.1]; exact hfn
    have hargs : (Function.created fn .voidTy ps).args.all (fun a => !a.ty.isVoidTy) = true := by
      rw [List.all_eq_true]
      intro a ha
      have := hnv a.ty (by
        rw [← Function.created_args_ty fn .voidTy ps]
        exact List.mem_map_of_mem _ ha)
      simp [this]
    have hver : verifyFunction ((Function.openBody (Function.declared fn .voidTy ps ctx)
        ctx.functions.length).Insert .retVoid) ctx.functions.length = false := by
      unfold verifyFunction
      simp only [hfn', hargs, Bool.true_and, List.all_cons, List.all_nil, Bool.and_true, hblk',
        BasicBlock.wellFormed, List.getLast?_concat, List.dropLast_concat, Bool.not_eq_false']
      simp only [Instruction.isTerminator, Bool.true_and, List.all_eq_true,
        Bool.not_eq_true']
      intro i hi
      exact hplain i hi
    refine ⟨_, _, _, ?_, hfn', rfl, hblk', by simp [e1, a1], List.getLast?_concat _⟩
    unfold Function.Codegen
    simp only [hd, hbody, hb, hfin, hver]
    rfl

/-- For `void g(int a, float) { }` lowered into the fresh module: the call
returns, the function has the single block 0, which holds five instructions
and ends with `ret void`. -/
theorem Function.Codegen_implicit_return_witness :
    Sample.twoParams.mRetType.TypeGen = .ok (some .voidTy) ∧
    BlockStmt.straightLine ([] : List Stmt) = some [] ∧
    ∃ ctx' irf entry, Function.Codegen Sample.twoParams Sample.context = .ok (0, ctx') ∧
      ctx'.functions[0]? = some irf ∧ irf.basicBlocks = [0] ∧
      ctx'.blocks[0]? = some entry ∧ entry.insts.length = 2 * 2 + 1 ∧
      entry.insts.getLast? = some .retVoid :=
  ⟨by decide, by decide,
    Function.Codegen_implicit_return.2 Sample.twoParams Sample.context [.intTy 32, .floatTy] []
      (by decide) (by decide) (by decide) rfl (by decide)⟩

/-- C8: the lowering of `int f() { }`, a function that is not void and whose
final block has no terminator, does not complete: it fails the `assert(0)` of
line 136 instead of ending the block with a trap or unreachable terminator. -/
theorem Function.Codegen_fallOff_fails :
    Function.Codegen Sample.fallOff Sample.context = .error .assertionFailed := by
  decide

/-- C9: for a declaration whose types lower to `r` and `ps`, lines 102 to 117
create a function in the module (its number joins the module's function list)
with external linkage, return type `r` and one argument per declared parameter,
argument `i` having the lowered type of parameter `i` and the declared name
when that name is not empty, no name otherwise.  A declaration without body
returns exactly that; when a definition returns, the function is still in the
module with the same signature and linkage. -/
theorem Function.Codegen_declares_function (fn : Function) (ctx : CodeGenContext) (m : Module)
    (r : LLVMType) (ps : List LLVMType) (hm : ctx.mModule = some m)
    (hr : fn.mRetType.TypeGen = .ok (some r))
    (hp : fn.mParam.map (fun p => p.1.TypeGen) = ps.map (fun t => .ok (some t))) :
    ∃ c0 irf, Function.declare fn ctx = .ok ((ctx.functions.length, r), c0) ∧
      c0.mModule = some { m with functions := m.functions ++ [ctx.functions.length] } ∧
      c0.functions[ctx.functions.length]? = some irf ∧
      irf.linkage = .ExternalLinkage ∧ irf.returnType = r ∧
      irf.args.length = fn.mParam.length ∧
      (∀ (i : Nat) (t : LLVMType) (p : TypeNode × String), ps[i]? = some t →
        fn.mParam[i]? = some p →
        p.1.TypeGen = .ok (some t) ∧
        ∃ a, irf.args[i]? = some a ∧ a.ty = t ∧
          (p.2.isEmpty = false → a.name = p.2) ∧ (p.2.isEmpty = true → a.name = "")) ∧
      (fn.mOptBlockStmt = none → Function.Codegen fn ctx = .ok (ctx.functions.length, c0)) ∧
      (∀ (func : Nat) (ctx' : CodeGenContext), Function.Codegen fn ctx = .ok (func, ctx') →
        func = ctx.functions.length ∧ ctx'.mModule = c0.mModule ∧
        ∃ blocks, ctx'.functions[func]? = some { irf with basicBlocks := blocks }) := by
  have hlen := map_TypeGen_length hp
  have hpt := Function.paramTypes_of_map fn.mParam ps hp
  have hd := Function.declare_eq ctx hr hpt
  obtain ⟨a1, a2⟩ := Function.created_args fn r ps hlen
  refine ⟨_, Function.created fn r ps, hd, by simp [Function.declared, hm],
    by simp [Function.declared], rfl, rfl, a1, ?_, ?_, ?_⟩
  · intro i t p hi hq
    have h1 : (fn.mParam.map (fun p => p.1.TypeGen))[i]? = some p.1.TypeGen := by simp [hq]
    rw [hp] at h1
    simp [hi] at h1
    refine ⟨h1.symm, _, a2 i t p hi hq, rfl, fun _ => rfl, ?_⟩
    intro he
    exact (String.isEmpty_iff p.2).mp he
  · intro hnone
    unfold Function.Codegen
    rw [hd]
    simp [hnone]
  · intro func ctx' h
    obtain ⟨r', ps', hr', hp', hf, hcase⟩ := Function.Codegen_inv h
    rw [hr] at hr'; cases hr'
    rw [hpt] at hp'
    have hps : ps' = ps := by
      have := Except.ok.inj hp'
      exact (List.map_injective_iff.mpr (Option.some_injective _) this).symm
    subst hps hf
    refine ⟨rfl, ?_⟩
    rcases hcase with ⟨_, hc⟩ | ⟨mStmts, c1, _, hb, hfin, _⟩
    · subst hc
      exact ⟨rfl, [], by simp [Function.declared, Function.created]⟩
    · obtain ⟨s1, _, _, s4, _, _, _, _⟩ := Function.openBody_spec fn r ps' ctx
      have hE := (BlockStmt.loop_extends hb).trans (Function.finish_extends hfin)
      obtain ⟨ext, hext, _⟩ := hE.functions_grow ctx.functions.length
        { (Function.created fn r ps') with basicBlocks := [ctx.blocks.length] }
        (by rw [s4]; simp)
      exact ⟨by rw [hE.mModule_eq, s1], _, hext⟩

/-- For `void g(int a, float) { }` lowered into the fresh module: function 0
joins the module with external linkage, return type void and two arguments,
`a` of type i32 and an unnamed one of type float. -/
theorem Function.Codegen_declares_function_witness :
    Sample.context.mModule = some { name := "main", globals := [], functions := [] } ∧
    Sample.twoParams.mRetType.TypeGen = .ok (some .voidTy) ∧
    Sample.twoParams.mParam.map (fun p => p.1.TypeGen) =
      [LLVMType.intTy 32, LLVMType.floatTy].map (fun t => .ok (some t)) ∧
    ∃ c0 irf, Function.declare Sample.twoParams Sample.context = .ok ((0, .voidTy), c0) ∧
      c0.mModule = some { name := "main", globals := [], functions := [0] } ∧
      c0.functions[0]? = some irf ∧ irf.linkage = .ExternalLinkage ∧
      irf.returnType = .voidTy ∧ irf.args.length = 2 := by
  refine ⟨rfl, by decide, by decide, ?_⟩
  obtain ⟨c0, irf, h1, h2, h3, h4, h5, h6, _⟩ :=
    Function.Codegen_declares_function Sample.twoParams Sample.context
      { name := "main", globals := [], functions := [] } .voidTy [.intTy 32, .floatTy]
      rfl (by decide) (by decide)
  exact ⟨c0, irf, h1, h2, h3, h4, h5, h6⟩

/-- C11: the declaration `int *p;`, a global without initializer whose type is a
pointer, lowered into the fresh module: lines 89 to 93 build a zero for an
integer and for a floating-point type only, so the value stays null.  Line 98
is reached with the null constant and with the global `p`, which line 96
created without initializer; the cast of line 98 fails on the null constant,
the call does not return and `p` never gets an initializer.  No declaration of
a pointer type without initializer is lowered, whatever the pointee, the name
and the context are.  For `int x;` and `float y;` the initializer is the zero
of the type. -/
theorem GlobalDecl.Codegen_pointer_without_initializer :
    Sample.pointerP.mOptValue = none ∧
    Sample.pointerP.mType.TypeGen = .ok (some (.pointerTy (.intTy 32))) ∧
    GlobalDecl.zeroValue (.pointerTy (.intTy 32)) = none ∧
    GlobalDecl.getGlobal Sample.pointerP Sample.context = .ok ((none, false),
      { name := "main", functions := [],
        globals := [{ name := "p", valueType := .pointerTy (.intTy 32), initializer := none }] },
      some 0) ∧
    castConstant none = .error .assertionFailed ∧
    GlobalDecl.Codegen Sample.pointerP Sample.context = .error .assertionFailed ∧
    (∀ (mType : TypeNode) (mName : String) (ctx c : CodeGenContext) (r : LLVMValueSignPair),
      GlobalDecl.Codegen { mType := .PointerType mType, mName := mName, mOptValue := none } ctx ≠
        .ok (r, c)) ∧
    (Sample.afterGlobal (GlobalDecl.Codegen Sample.intX Sample.context)
        Sample.context).mModule =
      some { name := "main", functions := [],
             globals := [{ name := "x", valueType := .intTy 32,
                           initializer := some (.constantInt (.intTy 32) 0) }] } ∧
    (Sample.afterGlobal (GlobalDecl.Codegen Sample.floatY Sample.context)
        Sample.context).mModule =
      some { name := "main", functions := [],
             globals := [{ name := "y", valueType := .floatTy,
                           initializer := some (.constantFP .floatTy 0) }] } := by
  refine ⟨rfl, by decide, by decide, by decide, rfl, by decide, ?_, by decide, by decide⟩
  intro mType mName ctx c r h
  obtain ⟨_, ty, _, ht, _, _, _, v, hv, _⟩ := GlobalDecl.Codegen_ok_inv h
  obtain ⟨t, rfl⟩ := TypeNode.TypeGen_pointer ht
  simp [GlobalDecl.constant, GlobalDecl.zeroValue, LLVMType.isIntegerTy,
    LLVMType.isFloatingPointTy] at hv

/-- Let the module hold at most one global of the name of `d1`, let the
lowering of `d1` return, and let `d2` be a declaration of the same name whose
type lowers to a type `ty2` and whose constant, the pair of line 95, holds a
constant that is not null.  Then the lowering of `d2` right after returns too;
the module then holds exactly one global of that name, and its initializer is
the constant of `d2`.  The globals of other names, the functions and the name
of the module are as before the two calls.  Lowering `d1` a second time right
after the first returns the same pair and leaves the context as it is.  Every
module the loop of `Program::Codegen` reaches from the fresh module holds at
most one global of a name. -/
theorem GlobalDecl.Codegen_redeclared_constant (d1 d2 : GlobalDecl) (ctx c1 : CodeGenContext)
    (r1 : LLVMValueSignPair) (m : Module) (ty2 : LLVMType) (v2 : Value)
    (hm : ctx.mModule = some m) (hone : m.countGlobals d1.mName ≤ 1)
    (hname : d2.mName = d1.mName)
    (h1 : GlobalDecl.Codegen d1 ctx = .ok (r1, c1))
    (ht2 : d2.mType.TypeGen = .ok (some ty2))
    (hc2 : (GlobalDecl.constant d2 ty2).1 = some v2) (hv2 : v2.isConstant = true) :
    (∃ c2 m2 vt, GlobalDecl.Codegen d2 c1 = .ok (GlobalDecl.constant d2 ty2, c2) ∧
      c2.mModule = some m2 ∧
      m2.globals.filter (fun g => g.name = d1.mName) =
        [{ name := d1.mName, valueType := vt, initializer := some v2 }] ∧
      m2.countGlobals d1.mName = 1 ∧
      (∀ other, other ≠ d1.mName →
        m2.globals.filter (fun g => g.name = other) = m.globals.filter (fun g => g.name = other)) ∧
      m2.functions = m.functions ∧ m2.name = m.name) ∧
    GlobalDecl.Codegen d1 c1 = .ok (r1, c1) ∧
    (∀ (decls : List ExternalDecl) (ctx0 c : CodeGenContext) (m0 : Module) (name : String),
      Program.loop decls { ctx0 with mModule := some Program.freshModule } = .ok c →
      c.mModule = some m0 → m0.countGlobals name ≤ 1) := by
  obtain ⟨m', ty1, hm', ht1, hf1, hr1, hc1, v1, hcv1, hv1⟩ := GlobalDecl.Codegen_ok_inv h1
  rw [hm] at hm'
  cases hm'
  have hmod1 : c1.mModule = some
      { m with globals := upsertGlobal d1.mName ty1 (GlobalDecl.constant d1 ty1).1 m.globals } := by
    rw [hc1]; rfl
  have hfun1 : c1.functions = ctx.functions := by rw [hc1]; rfl
  obtain ⟨i, hi, _, _⟩ :=
    findGlobal_upsertGlobal d1.mName ty1 (GlobalDecl.constant d1 ty1).1 m.globals
  refine ⟨?_, ?_, ?_⟩
  · have h2 := GlobalDecl.Codegen_eq (d := d2) hmod1 ht2 (by rw [hname]; simp [hi]) hc2 hv2
    obtain ⟨vt, hfil, _⟩ := filter_upsertGlobal d1.mName ty1 (GlobalDecl.constant d2 ty2).1
      m.globals hone
    refine ⟨_, _, vt, h2, rfl, ?_, ?_, ?_, rfl, rfl⟩
    · simp only [hname, upsertGlobal_twice]
      rw [← hc2]
      exact hfil
    · simp only [Module.countGlobals, hname, upsertGlobal_twice, countP_upsertGlobal]
      unfold Module.countGlobals at hone
      omega
    · intro other hne
      simp only [hname, upsertGlobal_twice]
      exact filter_upsertGlobal_other _ _ _ _ _ hne
  · have h2 := GlobalDecl.Codegen_eq (d := d1) hmod1 ht1 (by simp [hi]) hcv1 hv1
    rw [h2, hr1, hc1]
    simp [CodeGenContext.withGlobal, upsertGlobal_idem]
  · intro decls ctx0 c m0 name hl hm0
    obtain ⟨m', e1, e2⟩ := Program.loop_globals_distinct hl rfl
      (by intro n; simp [Module.countGlobals, Program.freshModule])
    rw [hm0] at e1
    cases e1
    exact e2 name

/-- For `int x;` followed by `float x;` in the fresh module: both calls return
and the module ends with exactly one global `x`, whose initializer is the zero
of the later declaration. -/
theorem GlobalDecl.Codegen_redeclared_constant_witness :
    Sample.context.mModule = some Program.freshModule ∧
    Program.freshModule.countGlobals "x" ≤ 1 ∧
    GlobalDecl.Codegen Sample.intX Sample.context =
      .ok ((some (.constantInt (.intTy 32) 0), true), Sample.afterIntX) ∧
    Sample.floatX.mType.TypeGen = .ok (some .floatTy) ∧
    ∃ c2 m2 vt, GlobalDecl.Codegen Sample.floatX Sample.afterIntX =
        .ok ((some (.constantFP .floatTy 0), true), c2) ∧
      c2.mModule = some m2 ∧
      m2.globals.filter (fun g => g.name = "x") =
        [{ name := "x", valueType := vt, initializer := some (.constantFP .floatTy 0) }] ∧
      m2.countGlobals "x" = 1 := by
  have h1 : GlobalDecl.Codegen Sample.intX Sample.context =
      .ok ((some (.constantInt (.intTy 32) 0), true), Sample.afterIntX) := by decide
  refine ⟨rfl, by decide, h1, by decide, ?_⟩
  obtain ⟨⟨c2, m2, vt, a1, a2, a3, a4, _⟩, _⟩ :=
    GlobalDecl.Codegen_redeclared_constant Sample.intX Sample.floatX Sample.context _ _
      Program.freshModule .floatTy (.constantFP .floatTy 0) rfl (by decide) rfl h1 (by decide)
      (by decide) rfl
  exact ⟨c2, m2, vt, a1, a2, a3, a4⟩

/-- C12: `int x;` followed by `int x = 5;`, lowered one after the other into the
fresh module.  The first call returns and leaves the one global `x` with the
zero of `i32`.  The initializer of the second declaration is a constant
expression, whose `Codegen` returns the null pair: line 98 is reached with the
null constant and with the global `x` of the first declaration, which still
holds the zero; the cast of line 98 fails on the null constant and the call
does not return, in this context and in every other.  The initializer of `x`
never becomes the one of the later declaration, and `Program::Codegen` does not
return for the program `int x; int x = 5;`.  Lowering `int x;` a second time
does return, with the same pair and the same context. -/
theorem GlobalDecl.Codegen_redeclaration_initializer_lost :
    Sample.intXInit.mName = Sample.intX.mName ∧
    Sample.intXInit.mOptValue = some Expr.ConstantExpr ∧
    (∀ ctx, Expr.ConstantExpr.Codegen ctx = (ConstantExpr.Codegen ctx).1) ∧
    GlobalDecl.Codegen Sample.intX Sample.context =
      .ok ((some (.constantInt (.intTy 32) 0), true), Sample.afterIntX) ∧
    Sample.afterIntX.mModule =
      some { name := "main", functions := [],
             globals := [{ name := "x", valueType := .intTy 32,
                           initializer := some (.constantInt (.intTy 32) 0) }] } ∧
    GlobalDecl.getGlobal Sample.intXInit Sample.afterIntX = .ok ((none, false),
      { name := "main", functions := [],
        globals := [{ name := "x", valueType := .intTy 32,
                      initializer := some (.constantInt (.intTy 32) 0) }] },
      some 0) ∧
    castConstant none = .error .assertionFailed ∧
    GlobalDecl.Codegen Sample.intXInit Sample.afterIntX = .error .assertionFailed ∧
    (∀ (ctx c : CodeGenContext) (r : LLVMValueSignPair),
      GlobalDecl.Codegen Sample.intXInit ctx ≠ .ok (r, c)) ∧
    Program.Codegen Sample.initialized Sample.context = .error .assertionFailed ∧
    GlobalDecl.Codegen Sample.intX Sample.afterIntX =
      .ok ((some (.constantInt (.intTy 32) 0), true), Sample.afterIntX) := by
  refine ⟨rfl, rfl, fun _ => rfl, by decide, by decide, by decide, rfl, by decide, ?_,
    by decide, by decide⟩
  intro ctx c r
  exact @GlobalDecl.Codegen_null_constant Sample.intXInit (fun _ => rfl) ctx c r

/-- C13: (1) `Program::Codegen` gives the same result whatever module the context
held before: line 73 replaces it by the empty module `main`.  (2) When the call
returns, the declarations of `mExternalDecl` were lowered one after the other
in the order of the list, each once, the first in the context with the fresh
module and every other one in the context its predecessor returned, and the
last context is the one returned; its module passed `verifyModule`, is named
`main`, holds exactly the functions created by these calls, one for every
function of the list and in that order, and a global of a name exactly when
the list holds a global declaration of that name.  (3) Conversely, when the
declarations can be lowered in this way and the module reached passes
`verifyModule`, the call returns the null pair in the last context. -/
theorem Program.Codegen_fresh_module_in_order (p : Program) (ctx : CodeGenContext) :
    (∀ old : Option Module,
      Program.Codegen p { ctx with mModule := old } = Program.Codegen p ctx) ∧
    (∀ (r : LLVMValueSignPair) (ctx' : CodeGenContext), Program.Codegen p ctx = .ok (r, ctx') →
      r = (none, false) ∧
      (∃ states, Program.Steps p.mExternalDecl
        { ctx with mModule := some Program.freshModule } ctx' states) ∧
      ∃ m', ctx'.mModule = some m' ∧ verifyModule ctx' m' = false ∧ m'.name = "main" ∧
        m'.functions =
          List.range' ctx.functions.length (Program.functionNames p.mExternalDecl).length ∧
        m'.functions.map ctx'.functionName = (Program.functionNames p.mExternalDecl).map some ∧
        (∀ x, (∃ g ∈ m'.globals, g.name = x) ↔ x ∈ Program.globalNames p.mExternalDecl)) ∧
    (∀ (states : List CodeGenContext) (last : CodeGenContext) (m' : Module),
      Program.Steps p.mExternalDecl { ctx with mModule := some Program.freshModule } last states →
      last.mModule = some m' → verifyModule last m' = false →
      Program.Codegen p ctx = .ok ((none, false), last)) := by
  refine ⟨fun old => rfl, ?_, ?_⟩
  · intro r ctx' h
    unfold Program.Codegen at h
    cases hl : Program.loop p.mExternalDecl { ctx with mModule := some Program.freshModule } with
    | error e => simp [hl] at h
    | ok c1 =>
      simp only [hl] at h
      obtain ⟨m', a1, a2, a3, a4, _, a6, a7, a8⟩ := Program.loop_module hl rfl
      simp only [a1] at h
      split at h
      · cases h
      · rename_i hv
        simp at h
        obtain ⟨hr, hc⟩ := h
        subst hc
        refine ⟨hr.symm, Program.loop_steps hl, m', a1, by simpa using hv, a2, ?_, ?_, ?_⟩
        · simpa [Program.freshModule] using a3
        · rw [a3]
          apply List.ext_getElem?
          intro j
          rw [List.getElem?_map, List.getElem?_map]
          by_cases hj : j < (Program.functionNames p.mExternalDecl).length
          · have h1 : (List.range' ctx.functions.length
                (Program.functionNames p.mExternalDecl).length)[j]? =
                some (ctx.functions.length + j) := by
              simp [List.getElem?_range', hj]
            have h2 := a6 j hj
            simp only [Program.freshModule, List.nil_append, h1, Option.map_some']
            rw [h2]
            simp [List.getElem?_eq_getElem, hj]
          · have h1 : (Program.functionNames p.mExternalDecl).length ≤ j := by omega
            have h2 : (List.range' ctx.functions.length
                (Program.functionNames p.mExternalDecl).length)[j]? = none := by
              simp [h1]
            simp only [Program.freshModule, List.nil_append, h2]
            rw [List.getElem?_eq_none h1]
            rfl
        · intro x
          constructor
          · rintro ⟨g, hg, hx⟩
            rcases a7 g hg with hmem | hmem
            · simp [Program.freshModule] at hmem
            · rw [← hx]; exact hmem
          · intro hx
            exact a8 x (.inr hx)
  · intro states last m' hs hm hv
    have hl := Program.steps_loop hs
    unfold Program.Codegen
    simp [hl, hm, hv]

/-- For the program `int x; void g(int a, float) { }` lowered in a context whose
module holds the global `p`: the call returns, the module returned holds the
function `g` as its only function, the global `x`, and no global `p`. -/
theorem Program.Codegen_fresh_module_in_order_witness :
    (∃ g ∈ (Sample.usedContext.mModule.getD Program.freshModule).globals, g.name = "p") ∧
    Program.Codegen Sample.program Sample.usedContext = .ok ((none, false), Sample.afterProgram) ∧
    ∃ m', Sample.afterProgram.mModule = some m' ∧ m'.name = "main" ∧
      m'.functions = [0] ∧ m'.functions.map Sample.afterProgram.functionName = [some "g"] ∧
      (∃ g ∈ m'.globals, g.name = "x") ∧ ¬ (∃ g ∈ m'.globals, g.name = "p") := by
  have h : Program.Codegen Sample.program Sample.usedContext =
      .ok ((none, false), Sample.afterProgram) := by decide
  refine ⟨by decide, h, ?_⟩
  obtain ⟨_, _, m', h1, _, h3, h4, h5, h6⟩ :=
    (Program.Codegen_fresh_module_in_order Sample.program Sample.usedContext).2.1 _ _ h
  refine ⟨m', h1, h3, h4, h5, (h6 "x").mpr (by decide), ?_⟩
  intro hp
  exact absurd ((h6 "p").mp hp) (by decide)

/-- C14: for two struct types, two union types and two enum types alike, `a == b`
holds exactly when the ids are equal, and `a != b` is the negation of `a == b`.
The names play no role: the result of `==` is the comparison of the ids
whatever the two names are, so two records of the same name and different ids
are unequal and two of different names and the same id are equal. -/
theorem Sema.StructType.eq_iff_getId :
    (∀ a b : Sema.StructType, (a.eq b = true ↔ a.getId = b.getId) ∧ a.ne b = !a.eq b) ∧
    (∀ a b : Sema.UnionType, (a.eq b = true ↔ a.getId = b.getId) ∧ a.ne b = !a.eq b) ∧
    (∀ a b : Sema.EnumType, (a.eq b = true ↔ a.getId = b.getId) ∧ a.ne b = !a.eq b) ∧
    (∀ (n1 n2 : String) (i j : Nat),
      (Sema.StructType.mk n1 i).eq (Sema.StructType.mk n2 j) = decide (i = j) ∧
      (Sema.UnionType.mk n1 i).eq (Sema.UnionType.mk n2 j) = decide (i = j) ∧
      (Sema.EnumType.mk n1 i).eq (Sema.EnumType.mk n2 j) = decide (i = j)) ∧
    (Sema.StructType.mk "s" 1).eq (Sema.StructType.mk "s" 2) = false ∧
    (Sema.StructType.mk "s" 1).eq (Sema.StructType.mk "t" 1) = true ∧
    (Sema.UnionType.mk "u" 1).eq (Sema.UnionType.mk "u" 2) = false ∧
    (Sema.UnionType.mk "u" 1).eq (Sema.UnionType.mk "v" 1) = true ∧
    (Sema.EnumType.mk "e" 1).eq (Sema.EnumType.mk "e" 2) = false ∧
    (Sema.EnumType.mk "e" 1).eq (Sema.EnumType.mk "f" 1) = true := by
  refine ⟨?_, ?_, ?_, ?_, by decide, by decide, by decide, by decide, by decide, by decide⟩
  · intro a b
    refine ⟨by simp [Sema.StructType.eq, Sema.StructType.getId], ?_⟩
    simp only [Sema.StructType.ne, Sema.StructType.eq]
    rw [Bool.beq_comm]
  · intro a b
    refine ⟨by simp [Sema.UnionType.eq, Sema.UnionType.getId], ?_⟩
    simp only [Sema.UnionType.ne, Sema.UnionType.eq]
    rw [Bool.beq_comm]
  · intro a b
    refine ⟨by simp [Sema.EnumType.eq, Sema.EnumType.getId], ?_⟩
    simp only [Sema.EnumType.ne, Sema.EnumType.eq]
    rw [Bool.beq_comm]
  · intro n1 n2 i j
    have key : (i == j) = decide (i = j) := Bool.eq_iff_iff.mpr (by simp)
    exact ⟨key, key, key⟩

/-- C15: whatever the statement `LCC_UNREACHABLE;` does, stop the program or let
control pass on, `getSizeOf()` of an abstract array type, of a variable-length
array type and of a function type ends in a failure and returns no size, and
so does `getAlignOf()` of a function type: the statement is all their bodies
hold, there is no `return`. -/
theorem Sema.FunctionType.getSizeOf_fails (LCC_UNREACHABLE : Sema.Unreachable) :
    (∀ a : Sema.AbstractArrayType,
      (∃ e, a.getSizeOf LCC_UNREACHABLE = .error e) ∧ ∀ n, a.getSizeOf LCC_UNREACHABLE ≠ .ok n) ∧
    (∀ a : Sema.ValArrayType,
      (∃ e, a.getSizeOf LCC_UNREACHABLE = .error e) ∧ ∀ n, a.getSizeOf LCC_UNREACHABLE ≠ .ok n) ∧
    (∀ f : Sema.FunctionType,
      (∃ e, f.getSizeOf LCC_UNREACHABLE = .error e) ∧ (∀ n, f.getSizeOf LCC_UNREACHABLE ≠ .ok n) ∧
      (∃ e, f.getAlignOf LCC_UNREACHABLE = .error e) ∧ ∀ n, f.getAlignOf LCC_UNREACHABLE ≠ .ok n) := by
  refine ⟨fun a => ?_, fun a => ?_, fun f => ?_⟩
  · cases h : LCC_UNREACHABLE <;> simp [Sema.AbstractArrayType.getSizeOf, h]
  · cases h : LCC_UNREACHABLE <;> simp [Sema.ValArrayType.getSizeOf, h]
  · cases h : LCC_UNREACHABLE <;>
      simp [Sema.FunctionType.getSizeOf, Sema.FunctionType.getAlignOf, h]

/-- C16: `isTypedef()` holds exactly when `getName()` is not the empty string.  A
type made by the constructor, whatever its arguments, is not a typedef.  After
`setName(n)` the name is `n`, `isTypedef()` holds exactly when `n` is not empty,
and the qualifiers and the payload are the ones from before the call. -/
theorem Sema.Type.isTypedef_iff_name :
    (∀ t : Sema.Type, t.isTypedef = true ↔ t.getName ≠ "") ∧
    (∀ (isConst isVolatile : Bool) (type : Sema.Variant),
      (Sema.Type.new isConst isVolatile type).isTypedef = false ∧
      (Sema.Type.new isConst isVolatile type).getName = "") ∧
    (∀ (t : Sema.Type) (n : String),
      ((t.setName n).isTypedef = true ↔ n ≠ "") ∧
      (t.setName n).getName = n ∧
      (t.setName n).isConst = t.isConst ∧
      (t.setName n).isVolatile = t.isVolatile ∧
      (t.setName n).getVariant = t.getVariant) := by
  have key : ∀ s : String, (!s.isEmpty) = true ↔ s ≠ "" := by
    intro s
    rw [Ne, ← String.isEmpty_iff]
    cases s.isEmpty <;> simp
  refine ⟨fun t => key _, fun c v p => ⟨rfl, rfl⟩, ?_⟩
  intro t n
  cases t with
  | mk m_type m_name m_isConst m_isVolatile =>
    exact ⟨key n, rfl, rfl, rfl, rfl⟩

/-- C17: `a == b` is the comparison of the two payloads; it is the same whatever
the qualifiers and the alias names of `a` and `b` are.  Hence a type compares
equal to itself and to every copy of it with other qualifiers or another
alias name, in both directions: `const T == T` and a renamed `T` equals `T`. -/
theorem Sema.Type.eq_iff_payload :
    (∀ a b : Sema.Type, Sema.Type.eq a b = Sema.Variant.eq a.getVariant b.getVariant) ∧
    (∀ (v w : Sema.Variant) (n1 n2 n3 n4 : String) (c1 c2 c3 c4 v1 v2 v3 v4 : Bool),
      Sema.Type.eq (.mk v n1 c1 v1) (.mk w n2 c2 v2) =
        Sema.Type.eq (.mk v n3 c3 v3) (.mk w n4 c4 v4)) ∧
    (∀ t : Sema.Type, Sema.Type.eq t t = true) ∧
    (∀ (t : Sema.Type) (n : String) (isConst isVolatile : Bool),
      Sema.Type.eq (.mk t.getVariant n isConst isVolatile) t = true ∧
      Sema.Type.eq t (.mk t.getVariant n isConst isVolatile) = true ∧
      Sema.Type.eq (t.setName n) t = true ∧ Sema.Type.eq t (t.setName n) = true) ∧
    Sema.Type.eq (Sema.Type.mk Sample.int.getVariant "" true false) Sample.int = true ∧
    Sema.Type.eq (Sample.int.setName "word") Sample.int = true ∧
    Sema.Type.eq Sample.intPointer Sample.int = false := by
  have h1 : ∀ a b : Sema.Type, Sema.Type.eq a b = Sema.Variant.eq a.getVariant b.getVariant := by
    intro a b
    cases a; cases b
    simp [Sema.Type.eq, Sema.Type.getVariant]
  refine ⟨h1, ?_, ?_, ?_, by decide, by decide, by decide⟩
  · intro v w n1 n2 n3 n4 c1 c2 c3 c4 v1 v2 v3 v4
    simp [Sema.Type.eq]
  · intro t
    rw [h1]
    exact Sema.Variant.eq_self _
  · intro t n c v
    cases t with
    | mk m_type m_name m_isConst m_isVolatile =>
      simp [h1, Sema.Type.getVariant, Sema.Type.setName, Sema.Variant.eq_self]

/-- C18: `adjustParameterType()` of an array type, of any of the three array
classes, is the plain pointer to the element type; of a function type it is the
plain pointer to that function type; a type of any other kind, a pointer among
them, is returned as it is.  Applying it twice gives what applying it once
gives, and `int[5]` becomes `int *`. -/
theorem Sema.Type.adjustParameterType_decay :
    (∀ (a : Sema.ArrayType) (n : String) (c v : Bool),
      (Sema.Type.mk (.ArrayType a) n c v).adjustParameterType =
        Sema.PointerType.create false false false a.getType) ∧
    (∀ (a : Sema.AbstractArrayType) (n : String) (c v : Bool),
      (Sema.Type.mk (.AbstractArrayType a) n c v).adjustParameterType =
        Sema.PointerType.create false false false a.getType) ∧
    (∀ (a : Sema.ValArrayType) (n : String) (c v : Bool),
      (Sema.Type.mk (.ValArrayType a) n c v).adjustParameterType =
        Sema.PointerType.create false false false a.getType) ∧
    (∀ (f : Sema.FunctionType) (n : String) (c v : Bool),
      (Sema.Type.mk (.FunctionType f) n c v).adjustParameterType =
        Sema.PointerType.create false false false (Sema.Type.mk (.FunctionType f) n c v)) ∧
    (∀ (n : String) (c v : Bool),
      (∀ p, (Sema.Type.mk (.PointerType p) n c v).adjustParameterType =
        Sema.Type.mk (.PointerType p) n c v) ∧
      (∀ p, (Sema.Type.mk (.PrimitiveType p) n c v).adjustParameterType =
        Sema.Type.mk (.PrimitiveType p) n c v) ∧
      (∀ s, (Sema.Type.mk (.StructType s) n c v).adjustParameterType =
        Sema.Type.mk (.StructType s) n c v) ∧
      (∀ u, (Sema.Type.mk (.UnionType u) n c v).adjustParameterType =
        Sema.Type.mk (.UnionType u) n c v) ∧
      (∀ e, (Sema.Type.mk (.EnumType e) n c v).adjustParameterType =
        Sema.Type.mk (.EnumType e) n c v) ∧
      (Sema.Type.mk .monostate n c v).adjustParameterType = Sema.Type.mk .monostate n c v) ∧
    (∀ t : Sema.Type, t.adjustParameterType.adjustParameterType = t.adjustParameterType) ∧
    Sample.intArray5.adjustParameterType = Sample.intPointer ∧
    Sample.intPointer.adjustParameterType = Sample.intPointer ∧
    Sample.intArray5.adjustParameterType.adjustParameterType =
      Sample.intArray5.adjustParameterType := by
  refine ⟨fun _ _ _ _ => rfl, fun _ _ _ _ => rfl, fun _ _ _ _ => rfl, fun _ _ _ _ => rfl,
    fun _ _ _ => ⟨fun _ => rfl, fun _ => rfl, fun _ => rfl, fun _ => rfl, fun _ => rfl, rfl⟩,
    ?_, rfl, rfl, rfl⟩
  intro t
  cases t with
  | mk m_type m_name m_isConst m_isVolatile =>
    cases m_type <;> rfl

/-- C19: the lowering of `int add(int a, int b) { return a + b; }` into the fresh
module.  `ReturnStmt::Codegen` and `AdditiveExpr::Codegen` return the null pair
at once, so lowering the body changes nothing: the function has its two
parameters `a` and `b` and the one block `entry`, which holds the two stack
slots and the two stores of the parameters and nothing else, no load, no add
and no return.  The block has no terminator and the return type is not void,
so the call stops at the `assert(0)` of line 136 and does not return. -/
theorem Function.Codegen_add_fails :
    (∀ ctx, ReturnStmt.Codegen ctx = ((none, false), ctx)) ∧
    (∀ ctx, AdditiveExpr.Codegen ctx = ((none, false), ctx)) ∧
    (∀ ctx, Stmt.Codegen Stmt.ReturnStmt ctx = .ok (ReturnStmt.Codegen ctx).2) ∧
    Sample.addBody.functions =
      [{ name := "add", returnType := .intTy 32,
         args := [{ ty := .intTy 32, name := "a" }, { ty := .intTy 32, name := "b" }],
         isVarArg := false, linkage := .ExternalLinkage, basicBlocks := [0] }] ∧
    Sample.addBody.blocks =
      [{ name := "entry",
         insts := [.alloca 0 (.intTy 32) "a",
                   .store (.argument 0 0 (.intTy 32)) (.instruction 0 (.pointerTy (.intTy 32))),
                   .alloca 1 (.intTy 32) "b",
                   .store (.argument 0 1 (.intTy 32)) (.instruction 1 (.pointerTy (.intTy 32)))] }] ∧
    BlockStmt.Codegen [Stmt.ReturnStmt] Sample.addBody = .ok Sample.addBody ∧
    Function.finish Sample.addBody 0 (.intTy 32) = .error .assertionFailed ∧
    Function.Codegen Sample.add Sample.context = .error .assertionFailed := by
  refine ⟨fun _ => rfl, fun _ => rfl, fun _ => rfl, by decide, by decide, by decide, by decide,
    by decide⟩

/-- C20: the lowering of `const int N = 3 + 4;` into the fresh module.
`ConstantExpr::Codegen` returns the null pair at once and does not evaluate the
expression, so the constant of line 95 is null: line 98 is reached with the
null constant and with the global `N`, of type `i32`, which line 96 created
without initializer; the cast of line 98 fails on the null constant and the
call does not return.  No declaration whose initializer is a constant
expression is lowered, in any context; the initializer of `N` is never the
constant 7. -/
theorem GlobalDecl.Codegen_constant_not_evaluated :
    (∀ ctx, ConstantExpr.Codegen ctx = ((none, false), ctx)) ∧
    (∀ ctx, Expr.ConstantExpr.Codegen ctx = (ConstantExpr.Codegen ctx).1) ∧
    Sample.constN.mOptValue = some Expr.ConstantExpr ∧
    GlobalDecl.getGlobal Sample.constN Sample.context = .ok ((none, false),
      { name := "main", functions := [],
        globals := [{ name := "N", valueType := .intTy 32, initializer := none }] },
      some 0) ∧
    GlobalDecl.Codegen Sample.constN Sample.context = .error .assertionFailed ∧
    (∀ (d : GlobalDecl) (ctx c : CodeGenContext) (r : LLVMValueSignPair),
      d.mOptValue = some Expr.ConstantExpr → GlobalDecl.Codegen d ctx ≠ .ok (r, c)) ∧
    ¬ (∃ m g, (Sample.afterGlobal (GlobalDecl.Codegen Sample.constN Sample.context)
        Sample.context).mModule = some m ∧ g ∈ m.globals ∧
        g.initializer = some (.constantInt (.intTy 32) 7)) := by
  refine ⟨fun _ => rfl, fun _ => rfl, rfl, by decide, by decide, ?_, ?_⟩
  · intro d ctx c r hd
    exact GlobalDecl.Codegen_null_constant (fun _ => by simp [GlobalDecl.constant, hd]; rfl)
      ctx c r
  · rintro ⟨m, g, hm, hg, hi⟩
    have h : (Sample.afterGlobal (GlobalDecl.Codegen Sample.constN Sample.context)
          Sample.context).mModule =
        some { name := "main", functions := [], globals := [] } := by
      decide
    rw [h] at hm
    cases hm
    simp at hg

/-- C21: `ReturnStmt::Codegen` returns the null pair and leaves the context as it
is, in every context: no instruction is appended to any block.  For the return
statement of `int add(int a, int b) { return a + b; }`, lowered where the body
starts, the insertion block is the block `entry` before and after the call and
its last instruction is the store of `b`, which is no terminator; the block
holds no return. -/
theorem ReturnStmt.Codegen_appends_nothing :
    (∀ ctx, ReturnStmt.Codegen ctx = ((none, false), ctx)) ∧
    (∀ ctx, Stmt.Codegen Stmt.ReturnStmt ctx = .ok (ReturnStmt.Codegen ctx).2) ∧
    Sample.addBody.insertBlock = some 0 ∧
    (ReturnStmt.Codegen Sample.addBody).2.insertBlock = some 0 ∧
    (ReturnStmt.Codegen Sample.addBody).2.blocks[0]? = Sample.addBody.blocks[0]? ∧
    ((ReturnStmt.Codegen Sample.addBody).2.blocks[0]?.map (fun b => b.insts.getLast?)) =
      some (some (.store (.argument 0 1 (.intTy 32)) (.instruction 1 (.pointerTy (.intTy 32))))) ∧
    ((ReturnStmt.Codegen Sample.addBody).2.blocks[0]?.map
      (fun b => b.insts.any Instruction.isTerminator)) = some false ∧
    backIsTerminator (ReturnStmt.Codegen Sample.addBody).2 0 = .ok false := by
  refine ⟨fun _ => rfl, fun _ => rfl, by decide, by decide, rfl, by decide, by decide, by decide⟩

/-- C22: the `Codegen` methods of the while, do-while and for statements (of both
forms) return the null pair and leave the context as it is, in every context:
no block is created, the current function gains no block and the insertion
point does not move.  For `void f(int x) { while (x) { } }`: after the loop
statement was lowered where the body starts, the function still has the block
`entry` as its only block and `entry` is still the insertion block; there is
no body block and no exit block. -/
theorem WhileStmt.Codegen_adds_no_block :
    (∀ ctx, WhileStmt.Codegen ctx = ((none, false), ctx)) ∧
    (∀ ctx, DoWhileStmt.Codegen ctx = ((none, false), ctx)) ∧
    (∀ ctx, ForStmt.Codegen ctx = ((none, false), ctx)) ∧
    (∀ ctx, ForDeclarationStmt.Codegen ctx = ((none, false), ctx)) ∧
    (∀ ctx, Stmt.Codegen Stmt.LoopStmt ctx = .ok (WhileStmt.Codegen ctx).2) ∧
    Sample.bodyStart.functions = Sample.entryOnly.1 ∧
    Sample.bodyStart.blocks = Sample.entryOnly.2 ∧
    Sample.bodyStart.insertBlock = some 0 ∧
    (WhileStmt.Codegen Sample.bodyStart).2.functions = Sample.entryOnly.1 ∧
    (WhileStmt.Codegen Sample.bodyStart).2.blocks = Sample.entryOnly.2 ∧
    (WhileStmt.Codegen Sample.bodyStart).2.insertBlock = some 0 ∧
    (Sample.contextOf (Function.Codegen Sample.loop Sample.context) Sample.context).functions.map
      (fun fn => fn.basicBlocks) = [[0]] := by
  refine ⟨fun _ => rfl, fun _ => rfl, fun _ => rfl, fun _ => rfl, fun _ => rfl, by decide,
    by decide, by decide, by decide, by decide, by decide, by decide⟩

/-- C23: `BreakStmt::Codegen` and `ContinueStmt::Codegen` return the null pair and
leave the context as it is, in every context: they return normally and have
emitted nothing, also where no loop is open.  The function
`void f(int x) { break; }`, whose break stands outside any loop, is lowered
without any failure: the call of `Function::Codegen` returns, and the block
`entry` holds the slot and the store of `x` and the implicit `ret void`. -/
theorem BreakStmt.Codegen_silent :
    (∀ ctx, BreakStmt.Codegen ctx = ((none, false), ctx)) ∧
    (∀ ctx, ContinueStmt.Codegen ctx = ((none, false), ctx)) ∧
    (∀ ctx, Stmt.Codegen Stmt.JumpStmt ctx = .ok (BreakStmt.Codegen ctx).2) ∧
    (∀ ctx, Stmt.Codegen Stmt.JumpStmt ctx = .ok (ContinueStmt.Codegen ctx).2) ∧
    Stmt.Codegen Stmt.JumpStmt Sample.bodyStart = .ok Sample.bodyStart ∧
    (∃ ctx', Function.Codegen Sample.strayBreak Sample.context = .ok (0, ctx') ∧
      ctx'.blocks =
        [{ name := "entry",
           insts := [.alloca 0 (.intTy 32) "x",
                     .store (.argument 0 0 (.intTy 32)) (.instruction 0 (.pointerTy (.intTy 32))),
                     .retVoid] }]) := by
  refine ⟨fun _ => rfl, fun _ => rfl, fun _ => rfl, fun _ => rfl, by decide, ?_⟩
  exact ⟨Sample.contextOf (Function.Codegen Sample.strayBreak Sample.context) Sample.context,
    by decide, by decide⟩

/-- C24: `LogAndExpr::Codegen` and `LogOrExpr::Codegen` return the null pair and
leave the context as it is, in every context: no operand is lowered, no
conditional branch is emitted and no block is created.  Lowered where the body
of `void f(int x)` starts, as for `0 && f()`, the call leaves the one block
`entry` with the slot and the store of `x`: there is no conditional branch, no
block for the right operand and no merge block, and the value returned is null. -/
theorem LogAndExpr.Codegen_no_branch :
    (∀ ctx, LogAndExpr.Codegen ctx = ((none, false), ctx)) ∧
    (∀ ctx, LogOrExpr.Codegen ctx = ((none, false), ctx)) ∧
    (∀ ctx, Expr.LogicalExpr.Codegen ctx = (LogAndExpr.Codegen ctx).1) ∧
    (∀ ctx, Expr.LogicalExpr.Codegen ctx = (LogOrExpr.Codegen ctx).1) ∧
    Sample.bodyStart.blocks = Sample.entryOnly.2 ∧
    (LogAndExpr.Codegen Sample.bodyStart).1 = (none, false) ∧
    (LogAndExpr.Codegen Sample.bodyStart).2.functions = Sample.entryOnly.1 ∧
    (LogAndExpr.Codegen Sample.bodyStart).2.blocks = Sample.entryOnly.2 ∧
    (LogOrExpr.Codegen Sample.bodyStart).2.blocks = Sample.entryOnly.2 ∧
    Sample.entryOnly.2.all (fun b => b.insts.all (fun i => !i.isTerminator)) = true := by
  refine ⟨fun _ => rfl, fun _ => rfl, fun _ => rfl, fun _ => rfl, by decide, rfl, by decide,
    by decide, by decide, by decide⟩

/-- C25, as stated, fails: the empty token list and the list that holds `const`
alone leave no token, for which the claim gives `i32`, but `PrimaryType::TypeGen`
fails its assertion of line 22, respectively of line 27, and returns nothing. -/
theorem PrimaryType.TypeGen_const_alone_fails :
    PrimaryType.described [] = some (.intTy 32) ∧
    PrimaryType.described [.kw_const] = some (.intTy 32) ∧
    (∀ mSign, PrimaryType.TypeGen [] mSign = .error .assertionFailed) ∧
    (∀ mSign, PrimaryType.TypeGen [.kw_const] mSign = .error .assertionFailed) ∧
    ¬ (∀ (mTypes : List TokenType) (mSign : Bool),
      ∃ s, PrimaryType.TypeGen mTypes mSign = .ok (PrimaryType.described mTypes, s)) := by
  refine ⟨rfl, rfl, fun _ => rfl, fun _ => rfl, ?_⟩
  intro h
  obtain ⟨s, hs⟩ := h [.kw_const] true
  rw [show PrimaryType.TypeGen [.kw_const] true = .error .assertionFailed from rfl] at hs
  cases hs

/-- C25, amended: for a token list that holds a token after its optional leading
`const`, `PrimaryType::TypeGen` returns, and the type returned is the one
described: one leading `const` and then one `signed` or `unsigned` are skipped;
when no token remains the type is `i32`; otherwise the next token alone
decides, void for `void`, `i8` for `char`, `i16` for `short`, `i32` for `int`,
`i64` for `long`, float for `float`, double for `double` and null for any other
token.  Tokens appended to a list that holds its deciding token change
nothing, so `long` gives `i64` whether or not a second `long` follows. -/
theorem PrimaryType.TypeGen_described (mTypes : List TokenType) (mSign : Bool)
    (h : PrimaryType.skipConst mTypes ≠ []) :
    PrimaryType.TypeGen mTypes mSign =
      .ok (PrimaryType.described mTypes, PrimaryType.signAfter mTypes mSign) ∧
    (PrimaryType.skipSign (PrimaryType.skipConst mTypes) ≠ [] → ∀ more,
      PrimaryType.TypeGen (mTypes ++ more) mSign =
        .ok (PrimaryType.described mTypes, PrimaryType.signAfter mTypes mSign)) := by
  refine ⟨PrimaryType.TypeGen_eq_described mTypes mSign h, ?_⟩
  intro h2 more
  obtain ⟨a, b, c⟩ := PrimaryType.described_append mTypes more mSign h2
  rw [PrimaryType.TypeGen_eq_described _ mSign a, b, c]

/-- For `const unsigned long`: the call returns `i64` and the sign flag false,
and so it does with a second `long` and any further token appended. -/
theorem PrimaryType.TypeGen_described_witness :
    PrimaryType.skipConst [.kw_const, .kw_unsigned, .kw_long] ≠ [] ∧
    PrimaryType.skipSign (PrimaryType.skipConst [.kw_const, .kw_unsigned, .kw_long]) ≠ [] ∧
    PrimaryType.TypeGen [.kw_const, .kw_unsigned, .kw_long] true = .ok (some (.intTy 64), false) ∧
    PrimaryType.TypeGen ([.kw_const, .kw_unsigned, .kw_long] ++ [.kw_long, .kw_int]) true =
      .ok (some (.intTy 64), false) :=
  ⟨by decide, by decide,
    (PrimaryType.TypeGen_described [.kw_const, .kw_unsigned, .kw_long] true (by decide)).1,
    (PrimaryType.TypeGen_described [.kw_const, .kw_unsigned, .kw_long] true (by decide)).2
      (by decide) [.kw_long, .kw_int]⟩

/-- C26, as stated, fails: for the non-empty list that holds `const` alone,
`PrimaryType::TypeGen` fails the assertion of line 27.  For the list that holds
`long` alone the call returns `i64`, and the look-ahead of line 48 reads
position 1 of a list of length 1; it does so too for `const unsigned long`,
where it reads position 3 of a list of length 3, while for `long long` the
position read, 1, is inside the list. -/
theorem PrimaryType.TypeGen_nonempty_fails :
    (∀ mSign, PrimaryType.TypeGen [.kw_const] mSign = .error .assertionFailed) ∧
    (PrimaryType.TypeGenTraced [.kw_long] true).result = .ok (some (.intTy 64), true) ∧
    (PrimaryType.TypeGenTraced [.kw_long] true).lookAhead = some 1 ∧
    (PrimaryType.TypeGenTraced [.kw_const, .kw_unsigned, .kw_long] true).lookAhead = some 3 ∧
    (PrimaryType.TypeGenTraced [.kw_long, .kw_long] true).lookAhead = some 1 ∧
    ¬ (∀ (mTypes : List TokenType) (mSign : Bool), mTypes ≠ [] →
      (∃ r, PrimaryType.TypeGen mTypes mSign = .ok r) ∧
      (∀ p ∈ (PrimaryType.TypeGenTraced mTypes mSign).reads, p < mTypes.length) ∧
      ∀ p, (PrimaryType.TypeGenTraced mTypes mSign).lookAhead = some p → p < mTypes.length) := by
  refine ⟨fun _ => rfl, by decide, by decide, by decide, by decide, ?_⟩
  intro h
  obtain ⟨⟨r, hr⟩, _⟩ := h [.kw_const] true (by decide)
  rw [show PrimaryType.TypeGen [.kw_const] true = .error .assertionFailed from rfl] at hr
  cases hr

/-- C26, amended: for a token list that holds a token after its optional leading
`const`, `PrimaryType::TypeGen` runs to completion without failing an
assertion, and every position the expressions `mTypes[cur]` of lines 24, 28, 31
and 38 read is within the bounds of the list.  A list without such a token,
the empty list or `const` alone, fails an assertion. -/
theorem PrimaryType.TypeGen_completes (mTypes : List TokenType) (mSign : Bool)
    (h : PrimaryType.skipConst mTypes ≠ []) :
    (∃ r, PrimaryType.TypeGen mTypes mSign = .ok r) ∧
    (PrimaryType.TypeGenTraced mTypes mSign).result = PrimaryType.TypeGen mTypes mSign ∧
    (∀ p ∈ (PrimaryType.TypeGenTraced mTypes mSign).reads, p < mTypes.length) ∧
    (∀ (l : List TokenType) (s : Bool), PrimaryType.skipConst l = [] →
      PrimaryType.TypeGen l s = .error .assertionFailed) := by
  refine ⟨⟨_, PrimaryType.TypeGen_eq_described mTypes mSign h⟩,
    PrimaryType.TypeGenTraced_result mTypes mSign,
    PrimaryType.TypeGenTraced_reads mTypes mSign, ?_⟩
  intro l s hl
  match l, hl with
  | [], _ => rfl
  | [t0], hl =>
    cases t0 <;> simp [PrimaryType.skipConst] at hl
    rfl
  | t0 :: t1 :: rest, hl =>
    cases t0 <;> simp [PrimaryType.skipConst] at hl

/-- For `const unsigned long`: the call returns, and the positions read by the
expressions `mTypes[cur]` are 0, 1, 1 and 2, all inside the list of length 3. -/
theorem PrimaryType.TypeGen_completes_witness :
    PrimaryType.skipConst [.kw_const, .kw_unsigned, .kw_long] ≠ [] ∧
    (∃ r, PrimaryType.TypeGen [.kw_const, .kw_unsigned, .kw_long] true = .ok r) ∧
    (PrimaryType.TypeGenTraced [.kw_const, .kw_unsigned, .kw_long] true).reads = [0, 1, 1, 2] ∧
    ∀ p ∈ (PrimaryType.TypeGenTraced [.kw_const, .kw_unsigned, .kw_long] true).reads,
      p < [TokenType.kw_const, .kw_unsigned, .kw_long].length :=
  ⟨by decide,
    (PrimaryType.TypeGen_completes [.kw_const, .kw_unsigned, .kw_long] true (by decide)).1,
    by decide,
    (PrimaryType.TypeGen_completes [.kw_const, .kw_unsigned, .kw_long] true (by decide)).2.2.1⟩

/-- For `if (x) { }` with a condition whose lowering returns the value of `x`,
which the `Codegen` methods of this file do not do, lowered where the body of
`void f(int x)` starts, the then block is block 1; the empty arm inserts
nothing, so when line 165 inspects the last instruction of block 1 the block
holds no instruction, `back()` has nothing to return and the call does not
return.  The same happens at line 172 for an empty else arm, and
`Function::Codegen` fails on a function with this body.  Line 132 of
`Function::Codegen` asks `block.empty()` before it calls `back()`:
`void f() { }` is lowered and its empty block gets the `ret void`. -/
theorem IfStmt.Codegen_back_of_empty_arm :
    IfStmt.enter Sample.argX false Sample.bodyStart =
      .ok ({ function := some 0, thenBB := 1, elseBB := none, mergeBB := 2 }, Sample.afterEnter) ∧
    Stmt.Codegen (.BlockStmt []) Sample.afterEnter = .ok Sample.afterEnter ∧
    Sample.afterEmptyArm.blocks[1]? = some { name := "", insts := [] } ∧
    backIsTerminator Sample.afterEmptyArm 1 = .error .backOfEmptyBlock ∧
    IfStmt.fallThrough Sample.afterEmptyArm 1 2 = .error .backOfEmptyBlock ∧
    Stmt.Codegen Sample.ifEmpty Sample.bodyStart = .error .backOfEmptyBlock ∧
    Stmt.Codegen Sample.ifEmptyElse Sample.bodyStart = .error .backOfEmptyBlock ∧
    Function.Codegen Sample.emptyArm Sample.context = .error .backOfEmptyBlock ∧
    (∃ ctx', Function.Codegen Sample.emptyBody Sample.context = .ok (0, ctx') ∧
      ctx'.blocks = [{ name := "entry", insts := [.retVoid] }]) := by
  refine ⟨by decide, by decide, by decide, by decide, by decide, by decide,
    by decide, by decide, ?_⟩
  exact ⟨Sample.contextOf (Function.Codegen Sample.emptyBody Sample.context) Sample.context,
    by decide, by decide⟩

/-- Lines 153 to 157 on a condition value that is not null, which no `Codegen` of
this file returns: the zero the comparison is made with is `getInt32(0)`
for every integer condition and the `float` zero for every floating-point
condition, whatever the type of the condition value is.  For the parameters of
`void f(long x, double y)`: the comparison emitted for `x` has the operands `x`
of type `i64` and the zero of type `i32`; the one emitted for `y` has the
operands `y` of type double and the zero of type float.  The operand types
agree for an integer condition of 32 bits only, not for 8, 16 and 64 bits, and
for a condition of type float, not double. -/
theorem IfStmt.Codegen_zero_type_fixed :
    (Sample.wideBody.functions.map (fun fn => fn.args)) =
      [[{ ty := .intTy 64, name := "x" }, { ty := .doubleTy, name := "y" }]] ∧
    (∀ (ctx : CodeGenContext) (func argNo bits : Nat),
      IfStmt.condition (.argument func argNo (.intTy bits)) ctx =
        CreateCmp ctx .ICMP_NE (.argument func argNo (.intTy bits)) (.constantInt (.intTy 32) 0)) ∧
    (∀ (ctx : CodeGenContext) (func argNo : Nat),
      IfStmt.condition (.argument func argNo .doubleTy) ctx =
        CreateCmp ctx .FCMP_UNE (.argument func argNo .doubleTy) (.constantFP .floatTy 0) ∧
      IfStmt.condition (.argument func argNo .floatTy) ctx =
        CreateCmp ctx .FCMP_UNE (.argument func argNo .floatTy) (.constantFP .floatTy 0)) ∧
    (IfStmt.condition Sample.argLong Sample.wideBody).2.lastInst 0 =
      some (.cmp 2 .ICMP_NE Sample.argLong (.constantInt (.intTy 32) 0)) ∧
    Sample.argLong.getType = .intTy 64 ∧
    (Value.constantInt (.intTy 32) 0).getType = .intTy 32 ∧
    (IfStmt.condition Sample.argDouble Sample.wideBody).2.lastInst 0 =
      some (.cmp 2 .FCMP_UNE Sample.argDouble (.constantFP .floatTy 0)) ∧
    Sample.argDouble.getType = .doubleTy ∧
    (Value.constantFP .floatTy 0).getType = .floatTy ∧
    (∀ (func argNo bits : Nat),
      (Value.argument func argNo (.intTy bits)).getType = (getInt32 0).getType ↔ bits = 32) ∧
    (Value.argument 0 0 (.intTy 8)).getType ≠ (getInt32 0).getType ∧
    (Value.argument 0 0 (.intTy 16)).getType ≠ (getInt32 0).getType ∧
    (Value.argument 0 0 (.intTy 64)).getType ≠ (getInt32 0).getType ∧
    (Value.argument 0 0 .doubleTy).getType ≠ (Value.constantFP .floatTy 0).getType := by
  refine ⟨by decide, fun _ _ _ _ => rfl, fun _ _ _ => ⟨rfl, rfl⟩, by decide, rfl, rfl, by decide,
    rfl, rfl, ?_, by decide, by decide, by decide, by decide⟩
  intro func argNo bits
  simp [Value.getType, getInt32]

/-- C29: `int x;` followed by `float x;`, both without initializer, lowered into
the fresh module.  Both calls return.  The second finds the global `x` of the
first, of type `i32`, and gives it the zero built for its own type: the module
ends with the one global `x` of type `i32` whose initializer is the `float`
zero, a value of type float.  `verifyModule` rejects the module and
`Program::Codegen` ends in `std::terminate()` on this program.  (For `int *p;`
the global `p` has no initializer at all when line 98 is reached, and the call
stops there.) -/
theorem GlobalDecl.Codegen_initializer_type_mismatch :
    Sample.intX.mOptValue = none ∧ Sample.floatX.mOptValue = none ∧
    Sample.floatX.mName = Sample.intX.mName ∧
    (∃ r c, GlobalDecl.Codegen Sample.intX Sample.context = .ok (r, c) ∧
      ∃ r2, GlobalDecl.Codegen Sample.floatX c = .ok (r2, Sample.afterIntFloat)) ∧
    Sample.afterIntFloat.mModule =
      some { name := "main", functions := [],
             globals := [{ name := "x", valueType := .intTy 32,
                           initializer := some (.constantFP .floatTy 0) }] } ∧
    (Value.constantFP .floatTy 0).getType = .floatTy ∧
    (Value.constantFP .floatTy 0).getType ≠ LLVMType.intTy 32 ∧
    (∃ m, Sample.afterIntFloat.mModule = some m ∧ verifyModule Sample.afterIntFloat m = true) ∧
    Program.Codegen Sample.redeclared Sample.context = .error .terminated ∧
    GlobalDecl.getGlobal Sample.pointerP Sample.context = .ok ((none, false),
      { name := "main", functions := [],
        globals := [{ name := "p", valueType := .pointerTy (.intTy 32), initializer := none }] },
      some 0) ∧
    GlobalDecl.Codegen Sample.pointerP Sample.context = .error .assertionFailed := by
  refine ⟨rfl, rfl, rfl, ?_, by decide, rfl, by decide, ?_, by decide, by decide, by decide⟩
  · exact ⟨(some (.constantInt (.intTy 32) 0), true),
      Sample.afterGlobal (GlobalDecl.Codegen Sample.intX Sample.context) Sample.context,
      by decide, (some (.constantFP .floatTy 0), true), by decide⟩
  · exact ⟨{ name := "main", functions := [],
             globals := [{ name := "x", valueType := .intTy 32,
                           initializer := some (.constantFP .floatTy 0) }] },
      by decide, by decide⟩

/-- C30: the constructor of `TypeName` does not use its parameter
`abstractDeclarator`: the member is initialised from itself, so
`getAbstractDeclarator()` returns what the storage of the member held before
and is the same whatever declarator the type name was constructed with.  For
`int *` constructed with the declarator `*` in storage that holds none, it
returns null; for `int` constructed without declarator in storage that holds
one, it returns that one.  `getSpecifierQualifiers()` returns the specifier
list given to the constructor. -/
theorem Syntax.TypeName.getAbstractDeclarator_ignores_argument :
    (∀ (TokIter DeclarationSpecifiers AbstractDeclarator : Type) (begin : TokIter)
      (specifierQualifiers : DeclarationSpecifiers)
      (abstractDeclarator indeterminate : Option AbstractDeclarator),
      (Syntax.TypeName.new begin specifierQualifiers abstractDeclarator
        indeterminate).getAbstractDeclarator = indeterminate ∧
      (Syntax.TypeName.new begin specifierQualifiers abstractDeclarator
        indeterminate).getSpecifierQualifiers = specifierQualifiers) ∧
    Sample.typeName = Syntax.TypeName.new 0 "int" (some "*") none ∧
    Sample.typeName.getAbstractDeclarator = none ∧
    Sample.typeName.getAbstractDeclarator ≠ some "*" ∧
    Sample.typeNamePlain = Syntax.TypeName.new 0 "int" none (some "*") ∧
    Sample.typeNamePlain.getAbstractDeclarator = some "*" ∧
    Sample.typeName.getSpecifierQualifiers = "int" := by
  refine ⟨?_, rfl, rfl, by decide, rfl, rfl, rfl⟩
  intro _ _ _ begin specs d u
  refine ⟨?_, rfl⟩
  cases u <;> rfl

end lcc
